import Mathlib

/-!
Verification of the BusTub storage/execution core against its design
specification.  Each subsystem the claims touch is shallowly embedded:

* `BusTub.Replacer*`  — `src/buffer/lru_k_replacer.cpp` (the LRU-K replacer).
* `BusTub.Guard*`     — `src/storage/page/page_guard.cpp` page guards.
* `BusTub.Bpm*`       — `src/buffer/buffer_pool_manager.cpp`.
* `BusTub.HT*`        — `src/container/disk/hash/disk_extendible_hash_table.cpp`.
* `BusTub.Nlj*`, `BusTub.IndexScan*`, `BusTub.InsertExec*`, `BusTub.Sort*`
  — the corresponding executors under `src/execution/`.

C++ `std::list` + iterator-map pairs are modelled as Lean `List`s with the
front of the `List` as the front of the `std::list`; erasing through a
stored iterator that is valid is modelled by `List.erase` (such an
iterator points at the front-most occurrence of the frame, which is also
the first occurrence `List.erase` removes), and erasing through an
iterator the map never held — `operator[]` value-initializes it — is
undefined behaviour, modelled as `none`.  `size_t` arithmetic that can wrap is
modelled explicitly modulo `2^64`.  Machine maps (`std::unordered_map`)
become Lean functions.  Fallible operations (`BUSTUB_ASSERT`) return
`Option`: `none` is an assertion failure/abort.
-/

namespace BusTub

/-- `size_t` modulus used for the replacer's `curr_size_` counter. -/
def u64 : Nat := 2 ^ 64

/-- `curr_size_--` on a `size_t`: wraps at zero. -/
def decWrap (n : Nat) : Nat := (n + (u64 - 1)) % u64

/-- `curr_size_++` on a `size_t`. -/
def incWrap (n : Nat) : Nat := (n + 1) % u64

/-- State of `LRUKReplacer`: per-frame access counts, per-frame evictable
flags, the two `std::list`s, and `curr_size_`.  The iterator maps
(`history_map_`, `cache_map_`) are not stored separately: `cache_map_`
membership always coincides with `cache_list_` membership (every code path
that pushes/erases one does the other), and erasure through a stored
iterator is `List.erase` (see the module comment). -/
structure ReplacerState where
  accessCount : Nat → Nat
  isEvictable : Nat → Bool
  historyList : List Nat
  cacheList : List Nat
  currSize : Nat

/-- Freshly constructed replacer: all counts zero, both lists empty. -/
def replacerInit : ReplacerState :=
  { accessCount := fun _ => 0
    isEvictable := fun _ => false
    historyList := []
    cacheList := []
    currSize := 0 }

/-- `LRUKReplacer::RecordAccess`.  `none` = failed bounds assertion, or
undefined behaviour in the `count == k` branch (below). -/
def recordAccess (k rsize : Nat) (s : ReplacerState) (f : Nat) :
    Option ReplacerState :=
  if f < rsize then
    let c := s.accessCount f + 1
    let s1 := { s with accessCount := Function.update s.accessCount f c }
    if c < k then
      -- push_front into the history list (no presence check in the code)
      some { s1 with historyList := f :: s1.historyList }
    else if c = k then
      -- move from history list to front of cache list.  The erase goes
      -- through the stored iterator
      -- (`history_list_.erase(history_map_[frame_id])`), which is valid
      -- exactly when the frame is in the history list (stored by the
      -- preceding `count < k` access and pointing at the frame's
      -- front-most occurrence).  With `k = 1` the first access reaches
      -- this branch with no `history_map_` entry: `operator[]`
      -- value-initializes the iterator and erasing through it is
      -- undefined behaviour, modelled as `none`.
      if f ∈ s1.historyList then
        some { s1 with
                historyList := s1.historyList.erase f
                cacheList := f :: s1.cacheList }
      else none
    else
      -- count exceeds k: reinsert at front of cache list
      let cl := if f ∈ s1.cacheList then s1.cacheList.erase f else s1.cacheList
      some { s1 with cacheList := f :: cl }
  else none

/-- `LRUKReplacer::SetEvictable`.  `none` = failed bounds assertion. -/
def setEvictable (rsize : Nat) (s : ReplacerState) (f : Nat) (flag : Bool) :
    Option ReplacerState :=
  if f < rsize then
    if s.accessCount f = 0 then some s
    else
      let sz :=
        if s.isEvictable f = true ∧ flag = false then decWrap s.currSize
        else if s.isEvictable f = false ∧ flag = true then incWrap s.currSize
        else s.currSize
      some { s with
              currSize := sz
              isEvictable := Function.update s.isEvictable f flag }
  else none

/-- `LRUKReplacer::Evict`: scan the history list from the tail
(`rbegin..rend`), then the cache list, for the first evictable frame;
on success zero its count, erase it from its list, mark non-evictable and
decrement `curr_size_`. -/
def evictStep (s : ReplacerState) : Option Nat × ReplacerState :=
  if s.currSize = 0 then (none, s)
  else
    match s.historyList.reverse.find? s.isEvictable with
    | some f =>
        (some f,
         { s with
            accessCount := Function.update s.accessCount f 0
            historyList := s.historyList.erase f
            currSize := decWrap s.currSize
            isEvictable := Function.update s.isEvictable f false })
    | none =>
        match s.cacheList.reverse.find? s.isEvictable with
        | some f =>
            (some f,
             { s with
                accessCount := Function.update s.accessCount f 0
                cacheList := s.cacheList.erase f
                currSize := decWrap s.currSize
                isEvictable := Function.update s.isEvictable f false })
        | none => (none, s)

/-- `LRUKReplacer::Remove`.  The code's second assertion is
`BUSTUB_ASSERT(!is_evictable_map_[frame_id], "Frame ID is non-evictable.")`,
i.e. it aborts when the frame IS evictable; this is mirrored literally. -/
def removeFrame (k rsize : Nat) (s : ReplacerState) (f : Nat) :
    Option ReplacerState :=
  if f < rsize then
    if s.isEvictable f = true then none
    else if s.accessCount f = 0 then some s
    else
      let s1 :=
        if k ≤ s.accessCount f then
          { s with cacheList := s.cacheList.erase f }
        else
          { s with historyList := s.historyList.erase f }
      some { s1 with
              currSize := decWrap s1.currSize
              accessCount := Function.update s1.accessCount f 0
              isEvictable := Function.update s1.isEvictable f false }
  else none

/-- One public replacer operation. -/
inductive ReplacerOp where
  | recordAccess (frame : Nat)
  | setEvictable (frame : Nat) (flag : Bool)
  | evict
  | remove (frame : Nat)

/-- Step a replacer state by one operation; `none` = an assertion failed. -/
def replacerStep (k rsize : Nat) (s : ReplacerState) :
    ReplacerOp → Option ReplacerState
  | .recordAccess f => recordAccess k rsize s f
  | .setEvictable f b => setEvictable rsize s f b
  | .evict => some (evictStep s).2
  | .remove f => removeFrame k rsize s f

/-- Run a sequence of operations on a freshly constructed replacer. -/
def runReplacer (k rsize : Nat) (ops : List ReplacerOp) :
    Option ReplacerState :=
  ops.foldlM (replacerStep k rsize) replacerInit

/-- The per-frame classification invariant claimed by the spec: a frame with
access count `c` is in the history list iff `0 < c < k`, in the cache list
iff `c ≥ k`, in neither iff `c = 0`, and occurs at most once per list and
never in both. -/
def ReplacerClassified (k : Nat) (s : ReplacerState) : Prop :=
  ∀ f,
    (f ∈ s.historyList ↔ 0 < s.accessCount f ∧ s.accessCount f < k) ∧
    (f ∈ s.cacheList ↔ k ≤ s.accessCount f) ∧
    (s.accessCount f = 0 ↔ f ∉ s.historyList ∧ f ∉ s.cacheList) ∧
    s.historyList.count f ≤ 1 ∧
    s.cacheList.count f ≤ 1 ∧
    ¬(f ∈ s.historyList ∧ f ∈ s.cacheList)

theorem not_mem_erase_self_of_count_le_one {l : List Nat} {f : Nat}
    (h1 : l.count f ≤ 1) : f ∉ l.erase f := by
  intro hm
  have h0 : 0 < (l.erase f).count f := List.count_pos_iff_mem.mpr hm
  have he := List.count_erase_self f l
  omega

theorem recordAccess_classified {k rsize : Nat} {s s' : ReplacerState} {f : Nat}
    (hk1 : 0 < k) (hk2 : k ≤ 2) (hs : ReplacerClassified k s)
    (h : recordAccess k rsize s f = some s') : ReplacerClassified k s' := by
  simp only [recordAccess] at h
  split_ifs at h with hb h1 h2 hmemH hmem
  · -- count < k after increment: frame freshly pushed onto the history list
    obtain rfl := Option.some.inj h
    have hf0 : s.accessCount f = 0 := by omega
    obtain ⟨hfH, hfC⟩ := (hs f).2.2.1.mp hf0
    intro g
    dsimp only
    by_cases hg : g = f
    · subst hg
      refine ⟨?_, ?_, ?_, ?_, ?_, ?_⟩
      · rw [Function.update_same]
        exact ⟨fun _ => by omega, fun _ => List.mem_cons_self g _⟩
      · rw [Function.update_same]
        exact ⟨fun hc => absurd hc hfC, fun hc => by omega⟩
      · rw [Function.update_same]
        exact ⟨fun hc => by omega,
          fun hc => absurd (List.mem_cons_self g _) hc.1⟩
      · rw [List.count_cons_self]
        have := List.count_eq_zero.mpr hfH
        omega
      · exact (hs g).2.2.2.2.1
      · intro hc; exact hfC hc.2
    · have h6 := hs g
      simp only [List.mem_cons, Function.update_noteq hg,
        List.count_cons_of_ne hg, hg, false_or] at *
      exact h6
  · -- count = k after increment and the stored iterator valid: moved
    -- from the history list to the cache list
    obtain rfl := Option.some.inj h
    have hk12 : k = 1 ∨ k = 2 := by omega
    rcases hk12 with rfl | rfl
    · -- k = 1 cannot reach this case: the erase branch requires the
      -- frame in the history list, but its access count was 0
      have hf0 : s.accessCount f = 0 := by omega
      exact absurd hmemH ((hs f).2.2.1.mp hf0).1
    · -- k = 2: the frame was exactly once in the history list
      have hf1 : s.accessCount f = 1 := by omega
      have hfH : f ∈ s.historyList := (hs f).1.mpr (by omega)
      have hfC : f ∉ s.cacheList := by
        intro hc; have := (hs f).2.1.mp hc; omega
      intro g
      dsimp only
      by_cases hg : g = f
      · subst hg
        refine ⟨?_, ?_, ?_, ?_, ?_, ?_⟩
        · rw [Function.update_same]
          exact ⟨fun hc => absurd hc
              (not_mem_erase_self_of_count_le_one (hs g).2.2.2.1),
            fun hc => by omega⟩
        · rw [Function.update_same]
          exact ⟨fun _ => by omega, fun _ => List.mem_cons_self g _⟩
        · rw [Function.update_same]
          exact ⟨fun hc => by omega,
            fun hc => absurd (List.mem_cons_self g _) hc.2⟩
        · rw [List.count_erase_self]
          have := (hs g).2.2.2.1
          omega
        · rw [List.count_cons_self]
          have := List.count_eq_zero.mpr hfC
          omega
        · intro hc
          exact not_mem_erase_self_of_count_le_one (hs g).2.2.2.1 hc.1
      · have h6 := hs g
        simp only [List.mem_cons, Function.update_noteq hg, hg, false_or,
          List.count_cons_of_ne hg, List.mem_erase_of_ne hg,
          List.count_erase_of_ne hg] at *
        exact h6
  · -- count exceeds k: reinsert at the front of the cache list
    obtain rfl := Option.some.inj h
    have hck : k ≤ s.accessCount f := by omega
    have hfC : f ∈ s.cacheList := (hs f).2.1.mpr hck
    have hfH : f ∉ s.historyList := by
      intro hh; exact (hs f).2.2.2.2.2 ⟨hh, hfC⟩
    have hcnt1 : s.cacheList.count f = 1 := by
      have := List.count_pos_iff_mem.mpr hfC
      have := (hs f).2.2.2.2.1
      omega
    intro g
    dsimp only
    by_cases hg : g = f
    · subst hg
      refine ⟨?_, ?_, ?_, ?_, ?_, ?_⟩
      · rw [Function.update_same]
        exact ⟨fun hh => absurd hh hfH, fun hc => by omega⟩
      · rw [Function.update_same]
        exact ⟨fun _ => by omega, fun _ => List.mem_cons_self g _⟩
      · rw [Function.update_same]
        exact ⟨fun hc => by omega,
          fun hc => absurd (List.mem_cons_self g _) hc.2⟩
      · exact (hs g).2.2.2.1
      · rw [List.count_cons_self, List.count_erase_self]; omega
      · intro hc; exact hfH hc.1
    · have h6 := hs g
      simp only [List.mem_cons, Function.update_noteq hg, hg, false_or,
        List.count_cons_of_ne hg, List.mem_erase_of_ne hg,
        List.count_erase_of_ne hg] at *
      exact h6
  · -- the code checked membership in the cache map, which the invariant forces
    exact absurd ((hs f).2.1.mpr (by omega)) hmem

theorem setEvictable_classified {k rsize : Nat} {s s' : ReplacerState}
    {f : Nat} {b : Bool} (hs : ReplacerClassified k s)
    (h : setEvictable rsize s f b = some s') : ReplacerClassified k s' := by
  simp only [setEvictable] at h
  split_ifs at h <;> (obtain rfl := Option.some.inj h; exact hs)

theorem evictStep_classified {k : Nat} {s : ReplacerState}
    (hk1 : 0 < k) (hs : ReplacerClassified k s) :
    ReplacerClassified k (evictStep s).2 := by
  unfold evictStep
  split
  · exact hs
  · split
    · next f hfind =>
      have hfH : f ∈ s.historyList :=
        List.mem_reverse.mp (List.mem_of_find?_eq_some hfind)
      have hfC : f ∉ s.cacheList := by
        intro hc; exact (hs f).2.2.2.2.2 ⟨hfH, hc⟩
      intro g
      dsimp only
      by_cases hg : g = f
      · subst hg
        refine ⟨?_, ?_, ?_, ?_, ?_, ?_⟩
        · simp only [Function.update_same]
          constructor
          · intro hc
            exact absurd hc (not_mem_erase_self_of_count_le_one (hs g).2.2.2.1)
          · intro hc; omega
        · simp only [Function.update_same]
          constructor
          · intro hc; exact absurd hc hfC
          · intro hc; omega
        · simp only [Function.update_same]
          constructor
          · intro _
            exact ⟨not_mem_erase_self_of_count_le_one (hs g).2.2.2.1, hfC⟩
          · intro _; trivial
        · rw [List.count_erase_self]; have := (hs g).2.2.2.1; omega
        · exact (hs g).2.2.2.2.1
        · intro hc; exact hfC hc.2
      · have h6 := hs g
        simp only [Function.update_noteq hg, List.mem_erase_of_ne hg,
          List.count_erase_of_ne hg] at *
        exact h6
    · split
      · next f hfind =>
        have hfC : f ∈ s.cacheList :=
          List.mem_reverse.mp (List.mem_of_find?_eq_some hfind)
        have hfH : f ∉ s.historyList := by
          intro hh; exact (hs f).2.2.2.2.2 ⟨hh, hfC⟩
        intro g
        dsimp only
        by_cases hg : g = f
        · subst hg
          refine ⟨?_, ?_, ?_, ?_, ?_, ?_⟩
          · simp only [Function.update_same]
            constructor
            · intro hh; exact absurd hh hfH
            · intro hc; omega
          · simp only [Function.update_same]
            constructor
            · intro hc
              exact absurd hc
                (not_mem_erase_self_of_count_le_one (hs g).2.2.2.2.1)
            · intro hc; omega
          · simp only [Function.update_same]
            constructor
            · intro _
              exact ⟨hfH,
                not_mem_erase_self_of_count_le_one (hs g).2.2.2.2.1⟩
            · intro _; trivial
          · exact (hs g).2.2.2.1
          · rw [List.count_erase_self]
            have := (hs g).2.2.2.2.1; omega
          · intro hc; exact hfH hc.1
        · have h6 := hs g
          simp only [Function.update_noteq hg, List.mem_erase_of_ne hg,
            List.count_erase_of_ne hg] at *
          exact h6
      · exact hs

theorem removeFrame_classified {k rsize : Nat} {s s' : ReplacerState} {f : Nat}
    (hk1 : 0 < k) (hs : ReplacerClassified k s)
    (h : removeFrame k rsize s f = some s') : ReplacerClassified k s' := by
  simp only [removeFrame] at h
  split_ifs at h with hb hev h0 hkc
  · obtain rfl := Option.some.inj h; exact hs
  · -- k ≤ access count: erase from the cache list, zero the count
    obtain rfl := Option.some.inj h
    have hfC : f ∈ s.cacheList := (hs f).2.1.mpr hkc
    have hfH : f ∉ s.historyList := by
      intro hh; exact (hs f).2.2.2.2.2 ⟨hh, hfC⟩
    intro g
    dsimp only
    by_cases hg : g = f
    · subst hg
      refine ⟨?_, ?_, ?_, ?_, ?_, ?_⟩
      · simp only [Function.update_same]
        constructor
        · intro hh; exact absurd hh hfH
        · intro hc; omega
      · simp only [Function.update_same]
        constructor
        · intro hc
          exact absurd hc
            (not_mem_erase_self_of_count_le_one (hs g).2.2.2.2.1)
        · intro hc; omega
      · simp only [Function.update_same]
        constructor
        · intro _
          exact ⟨hfH, not_mem_erase_self_of_count_le_one (hs g).2.2.2.2.1⟩
        · intro _; trivial
      · exact (hs g).2.2.2.1
      · rw [List.count_erase_self]; have := (hs g).2.2.2.2.1; omega
      · intro hc; exact hfH hc.1
    · have h6 := hs g
      simp only [Function.update_noteq hg, List.mem_erase_of_ne hg,
        List.count_erase_of_ne hg] at *
      exact h6
  · -- access count below k: erase from the history list, zero the count
    obtain rfl := Option.some.inj h
    have hfH : f ∈ s.historyList := (hs f).1.mpr (by omega)
    have hfC : f ∉ s.cacheList := by
      intro hc; exact (hs f).2.2.2.2.2 ⟨hfH, hc⟩
    intro g
    dsimp only
    by_cases hg : g = f
    · subst hg
      refine ⟨?_, ?_, ?_, ?_, ?_, ?_⟩
      · simp only [Function.update_same]
        constructor
        · intro hc
          exact absurd hc (not_mem_erase_self_of_count_le_one (hs g).2.2.2.1)
        · intro hc; omega
      · simp only [Function.update_same]
        constructor
        · intro hc; exact absurd hc hfC
        · intro hc; omega
      · simp only [Function.update_same]
        constructor
        · intro _
          exact ⟨not_mem_erase_self_of_count_le_one (hs g).2.2.2.1, hfC⟩
        · intro _; trivial
      · rw [List.count_erase_self]; have := (hs g).2.2.2.1; omega
      · exact (hs g).2.2.2.2.1
      · intro hc; exact hfC hc.2
    · have h6 := hs g
      simp only [Function.update_noteq hg, List.mem_erase_of_ne hg,
        List.count_erase_of_ne hg] at *
      exact h6

theorem replacerStep_classified {k rsize : Nat} {s s' : ReplacerState}
    {op : ReplacerOp} (hk1 : 0 < k) (hk2 : k ≤ 2)
    (hs : ReplacerClassified k s)
    (h : replacerStep k rsize s op = some s') : ReplacerClassified k s' := by
  cases op with
  | recordAccess f => exact recordAccess_classified hk1 hk2 hs h
  | setEvictable f b => exact setEvictable_classified hs h
  | evict =>
      obtain rfl := Option.some.inj h
      exact evictStep_classified hk1 hs
  | remove f => exact removeFrame_classified hk1 hs h

theorem replacerInit_classified {k : Nat} (hk1 : 0 < k) :
    ReplacerClassified k replacerInit := by
  intro g
  refine ⟨?_, ?_, ?_, ?_, ?_, ?_⟩ <;> simp [replacerInit] <;> omega

theorem runReplacer_classified_aux {k rsize : Nat} (hk1 : 0 < k) (hk2 : k ≤ 2) :
    ∀ (ops : List ReplacerOp) (s0 s' : ReplacerState),
      ReplacerClassified k s0 →
      List.foldlM (replacerStep k rsize) s0 ops = some s' →
      ReplacerClassified k s'
  | [], s0, s', h0, h => by
      simp only [List.foldlM_nil] at h
      obtain rfl := Option.some.inj h
      exact h0
  | op :: ops, s0, s', h0, h => by
      rw [List.foldlM_cons] at h
      cases hst : replacerStep k rsize s0 op with
      | none => rw [hst] at h; exact absurd h (by simp)
      | some s1 =>
          rw [hst] at h
          rw [Option.bind_eq_bind, Option.some_bind] at h
          exact runReplacer_classified_aux hk1 hk2 ops s1 s'
            (replacerStep_classified hk1 hk2 h0 hst) h

end BusTub

namespace BusTub

/-- C2 (counterexample): the claimed classification invariant fails on the
code.  With `k = 3`, accessing frame 0 twice pushes it onto the history
list twice (`RecordAccess` pushes with no presence check when
`count < k`), so a frame occurs twice in one list. -/
theorem lruk_classification_counterexample :
    ¬ (∀ (k rsize : Nat) (ops : List ReplacerOp) (s : ReplacerState),
        runReplacer k rsize ops = some s → ReplacerClassified k s) := by
  intro h
  have h1 := h 3 1 [ReplacerOp.recordAccess 0, ReplacerOp.recordAccess 0] _ rfl
  have h2 := (h1 0).2.2.2.1
  exact absurd h2 (by decide)

/-- With `k = 1`, the very first `RecordAccess` on a frame takes the
`access_count == k_` branch with no `history_map_` entry: the code
erases the history list through a value-initialized iterator —
undefined behaviour, modelled as `none`.  No replacer state exists after
it to classify. -/
theorem lruk_k1_first_access_crashes :
    runReplacer 1 1 [ReplacerOp.recordAccess 0] = none := rfl

/-- C2 (amended): for a replacer constructed with `k = 2`, at every
point between operations every frame with access count `c` is in the
history list iff `0 < c < k`, in the cache list iff `c ≥ k`, in neither
iff `c = 0`, and occurs at most once per list and never in both.  (For
`k ≥ 3` the invariant fails: `RecordAccess` pushes onto the history list
with no presence check — see the counterexample.  For `k = 1` no such
claim can be made of the code: the first `RecordAccess` erases the
history list through a `history_map_` iterator that was never assigned,
which is undefined behaviour — see `lruk_k1_first_access_crashes`.) -/
theorem lruk_classification_holds_for_small_k (k rsize : Nat)
    (hk : k = 2) (ops : List ReplacerOp) (s : ReplacerState)
    (h : runReplacer k rsize ops = some s) : ReplacerClassified k s :=
  runReplacer_classified_aux (by omega) (by omega) ops replacerInit s
    (replacerInit_classified (by omega)) h

/-- Witness for the amended C2 theorem at `k = 2` and a concrete run. -/
theorem lruk_classification_holds_witness :
    ∃ s, runReplacer 2 3
      [ReplacerOp.recordAccess 0, ReplacerOp.recordAccess 1,
       ReplacerOp.recordAccess 0, ReplacerOp.setEvictable 0 true] = some s ∧
      ReplacerClassified 2 s := by
  obtain ⟨s, hs⟩ : ∃ s, runReplacer 2 3
      [ReplacerOp.recordAccess 0, ReplacerOp.recordAccess 1,
       ReplacerOp.recordAccess 0, ReplacerOp.setEvictable 0 true] = some s :=
    ⟨_, rfl⟩
  exact ⟨s, hs, lruk_classification_holds_for_small_k 2 3 rfl _ s hs⟩

/-- C6: on an evictable frame, `Remove`'s second assertion
(`BUSTUB_ASSERT(!is_evictable_map_[frame_id], ...)`) fires and the call
aborts: with `k = 2` and one frame, after `RecordAccess(0)` and
`SetEvictable(0, true)`, `Remove(0)` fails its assertion. -/
theorem lruk_remove_asserts_on_evictable_frame :
    runReplacer 2 1
      [ReplacerOp.recordAccess 0, ReplacerOp.setEvictable 0 true,
       ReplacerOp.remove 0] = none := by
  rfl

end BusTub

namespace BusTub

/-! ### Page guards (`src/storage/page/page_guard.cpp`)

Observable side effects of guard code are traced as events.  A guard's
`page_` pointer is modelled as `Option Int` holding the page id (`none` =
`nullptr`); `bpm_` carries no information beyond being the unpin target. -/

/-- An observable call made by page-guard code. -/
inductive GuardEvent where
  | unpinPage (pid : Int) (dirty : Bool)
  | rLatch (pid : Int)
  | rUnlatch (pid : Int)
  deriving DecidableEq

/-- `BasicPageGuard`'s data members (`page_` as the guarded page id). -/
structure BasicPageGuard where
  page : Option Int
  isDirty : Bool

/-- `ReadPageGuard` wraps a `BasicPageGuard` member `guard_`. -/
structure ReadPageGuard where
  guard : BasicPageGuard

/-- `ReadPageGuard::Drop`: if the page is set, call
`UnpinPage(page id, dirty)` and then `RUnlatch()` (in that order, as in the
code), then null all fields. -/
def readGuardDrop (g : ReadPageGuard) : ReadPageGuard × List GuardEvent :=
  match g.guard.page with
  | some pid =>
      (⟨⟨none, false⟩⟩, [GuardEvent.unpinPage pid g.guard.isDirty,
                         GuardEvent.rUnlatch pid])
  | none => (⟨⟨none, false⟩⟩, [])

/-- `BufferPoolManager::FetchPageRead` on a page that fetches successfully
as `pid`: it latches the page (`page->RLatch()`) and then returns
`ReadPageGuard(this, page)`.  That two-argument constructor's body is
empty (`ReadPageGuard::ReadPageGuard(BufferPoolManager *bpm, Page *page)
{}`), so the returned guard's `guard_` member keeps its default-member
initialization (`page_ = nullptr`, from the upstream header's
`Page *page_{nullptr}`). -/
def fetchPageRead (pid : Int) : ReadPageGuard × List GuardEvent :=
  (⟨⟨none, false⟩⟩, [GuardEvent.rLatch pid])

/-- Is an event an `UnpinPage` call? -/
def GuardEvent.isUnpin : GuardEvent → Bool
  | .unpinPage _ _ => true
  | _ => false

/-- Is an event an `RUnlatch` call? -/
def GuardEvent.isRUnlatch : GuardEvent → Bool
  | .rUnlatch _ => true
  | _ => false

/-- C5: the guard protocol is broken in the code.  (a) A guard obtained
from `FetchPageRead` acquires the read latch but — because the
`ReadPageGuard(bpm, page)` constructor body is empty — never stores the
page, so dropping it (once or twice) performs zero `UnpinPage` calls and
zero `RUnlatch` calls, not the claimed exactly-one unpin with the latch
released; (b) even on a populated read guard, `Drop` calls `UnpinPage`
BEFORE `RUnlatch`, not after releasing the latch as claimed. -/
theorem readpageguard_drop_diverges :
    (∀ pid : Int,
      ((fetchPageRead pid).2 ++
        (readGuardDrop (fetchPageRead pid).1).2 ++
        (readGuardDrop (readGuardDrop (fetchPageRead pid).1).1).2).countP
          (fun e => e.isUnpin) = 0 ∧
      ((fetchPageRead pid).2 ++
        (readGuardDrop (fetchPageRead pid).1).2 ++
        (readGuardDrop (readGuardDrop (fetchPageRead pid).1).1).2).countP
          (fun e => e.isRUnlatch) = 0) ∧
    (readGuardDrop ⟨⟨some 5, true⟩⟩).2 =
      [GuardEvent.unpinPage 5 true, GuardEvent.rUnlatch 5] := by
  constructor
  · intro pid
    constructor <;> rfl
  · rfl

end BusTub

namespace BusTub

/-! ### Buffer pool manager (`src/buffer/buffer_pool_manager.cpp`)

Disk requests submitted to the scheduler are logged; the code waits on
every submitted request's completion future before continuing, so a
request in the log is also completed in order. -/

/-- A request handed to `DiskScheduler::Schedule`. -/
inductive DiskReq where
  | readReq (pid : Int)
  | writeReq (pid : Int)
  deriving DecidableEq

/-- Is a request a write? -/
def DiskReq.isWrite : DiskReq → Bool
  | .writeReq _ => true
  | _ => false

/-- One buffer-pool frame's metadata. -/
structure Frame where
  pageId : Int
  pinCount : Int
  isDirty : Bool

/-- Buffer pool manager state: frame metadata, page table, free list,
the owned replacer, and the `next_page_id_` counter. -/
structure BpmState where
  frames : Nat → Frame
  pageTable : Int → Option Nat
  freeList : List Nat
  replacer : ReplacerState
  nextPageId : Int

/-- Shared tail of `NewPage`: reset the victim frame, allocate/install the
page id `pid` into frame `v`, pin it, mark non-evictable and record the
access.  Replacer assertion failures surface as `none` results; the
request log accumulated so far is returned regardless. -/
def bpmInstall (k poolSize : Nat) (s : BpmState) (v : Nat) (pid : Int)
    (log : List DiskReq) : Option Nat × BpmState × List DiskReq :=
  let s1 : BpmState :=
    { s with
        frames := Function.update s.frames v ⟨pid, 0, false⟩
        pageTable := fun q => if q = pid then some v else s.pageTable q }
  match setEvictable poolSize s1.replacer v false with
  | none => (none, s1, log)
  | some r1 =>
      match recordAccess k poolSize r1 v with
      | none => (none, { s1 with replacer := r1 }, log)
      | some r2 =>
          let fr := Function.update s1.frames v
            { (s1.frames v) with pinCount := (s1.frames v).pinCount + 1 }
          (some v, { s1 with replacer := r2, frames := fr }, log)

/-- Frame acquisition shared by `NewPage` and the non-resident path of
`FetchPage`: pop the free list if possible, else evict; flush the victim
(submitting a write request and waiting on it) only when its dirty flag is
set, and erase the victim's page-table entry. -/
def bpmAcquireFrame (s : BpmState) :
    Option Nat × BpmState × List DiskReq :=
  match s.freeList with
  | v :: rest => (some v, { s with freeList := rest }, [])
  | [] =>
      match evictStep s.replacer with
      | (none, r') => (none, { s with replacer := r' }, [])
      | (some v, r') =>
          let prev := s.frames v
          let log := if prev.isDirty then [DiskReq.writeReq prev.pageId]
                     else []
          (some v,
           { s with
              replacer := r'
              pageTable := fun q => if q = prev.pageId then none
                                    else s.pageTable q },
           log)

/-- `BufferPoolManager::NewPage`. -/
def newPage (k poolSize : Nat) (s : BpmState) :
    Option Nat × BpmState × List DiskReq :=
  match bpmAcquireFrame s with
  | (none, s1, log) => (none, s1, log)
  | (some v, s1, log) =>
      let newId := s1.nextPageId
      let s2 := { s1 with nextPageId := s1.nextPageId + 1 }
      bpmInstall k poolSize s2 v newId log

/-- `BufferPoolManager::FetchPage`: resident pages are returned directly
(no re-pin, no request); otherwise acquire a frame as `NewPage` does, then
submit (and wait on) a read request for the wanted page. -/
def fetchPage (k poolSize : Nat) (s : BpmState) (pid : Int) :
    Option Nat × BpmState × List DiskReq :=
  match s.pageTable pid with
  | some fid => (some fid, s, [])
  | none =>
      match bpmAcquireFrame s with
      | (none, s1, log) => (none, s1, log)
      | (some v, s1, log) =>
          bpmInstall k poolSize s1 v pid (log ++ [DiskReq.readReq pid])

/-- The write requests the acquisition step would issue from state `s`:
exactly one write-back of the victim when the free list is empty, eviction
succeeds, and the victim frame is dirty; none otherwise. -/
def expectedWriteback (s : BpmState) : List DiskReq :=
  match s.freeList with
  | _ :: _ => []
  | [] =>
      match evictStep s.replacer with
      | (none, _) => []
      | (some v, _) =>
          if (s.frames v).isDirty then [DiskReq.writeReq (s.frames v).pageId]
          else []

theorem bpmInstall_log (k poolSize : Nat) (s : BpmState) (v : Nat) (pid : Int)
    (log : List DiskReq) : (bpmInstall k poolSize s v pid log).2.2 = log := by
  unfold bpmInstall
  dsimp only
  cases setEvictable poolSize s.replacer v false with
  | none => rfl
  | some r1 =>
      dsimp only
      cases recordAccess k poolSize r1 v with
      | none => rfl
      | some r2 => rfl

theorem bpmAcquireFrame_log (s : BpmState) :
    (bpmAcquireFrame s).2.2 = expectedWriteback s := by
  unfold bpmAcquireFrame expectedWriteback
  cases s.freeList with
  | cons v rest => rfl
  | nil =>
      dsimp only
      rcases hev : evictStep s.replacer with ⟨vo, r'⟩
      cases vo with
      | none => rfl
      | some v => rfl

/-- C8: `NewPage` and `FetchPage` submit a write request (which the code
then waits on) exactly when the frame is obtained by evicting a victim
whose dirty flag is true; in particular a clean victim causes no write
request at all.  The full request log of `NewPage` is the conditional
write-back; that of `FetchPage` is empty for a resident page and the
conditional write-back followed by the read of the wanted page otherwise. -/
theorem bpm_writeback_only_for_dirty_victim (k poolSize : Nat)
    (s : BpmState) (pid : Int) :
    (newPage k poolSize s).2.2 = expectedWriteback s ∧
    (fetchPage k poolSize s pid).2.2 =
      (match s.pageTable pid with
       | some _ => []
       | none =>
          match bpmAcquireFrame s with
          | (none, _, log) => log
          | (some _, _, log) => log ++ [DiskReq.readReq pid]) ∧
    ((fetchPage k poolSize s pid).2.2.filter DiskReq.isWrite =
      match s.pageTable pid with
      | some _ => []
      | none => expectedWriteback s) := by
  refine ⟨?_, ?_, ?_⟩
  · unfold newPage
    rcases hacq : bpmAcquireFrame s with ⟨vo, s1, log⟩
    have hlog : log = expectedWriteback s := by
      have := bpmAcquireFrame_log s
      rw [hacq] at this
      exact this
    cases vo with
    | none => simpa using hlog
    | some v =>
        dsimp only
        rw [bpmInstall_log]
        exact hlog
  · unfold fetchPage
    cases s.pageTable pid with
    | some fid => rfl
    | none =>
        dsimp only
        rcases hacq : bpmAcquireFrame s with ⟨vo, s1, log⟩
        cases vo with
        | none => rfl
        | some v =>
            dsimp only
            rw [bpmInstall_log]
  · unfold fetchPage
    cases s.pageTable pid with
    | some fid => rfl
    | none =>
        dsimp only
        rcases hacq : bpmAcquireFrame s with ⟨vo, s1, log⟩
        have hlog : log = expectedWriteback s := by
          have := bpmAcquireFrame_log s
          rw [hacq] at this
          exact this
        have hwb : (expectedWriteback s).filter DiskReq.isWrite =
            expectedWriteback s := by
          unfold expectedWriteback
          cases s.freeList with
          | cons v rest => rfl
          | nil =>
              dsimp only
              rcases evictStep s.replacer with ⟨vo', r'⟩
              cases vo' with
              | none => rfl
              | some v =>
                  dsimp only
                  by_cases hd : (s.frames v).isDirty <;> simp [hd, DiskReq.isWrite]
        cases vo with
        | none => simp [hlog, hwb]
        | some v =>
            dsimp only
            rw [bpmInstall_log, hlog]
            simp [List.filter_append, hwb, DiskReq.isWrite]

end BusTub

namespace BusTub

/-! ### Nested-loop join executor
(`src/src/execution/nested_loop_join_executor.cpp`)

Tuples are value vectors; output tuples use `Option Int` so the LEFT-join
null padding is representable.  Child executors are modelled by the list
of tuples they produce; re-initializing the right child restores its full
list.  The member `current_left_has_done` is not reset by `Init()`; on a
freshly constructed executor it holds its value-initialized default
`false` (the member's declaration is in the upstream header). -/

/-- Join type (only INNER and LEFT are constructible). -/
inductive NljJoinType where
  | inner
  | left
  deriving DecidableEq

/-- Static inputs of the join: join type, child outputs, the predicate
(`EvaluateJoin`; `none` models a NULL result), and the right child's
column count (for typed-null padding). -/
structure NljConfig where
  joinType : NljJoinType
  leftAll : List (List Int)
  rightAll : List (List Int)
  pred : List Int → List Int → Option Bool
  rightWidth : Nat

/-- Mutable executor state: remaining left tuples, the current
`left_tuple_`, `left_has_next`, the right child's remaining output, and
`current_left_has_done`. -/
structure NljState where
  leftRem : List (List Int)
  leftTuple : List Int
  leftHasNext : Bool
  rightRem : List (List Int)
  currentLeftHasDone : Bool

/-- `NestedLoopJoinExecutor::Init`: re-init both children and fetch the
first left tuple. -/
def nljInit (cfg : NljConfig) (st : NljState) : NljState :=
  match cfg.leftAll with
  | [] => { st with leftRem := [], leftHasNext := false,
                    rightRem := cfg.rightAll }
  | t :: rest => { st with leftRem := rest, leftTuple := t,
                           leftHasNext := true, rightRem := cfg.rightAll }

/-- Freshly constructed executor, then `Init`. -/
def nljFreshInit (cfg : NljConfig) : NljState :=
  nljInit cfg
    { leftRem := [], leftTuple := [], leftHasNext := false,
      rightRem := [], currentLeftHasDone := false }

/-- `LeftJoinRemainedLeftTuple`: left values followed by typed nulls. -/
def nljPadLeft (cfg : NljConfig) (t : List Int) : List (Option Int) :=
  t.map some ++ List.replicate cfg.rightWidth (none : Option Int)

/-- `InnerJoinTuple`: concatenation of left and right values. -/
def nljInnerTuple (l r : List Int) : List (Option Int) :=
  l.map some ++ r.map some

/-- `NestedLoopJoinExecutor::Next`'s `while(true)` loop, with fuel for the
unbounded iteration.  Result `none` = fuel ran out; `some (none, st)` =
`Next` returned `false`; `some (some t, st)` = `Next` produced `t`. -/
def nljNext (cfg : NljConfig) :
    Nat → NljState → Option (Option (List (Option Int)) × NljState)
  | 0, _ => none
  | fuel + 1, st =>
      if st.leftHasNext = false then some (none, st)
      else
        match st.rightRem with
        | [] =>
            -- right child's Next returned false
            if cfg.joinType = NljJoinType.left ∧
                st.currentLeftHasDone = false then
              some (some (nljPadLeft cfg st.leftTuple),
                    { st with currentLeftHasDone := true })
            else
              -- right_executor_->Init(); advance the left child
              match st.leftRem with
              | [] =>
                  nljNext cfg fuel
                    { st with rightRem := cfg.rightAll, leftHasNext := false,
                              leftRem := [], currentLeftHasDone := false }
              | t :: rest =>
                  nljNext cfg fuel
                    { st with rightRem := cfg.rightAll, leftTuple := t,
                              leftHasNext := true, leftRem := rest,
                              currentLeftHasDone := false }
        | r :: rrest =>
            let st1 := { st with rightRem := rrest }
            match cfg.pred st.leftTuple r with
            | some true =>
                some (some (nljInnerTuple st.leftTuple r),
                      { st1 with currentLeftHasDone := true })
            | _ => nljNext cfg fuel st1

/-- Drive `Next` to exhaustion, collecting the emitted tuples.
`none` = some call's fuel ran out. -/
def nljCollect (cfg : NljConfig) :
    Nat → NljState → Option (List (List (Option Int)))
  | 0, _ => none
  | fuel + 1, st =>
      match nljNext cfg (fuel + 1) st with
      | none => none
      | some (none, _) => some []
      | some (some t, st') => (nljCollect cfg fuel st').map (t :: ·)

/-- The spec's scenario 4: LEFT join, left child `{(1),(2)}`, right child
`{(2),(3)}`, predicate `l = r`. -/
def nljScenario : NljConfig :=
  { joinType := NljJoinType.left
    leftAll := [[1], [2]]
    rightAll := [[2], [3]]
    pred := fun l r => some (decide (l = r))
    rightWidth := 1 }

end BusTub

namespace BusTub

/-- C3 (counterexample): the code does not return `(2,2)` first.  Running
the embedded executor on the scenario terminates (the collector returns
`some`, so no fuel was exhausted) and its output starts with `(1, null)`,
so the claimed sequence `(2,2), (1,null)` is refuted. -/
theorem nlj_left_join_output_not_as_claimed :
    nljCollect nljScenario 20 (nljFreshInit nljScenario) ≠
      some [[some 2, some 2], [some 1, none]] := by
  decide

/-- C3 (amended): on the scenario the tuples returned by successive `Next`
calls are exactly `(1, null)` then `(2, 2)` — the unmatched left tuple
`(1)` is padded first because the left child produces `(1)` before `(2)`
— and the total count is 2. -/
theorem nlj_left_join_output :
    nljCollect nljScenario 20 (nljFreshInit nljScenario) =
      some [[some 1, none], [some 2, some 2]] ∧
    (nljCollect nljScenario 20 (nljFreshInit nljScenario)).map
      List.length = some 2 := by
  constructor <;> decide

end BusTub

namespace BusTub

/-! ### Index scan executor (`src/src/execution/index_scan_executor.cpp`)

`Init` materializes a RID list via the hash index's point lookup; `Next`
walks it against the table heap.  RIDs are abstract (`Nat`); the heap maps
a RID to its `TupleMeta.is_deleted_` flag and tuple.  In the code's loop,
a deleted tuple triggers `continue` WITHOUT advancing `cursor_`; the model
mirrors that.  (The filter re-check after a tuple is produced is dead
code: both paths return `true`.) -/

/-- One iteration-bounded run of `IndexScanExecutor::Next`'s loop.
`heap rid = (is_deleted, tuple)`.  Result `none` = fuel ran out (the loop
did not return); `some (none, cur)` = `Next` returned `false`;
`some (some t, cur)` = `Next` produced `t` with the new cursor. -/
def indexScanNext (heap : Nat → Bool × List Int) (ridList : List Nat) :
    Nat → Nat → Option (Option (List Int) × Nat)
  | 0, _ => none
  | fuel + 1, cur =>
      match ridList.get? cur with
      | none => some (none, cur)
      | some rid =>
          if (heap rid).1 then
            -- meta.is_deleted_: continue without advancing the cursor
            indexScanNext heap ridList fuel cur
          else
            some (some (heap rid).2, cur + 1)

/-- C4: `Next` does not terminate on a deleted entry.  With the RID list
`[0]` and RID 0 marked deleted in the heap, the loop body never advances
the cursor, so for every fuel bound the loop has not returned — the claim
that deleted entries are skipped and `Next` terminates is violated by the
code (the `continue` precedes `cursor_++`). -/
theorem index_scan_next_loops_forever_on_deleted_entry :
    ∀ fuel, indexScanNext (fun _ => (true, [])) [0] fuel 0 = none := by
  intro fuel
  induction fuel with
  | zero => rfl
  | succ n ih => simpa [indexScanNext] using ih

end BusTub

namespace BusTub

/-! ### Insert executor (`src/src/execution/insert_executor.cpp`) -/

/-- The row count accumulated by the child-draining loop of
`InsertExecutor::Next` (each successful iteration increments
`affected_row`; `InsertTuple` on the heap always yields a slot here). -/
def insertAffectedRows (child : List (List Int)) : Int :=
  child.foldl (fun acc _ => acc + 1) 0

/-- `InsertExecutor::Next`: single-shot.  State is `has_called_`;
output is the emitted one-row tuple. -/
def insertExecNext (child : List (List Int)) (hasCalled : Bool) :
    Option (List Int) × Bool :=
  if hasCalled then (none, hasCalled)
  else (some [insertAffectedRows child], true)

theorem insertAffectedRows_eq_length (child : List (List Int)) :
    insertAffectedRows child = (child.length : Int) := by
  suffices h : ∀ (acc : Int),
      child.foldl (fun acc _ => acc + 1) acc = acc + child.length by
    simpa using h 0
  induction child with
  | nil => intro acc; simp
  | cons t rest ih =>
      intro acc
      simp [List.foldl_cons, ih]
      omega

/-- C10: after `Init` (`has_called_ = false`), the first `Next` call always
returns `true` — even for an empty child, where it emits the one-row tuple
with the single INTEGER value 0 — and every subsequent call (state
`has_called_ = true`) returns `false`. -/
theorem insert_executor_single_shot (child : List (List Int)) :
    (insertExecNext child false).1 = some [(child.length : Int)] ∧
    (insertExecNext child false).2 = true ∧
    (insertExecNext [] false).1 = some [0] ∧
    (insertExecNext child true).1 = none := by
  refine ⟨?_, rfl, rfl, rfl⟩
  simp [insertExecNext, insertAffectedRows_eq_length]

end BusTub

namespace BusTub

/-! ### Sort executor (`src/src/execution/sort_executor.cpp`)

`Init` drains the child into a vector and calls `std::sort` with a
lexicographic comparator over the plan's order keys.  `std::sort`'s
contract is: the result is SOME permutation of the input such that for
adjacent elements `a` before `b`, `¬cmp(b, a)`; the order of
comparator-equal elements is unspecified (`std::sort` is not stable).
Order-key expressions are modelled as integer-valued evaluation
functions. -/

/-- `OrderByType` of the plan's order keys. -/
inductive OrderByType where
  | invalid
  | defaultOrder
  | asc
  | desc
  deriving DecidableEq

/-- The comparator lambda in `SortExecutor::Init`: for
INVALID/DEFAULT/ASC, `a < b` on the key yields `true`, `a > b` yields
`false`, otherwise fall through to the next key; DESC swaps the two
outcomes.  Full equality yields `false`. -/
def cmpTuples {α : Type} :
    List (OrderByType × (α → Int)) → α → α → Bool
  | [], _, _ => false
  | (ot, e) :: ks, a, b =>
      match ot with
      | OrderByType.desc =>
          if e a < e b then false
          else if e b < e a then true
          else cmpTuples ks a b
      | _ =>
          if e a < e b then true
          else if e b < e a then false
          else cmpTuples ks a b

/-- The `std::sort` postcondition for the sort executor: the emitted
sequence is a permutation of the child's output in which no adjacent pair
is inverted under the comparator. -/
def sortContract {α : Type} (ks : List (OrderByType × (α → Int)))
    (input output : List α) : Prop :=
  output.Perm input ∧
    List.Chain' (fun a b => cmpTuples ks b a = false) output

theorem cmp_cons_false_iff_asc {α : Type} {ot : OrderByType}
    {e : α → Int} {ks : List (OrderByType × (α → Int))} {a b : α}
    (hot : ot ≠ OrderByType.desc) :
    cmpTuples ((ot, e) :: ks) a b = false ↔
      ¬ e a < e b ∧ (e b < e a ∨ cmpTuples ks a b = false) := by
  have hbody : cmpTuples ((ot, e) :: ks) a b =
      (if e a < e b then true
       else if e b < e a then false else cmpTuples ks a b) := by
    cases ot
    · rfl
    · rfl
    · rfl
    · exact absurd rfl hot
  rw [hbody]
  split_ifs with h1 h2
  · constructor
    · intro hh; simp at hh
    · intro hh; exact absurd h1 hh.1
  · constructor
    · intro _; exact ⟨h1, Or.inl h2⟩
    · intro _; rfl
  · constructor
    · intro hh; exact ⟨h1, Or.inr hh⟩
    · intro hh
      rcases hh.2 with hlt | hc
      · exact absurd hlt h2
      · exact hc

theorem cmp_cons_false_iff_desc {α : Type} {e : α → Int}
    {ks : List (OrderByType × (α → Int))} {a b : α} :
    cmpTuples ((OrderByType.desc, e) :: ks) a b = false ↔
      ¬ e b < e a ∧ (e a < e b ∨ cmpTuples ks a b = false) := by
  simp only [cmpTuples]
  split_ifs with h1 h2
  · constructor
    · intro _; exact ⟨by omega, Or.inl h1⟩
    · intro _; rfl
  · constructor
    · intro hh; simp at hh
    · intro hh; exact absurd h2 hh.1
  · constructor
    · intro hh; exact ⟨h2, Or.inr hh⟩
    · intro hh
      rcases hh.2 with hlt | hc
      · exact absurd hlt h1
      · exact hc

theorem cmpTuples_false_trans {α : Type}
    {ks : List (OrderByType × (α → Int))} :
    ∀ {a b c : α}, cmpTuples ks b a = false → cmpTuples ks c b = false →
      cmpTuples ks c a = false := by
  induction ks with
  | nil => intro a b c _ _; rfl
  | cons k ks ih =>
      obtain ⟨ot, e⟩ := k
      intro a b c h1 h2
      by_cases hot : ot = OrderByType.desc
      · subst hot
        rw [cmp_cons_false_iff_desc] at h1 h2 ⊢
        obtain ⟨n1, d1⟩ := h1
        obtain ⟨n2, d2⟩ := h2
        refine ⟨by omega, ?_⟩
        rcases d1 with hlt1 | hc1
        · left; omega
        · rcases d2 with hlt2 | hc2
          · left; omega
          · right; exact ih hc1 hc2
      · rw [cmp_cons_false_iff_asc hot] at h1 h2 ⊢
        obtain ⟨n1, d1⟩ := h1
        obtain ⟨n2, d2⟩ := h2
        refine ⟨by omega, ?_⟩
        rcases d1 with hlt1 | hc1
        · left; omega
        · rcases d2 with hlt2 | hc2
          · left; omega
          · right; exact ih hc1 hc2

end BusTub

namespace BusTub

/-- C7 (counterexample): stability is not guaranteed.  For the single
ascending key `fst` and child output `[(0,1), (0,2)]`, the output
`[(0,2), (0,1)]` satisfies the executor's `std::sort` contract (it is a
sorted permutation — the two tuples compare equal on the key), yet the
equal-key tuples are NOT in their original child order, refuting the
claim that they always are. -/
theorem sort_executor_not_stable :
    sortContract [(OrderByType.asc, fun t : Int × Int => t.1)]
      [((0 : Int), (1 : Int)), (0, 2)] [((0 : Int), (2 : Int)), (0, 1)] ∧
    [((0 : Int), (2 : Int)), (0, 1)] ≠ [((0 : Int), (1 : Int)), (0, 2)] := by
  refine ⟨⟨by decide, ?_⟩, by decide⟩
  simp only [List.chain'_cons, List.chain'_singleton, and_true]
  decide

/-- C7 (amended): after `Init` the Sort executor emits all child tuples —
each tuple exactly as often as the child produced it — in an order with no
inversion under the plan's lexicographic comparator
(ASC/DEFAULT/INVALID ascending, DESC descending, equal keys falling
through to the next key); in fact every earlier tuple is `≤` every later
tuple under the comparator.  Because `std::sort` (not a stable sort) is
used, tuples whose keys are all equal may be emitted in any order. -/
theorem sort_executor_sorted_permutation {α : Type} [DecidableEq α]
    (ks : List (OrderByType × (α → Int))) (input output : List α)
    (h : sortContract ks input output) :
    (∀ t, output.count t = input.count t) ∧
      List.Pairwise (fun a b => cmpTuples ks b a = false) output := by
  obtain ⟨hperm, hchain⟩ := h
  refine ⟨fun t => hperm.count_eq t, ?_⟩
  haveI : IsTrans α (fun a b => cmpTuples ks b a = false) :=
    ⟨fun _ _ _ hab hbc => cmpTuples_false_trans hab hbc⟩
  exact List.chain'_iff_pairwise.mp hchain

/-- Witness for the amended C7 theorem at a concrete contract instance. -/
theorem sort_executor_sorted_permutation_witness :
    sortContract [(OrderByType.asc, fun t : Int × Int => t.1)]
      [((2 : Int), (1 : Int)), (1, 5)] [((1 : Int), (5 : Int)), (2, 1)] ∧
    ((∀ t, @List.count (Int × Int) instBEqOfDecidableEq t
          [((1 : Int), (5 : Int)), (2, 1)] =
        @List.count (Int × Int) instBEqOfDecidableEq t
          [((2 : Int), (1 : Int)), (1, 5)]) ∧
      List.Pairwise
        (fun a b => cmpTuples [(OrderByType.asc, fun t : Int × Int => t.1)]
          b a = false) [((1 : Int), (5 : Int)), (2, 1)]) := by
  have hc : sortContract [(OrderByType.asc, fun t : Int × Int => t.1)]
      [((2 : Int), (1 : Int)), (1, 5)] [((1 : Int), (5 : Int)), (2, 1)] := by
    refine ⟨by decide, ?_⟩
    simp only [List.chain'_cons, List.chain'_singleton, and_true]
    decide
  exact ⟨hc, sort_executor_sorted_permutation _ _ _ hc⟩

end BusTub

namespace BusTub

/-! ### Arithmetic for extendible hashing

Facts about `x % 2^d` classes and the split-image XOR used by the
directory page. -/

theorem mod_mul_two (x e : Nat) :
    x % 2 ^ (e + 1) = x % 2 ^ e + 2 ^ e * (x / 2 ^ e % 2) := by
  rw [pow_succ]
  exact Nat.mod_mul

theorem mod_mod_pow_le {a b : Nat} (h : a ≤ b) (x : Nat) :
    x % 2 ^ b % 2 ^ a = x % 2 ^ a :=
  Nat.mod_mod_of_dvd x (pow_dvd_pow 2 h)

theorem xor_two_pow_of_lt {lo e : Nat} (h : lo < 2 ^ e) :
    lo ^^^ 2 ^ e = lo + 2 ^ e := by
  apply Nat.eq_of_testBit_eq
  intro i
  rw [Nat.testBit_xor]
  rcases lt_trichotomy i e with hie | rfl | hie
  · rw [Nat.testBit_two_pow_of_ne (by omega), Bool.xor_false]
    rw [Nat.testBit_to_div_mod, Nat.testBit_to_div_mod]
    have hsplit : 2 ^ e = 2 ^ i * 2 ^ (e - i) := by
      rw [← pow_add]; congr 1; omega
    rw [hsplit, Nat.add_mul_div_left _ _ (Nat.two_pow_pos i)]
    have h2 : 2 ^ (e - i) = 2 * 2 ^ (e - i - 1) := by
      rw [← pow_succ']; congr 1; omega
    rw [h2]
    have h3 : (lo / 2 ^ i + 2 * 2 ^ (e - i - 1)) % 2 = lo / 2 ^ i % 2 := by
      omega
    rw [h3]
  · rw [Nat.testBit_two_pow_self]
    have hlo : lo.testBit i = false := Nat.testBit_lt_two_pow h
    rw [hlo, Bool.false_xor]
    rw [Nat.testBit_to_div_mod]
    have hq : (lo + 2 ^ i) / 2 ^ i = lo / 2 ^ i + 1 := by
      have h0 := Nat.add_mul_div_left lo 1 (Nat.two_pow_pos i)
      rw [mul_one] at h0
      exact h0
    rw [hq, Nat.div_eq_of_lt h]
    rfl
  · have h1 : lo.testBit i = false :=
      Nat.testBit_lt_two_pow (lt_trans h (Nat.pow_lt_pow_right (by norm_num) hie))
    have h2 : (2 ^ e).testBit i = false := Nat.testBit_two_pow_of_ne (by omega)
    have h3 : (lo + 2 ^ e).testBit i = false := by
      apply Nat.testBit_lt_two_pow
      have : 2 ^ (e + 1) ≤ 2 ^ i := Nat.pow_le_pow_right (by norm_num) (by omega)
      have := pow_lt_pow_right₀ (a := (2:Nat)) (by norm_num) (by omega : e < e + 1)
      omega
    rw [h1, h2, h3]
    rfl

theorem xor_two_pow_add_self {lo e : Nat} (h : lo < 2 ^ e) :
    (lo + 2 ^ e) ^^^ 2 ^ e = lo := by
  rw [← xor_two_pow_of_lt h]
  exact Nat.xor_cancel_right _ _

end BusTub

namespace BusTub

/-! ### Extendible hash table
(`src/container/disk/hash/disk_extendible_hash_table.cpp`)

Keys and values are `Nat`; the configurable hash function produces a
32-bit value (`hash32`).  Pages live in per-kind stores keyed by page id;
page ids are allocated from the monotone `next_page_id_` counter (the
header page is page 0, so the counter starts at 1).  The header,
directory and bucket page classes are not part of the sources; their
operations (`HashToDirectoryIndex`, `HashToBucketIndex`,
`GetSplitImageIndex`, `IncrGlobalDepth`, `CanShrink`, bucket
`Lookup/Insert/Remove/IsFull/IsEmpty/Clear`) are modelled from the spec
(§3 data model and §4.5): directory indexing by the hash's high
`header.max_depth` bits, bucket indexing by the low `global_depth` bits,
split image `(i & ((1<<d)-1)) ^ (1 << (d-1))` at local depth `d`,
`IncrGlobalDepth` duplicating the lower half of the directory,
`CanShrink` iff every local depth is below the global depth, buckets as
entry sequences of bounded size with insert into the first empty slot. -/

/-- Modelled from the spec: the directory page (§3). -/
structure DirPage where
  maxDepth : Nat
  globalDepth : Nat
  localDepths : Nat → Nat
  bucketPageIds : Nat → Option Nat

/-- Modelled from the spec: a bucket page, a bounded sequence of
key/value entries (§3). -/
structure BucketPage where
  maxSize : Nat
  entries : List (Nat × Nat)

/-- Construction-time configuration of `DiskExtendibleHashTable`. -/
structure HTConfig where
  headerMaxDepth : Nat
  dirMaxDepth : Nat
  bucketMaxSize : Nat
  hash : Nat → Nat

/-- The table's pages: the header's directory-page-id array, and the
directory/bucket pages by page id. -/
structure HTState where
  headerDirIds : Nat → Option Nat
  dirPages : Nat → Option DirPage
  bucketPages : Nat → Option BucketPage
  nextPageId : Nat

/-- The 32-bit hash of a key. -/
def hash32 (c : HTConfig) (k : Nat) : Nat := c.hash k % 2 ^ 32

/-- Modelled from the spec: `dir_idx = high_bits(hash, header.max_depth)`. -/
def hashToDirectoryIndex (c : HTConfig) (h : Nat) : Nat :=
  h / 2 ^ (32 - c.headerMaxDepth)

/-- Modelled from the spec: `bucket_idx = hash & ((1 << global_depth) - 1)`. -/
def hashToBucketIndex (d : DirPage) (h : Nat) : Nat :=
  h % 2 ^ d.globalDepth

/-- Modelled from the spec: the split image of `i` at local depth `d` is
`(i & ((1<<d)-1)) ^ (1 << (d-1))`. -/
def splitImageIndex (d i : Nat) : Nat := i % 2 ^ d ^^^ 2 ^ (d - 1)

/-- Modelled from the spec: directory `Size()` is `2^global_depth`. -/
def dirSize (d : DirPage) : Nat := 2 ^ d.globalDepth

/-- Modelled from the spec: directory `Init(max_depth)` — depth zero, all
slots invalid. -/
def dirInit (maxDepth : Nat) : DirPage :=
  ⟨maxDepth, 0, fun _ => 0, fun _ => none⟩

/-- Modelled from the spec: `IncrGlobalDepth` duplicates the directory's
lower half into the upper half, preserving local depths and bucket page
ids. -/
def incrGlobalDepth (d : DirPage) : DirPage :=
  { d with
      globalDepth := d.globalDepth + 1
      localDepths := fun i =>
        if i < 2 ^ (d.globalDepth + 1) then d.localDepths (i % 2 ^ d.globalDepth)
        else d.localDepths i
      bucketPageIds := fun i =>
        if i < 2 ^ (d.globalDepth + 1) then d.bucketPageIds (i % 2 ^ d.globalDepth)
        else d.bucketPageIds i }

/-- Modelled from the spec: `DecrGlobalDepth`. -/
def decrGlobalDepth (d : DirPage) : DirPage :=
  { d with globalDepth := d.globalDepth - 1 }

/-- Modelled from the spec: `CanShrink` — the directory can shrink iff it
is non-trivial and every bucket's local depth is below the global
depth. -/
def canShrink (d : DirPage) : Bool :=
  decide (0 < d.globalDepth) &&
    (List.range (2 ^ d.globalDepth)).all fun i =>
      decide (d.localDepths i < d.globalDepth)

/-- Modelled from the spec: bucket `Init(max_size)`. -/
def bucketInit (maxSize : Nat) : BucketPage := ⟨maxSize, []⟩

/-- Modelled from the spec: bucket `Lookup`, a linear search with the key
comparator. -/
def bucketLookup (b : BucketPage) (k : Nat) : Option Nat :=
  (b.entries.find? fun e => e.1 == k).map (·.2)

/-- Modelled from the spec: bucket `IsFull`. -/
def bucketIsFull (b : BucketPage) : Bool := b.maxSize ≤ b.entries.length

/-- Modelled from the spec: bucket `IsEmpty`. -/
def bucketIsEmpty (b : BucketPage) : Bool := b.entries.isEmpty

/-- Modelled from the spec: bucket `Insert` fails when full or when the
key is present, and places the entry in the first empty slot (the end of
the sequence). -/
def bucketInsert (b : BucketPage) (k v : Nat) : BucketPage × Bool :=
  if bucketIsFull b || (bucketLookup b k).isSome then (b, false)
  else ({ b with entries := b.entries ++ [(k, v)] }, true)

/-- Modelled from the spec: bucket `Remove` removes the matching entry if
present. -/
def bucketRemove (b : BucketPage) (k : Nat) : BucketPage × Bool :=
  if (bucketLookup b k).isSome then
    ({ b with entries := b.entries.eraseP fun e => e.1 == k }, true)
  else (b, false)

/-- Modelled from the spec: bucket `Clear`. -/
def bucketClear (b : BucketPage) : BucketPage := { b with entries := [] }

/-- Store a directory page. -/
def setDirPage (s : HTState) (pid : Nat) (d : DirPage) : HTState :=
  { s with dirPages := Function.update s.dirPages pid (some d) }

/-- Store a bucket page. -/
def setBucketPage (s : HTState) (pid : Nat) (b : BucketPage) : HTState :=
  { s with bucketPages := Function.update s.bucketPages pid (some b) }

/-- The freshly constructed table: header allocated (page 0), no
directories yet. -/
def htInit : HTState :=
  { headerDirIds := fun _ => none
    dirPages := fun _ => none
    bucketPages := fun _ => none
    nextPageId := 1 }

/-- `DiskExtendibleHashTable::GetValue`: header → directory → bucket,
appending the found value to the result vector.  This is the page logic
downstream of the guards: the real entry point reads every page through
`FetchPageRead(...).As<...>()`, and the empty `ReadPageGuard` constructor
loses the fetched page, so the real call crashes at the header access
before this chain runs — see `getValueGuarded`. -/
def getValue (c : HTConfig) (s : HTState) (k : Nat) (res : List Nat) :
    Bool × List Nat :=
  let h := hash32 c k
  match s.headerDirIds (hashToDirectoryIndex c h) with
  | none => (false, res)
  | some dpid =>
      match s.dirPages dpid with
      | none => (false, res)
      | some dir =>
          match dir.bucketPageIds (hashToBucketIndex dir h) with
          | none => (false, res)
          | some bpid =>
              match s.bucketPages bpid with
              | none => (false, res)
              | some b =>
                  match bucketLookup b k with
                  | some v => (true, res ++ [v])
                  | none => (false, res)

/-- The option-valued view of `GetValue`'s lookup chain. -/
def lookupHT (c : HTConfig) (s : HTState) (k : Nat) : Option Nat :=
  let h := hash32 c k
  match s.headerDirIds (hashToDirectoryIndex c h) with
  | none => none
  | some dpid =>
      match s.dirPages dpid with
      | none => none
      | some dir =>
          match dir.bucketPageIds (hashToBucketIndex dir h) with
          | none => none
          | some bpid =>
              match s.bucketPages bpid with
              | none => none
              | some b => bucketLookup b k

/-- `DiskExtendibleHashTable::SplitBucket`: allocate the split-image
bucket page, propagate the (already incremented) local depth over both
alias classes and the new page id over the split class, then redistribute
the full bucket's entries between the two pages by their recomputed
bucket index.  Returns the state with both bucket pages stored, and the
updated directory (committed by the caller, mirroring the in-place page
mutation).  Downstream-of-guards logic: in the real code the new bucket
page is read through `NewPageGuarded(...).UpgradeWrite().AsMut<...>()`,
and the empty `WritePageGuard` constructor loses the page, so the real
`SplitBucket` crashes at that `AsMut` (and is only reached from an
`Insert` that already crashed at its header access). -/
def redistribute (c : HTConfig) (dir : DirPage) (bpidRef : Option Nat) :
    List (Nat × Nat) → BucketPage → BucketPage → BucketPage × BucketPage
  | [], oldB, newB => (oldB, newB)
  | e :: rest, oldB, newB =>
      if dir.bucketPageIds (hashToBucketIndex dir (hash32 c e.1)) = bpidRef
      then redistribute c dir bpidRef rest (bucketInsert oldB e.1 e.2).1 newB
      else redistribute c dir bpidRef rest oldB (bucketInsert newB e.1 e.2).1

def splitBucket (c : HTConfig) (s : HTState) (dir : DirPage) (bpid : Nat)
    (bucket : BucketPage) (bucketIdx : Nat) : HTState × DirPage :=
  let spid := s.nextPageId
  let s1 := { s with nextPageId := s.nextPageId + 1 }
  let ld := dir.localDepths bucketIdx
  let splitIdx := splitImageIndex ld bucketIdx
  let diff := 2 ^ ld
  let dir1 : DirPage :=
    { dir with
        localDepths := fun i =>
          if i = splitIdx ∨ (i < dirSize dir ∧
              (i % diff = bucketIdx % diff ∨ i % diff = splitIdx % diff))
          then ld else dir.localDepths i
        bucketPageIds := fun i =>
          if i = splitIdx ∨ (i < dirSize dir ∧ i % diff = splitIdx % diff)
          then some spid else dir.bucketPageIds i }
  let obnb :=
    redistribute c dir1 (dir1.bucketPageIds bucketIdx) bucket.entries
      (bucketClear bucket) (bucketInit c.bucketMaxSize)
  (setBucketPage (setBucketPage s1 spid obnb.2) bpid obnb.1, dir1)

/-- `DiskExtendibleHashTable::Insert`, the page logic downstream of the
guards (the real entry point reads the header through
`FetchPageWrite(...).AsMut<...>()` and crashes there — the empty
`WritePageGuard` constructor loses the page; see `insertGuarded`).  The
tail-recursive retry after a split is driven by fuel; fuel exhaustion
returns failure without touching the state. -/
def insertHT (c : HTConfig) : Nat → HTState → Nat → Nat → Bool × HTState
  | 0, s, _, _ => (false, s)
  | fuel + 1, s, k, v =>
      let h := hash32 c k
      let dirIdx := hashToDirectoryIndex c h
      -- if the header slot is invalid, create and link a directory page
      let dget : HTState × Nat :=
        match s.headerDirIds dirIdx with
        | some dpid => (s, dpid)
        | none =>
            let dpid := s.nextPageId
            let s' := setDirPage { s with nextPageId := s.nextPageId + 1 }
              dpid (dirInit c.dirMaxDepth)
            ({ s' with
                headerDirIds := Function.update s'.headerDirIds dirIdx
                  (some dpid) }, dpid)
      let s1 := dget.1
      let dpid := dget.2
      match s1.dirPages dpid with
      | none => (false, s1)
      | some dir =>
          let bIdx := hashToBucketIndex dir h
          -- if the bucket slot is invalid, create and link a bucket page
          let bget : HTState × DirPage × Nat :=
            match dir.bucketPageIds bIdx with
            | some bpid => (s1, dir, bpid)
            | none =>
                let bpid := s1.nextPageId
                let s' := setBucketPage { s1 with
                    nextPageId := s1.nextPageId + 1 }
                  bpid (bucketInit c.bucketMaxSize)
                let dir' := { dir with
                    bucketPageIds := Function.update dir.bucketPageIds bIdx
                      (some bpid)
                    localDepths := Function.update dir.localDepths bIdx 0 }
                (setDirPage s' dpid dir', dir', bpid)
          let s2 := bget.1
          let dir2 := bget.2.1
          let bpid := bget.2.2
          match s2.bucketPages bpid with
          | none => (false, s2)
          | some bucket =>
              if (bucketLookup bucket k).isSome then (false, s2)
              else if bucketIsFull bucket = false then
                let ins := bucketInsert bucket k v
                (ins.2, setBucketPage s2 bpid ins.1)
              else
                -- the bucket is full
                match (if dir2.globalDepth = dir2.localDepths bIdx then
                        (if dir2.maxDepth ≤ dir2.globalDepth then none
                         else some (incrGlobalDepth dir2))
                       else some dir2) with
                | none => (false, s2)
                | some dir3 =>
                    -- IncrLocalDepth(bucket_index), then SplitBucket
                    let dir4 := { dir3 with
                        localDepths := Function.update dir3.localDepths bIdx
                          (dir3.localDepths bIdx + 1) }
                    let sp := splitBucket c s2 dir4 bpid bucket bIdx
                    insertHT c fuel (setDirPage sp.1 dpid sp.2) k v

/-- `DiskExtendibleHashTable::TryMergeBucketRecursive`, fuel-driven (the
addressed bucket's local depth strictly decreases each iteration).
Downstream-of-guards logic: the real code reads the split-image bucket
through `FetchPageWrite(...).AsMut<...>()`, which crashes on the guard
built by the empty constructor (and is only reached from a `Remove` that
already crashed at its header access). -/
def tryMergeBucketRecursive (c : HTConfig) :
    Nat → HTState → DirPage → Nat → HTState × DirPage
  | 0, s, dir, _ => (s, dir)
  | fuel + 1, s, dir, bucketIdx =>
      if dir.localDepths bucketIdx = 0 then (s, dir)
      else
        let splitIdx := splitImageIndex (dir.localDepths bucketIdx) bucketIdx
        match dir.bucketPageIds splitIdx with
        | none => (s, dir)
        | some spid =>
            match s.bucketPages spid with
            | none => (s, dir)
            | some splitB =>
                if bucketIsEmpty splitB = false then (s, dir)
                else if dir.localDepths bucketIdx ≠ dir.localDepths splitIdx
                then (s, dir)
                else
                  match dir.bucketPageIds bucketIdx with
                  | none => (s, dir)
                  | some bpid =>
                      let s1 := setBucketPage s spid (bucketClear splitB)
                      let ldNew := dir.localDepths bucketIdx - 1
                      let diff := 2 ^ ldNew
                      let dir2 : DirPage :=
                        { dir with
                            localDepths := fun i =>
                              if i < dirSize dir ∧
                                  i % diff = bucketIdx % diff
                              then ldNew else dir.localDepths i
                            bucketPageIds := fun i =>
                              if i < dirSize dir ∧
                                  i % diff = bucketIdx % diff
                              then some bpid else dir.bucketPageIds i }
                      tryMergeBucketRecursive c fuel s1 dir2 bucketIdx

/-- The `while (CanShrink()) DecrGlobalDepth()` loop (fuel: the global
depth strictly decreases each iteration). -/
def shrinkLoop : Nat → DirPage → DirPage
  | 0, d => d
  | fuel + 1, d =>
      if canShrink d then shrinkLoop fuel (decrGlobalDepth d) else d

/-- `DiskExtendibleHashTable::Remove`, the page logic downstream of the
guards (the real entry point crashes at the header
`FetchPageWrite(...).AsMut<...>()` — see `removeGuarded`). -/
def removeHT (c : HTConfig) (s : HTState) (k : Nat) : Bool × HTState :=
  let h := hash32 c k
  match s.headerDirIds (hashToDirectoryIndex c h) with
  | none => (false, s)
  | some dpid =>
      match s.dirPages dpid with
      | none => (false, s)
      | some dir =>
          let bIdx := hashToBucketIndex dir h
          match dir.bucketPageIds bIdx with
          | none => (false, s)
          | some bpid =>
              match s.bucketPages bpid with
              | none => (false, s)
              | some bucket =>
                  let rem := bucketRemove bucket k
                  if rem.2 = false then (false, s)
                  else
                    let s1 := setBucketPage s bpid rem.1
                    if bucketIsEmpty rem.1 = false then (true, s1)
                    else
                      let mg := tryMergeBucketRecursive c
                        (dir.localDepths bIdx + 1) s1 dir bIdx
                      let dir3 := shrinkLoop (mg.2.globalDepth + 1) mg.2
                      (true, setDirPage mg.1 dpid dir3)

/-- One public table operation. -/
inductive HTOp where
  | insertOp (k v : Nat)
  | removeOp (k : Nat)

/-- Step of the table together with the ghost map recording, per key, the
value of the last successful insert not subsequently removed. -/
def htStep (c : HTConfig) (sg : HTState × (Nat → Option Nat)) (op : HTOp) :
    HTState × (Nat → Option Nat) :=
  match op with
  | .insertOp k v =>
      let r := insertHT c (c.dirMaxDepth + 2) sg.1 k v
      (r.2, if r.1 then Function.update sg.2 k (some v) else sg.2)
  | .removeOp k =>
      let r := removeHT c sg.1 k
      (r.2, if r.1 then Function.update sg.2 k none else sg.2)

/-- Run a sequence of operations on a freshly constructed table. -/
def runHT (c : HTConfig) (ops : List HTOp) :
    HTState × (Nat → Option Nat) :=
  ops.foldl (htStep c) (htInit, fun _ => none)

end BusTub

namespace BusTub

/-- The guard-free lookup chain appends at most one element to the result
vector: when the key is found in the addressed bucket exactly one value is
appended with `true`; otherwise nothing is appended and `false` is
returned.  This is a property of the logic downstream of the page
guards; the real `GetValue` crashes before reaching it (see
`getValue_crashes_at_header_guard`). -/
theorem getValue_appends_at_most_one (c : HTConfig) (s : HTState) (k : Nat)
    (res : List Nat) :
    ((getValue c s k res).1 = true ∧
      ∃ v, lookupHT c s k = some v ∧ (getValue c s k res).2 = res ++ [v]) ∨
    ((getValue c s k res).1 = false ∧ lookupHT c s k = none ∧
      (getValue c s k res).2 = res) := by
  unfold getValue lookupHT
  dsimp only
  cases s.headerDirIds (hashToDirectoryIndex c (hash32 c k)) with
  | none => exact Or.inr ⟨rfl, rfl, rfl⟩
  | some dpid =>
      dsimp only
      cases s.dirPages dpid with
      | none => exact Or.inr ⟨rfl, rfl, rfl⟩
      | some dir =>
          dsimp only
          cases dir.bucketPageIds (hashToBucketIndex dir (hash32 c k)) with
          | none => exact Or.inr ⟨rfl, rfl, rfl⟩
          | some bpid =>
              dsimp only
              cases s.bucketPages bpid with
              | none => exact Or.inr ⟨rfl, rfl, rfl⟩
              | some b =>
                  dsimp only
                  cases bucketLookup b k with
                  | none => exact Or.inr ⟨rfl, rfl, rfl⟩
                  | some v => exact Or.inl ⟨rfl, v, rfl, rfl⟩

end BusTub

namespace BusTub

theorem splitImageIndex_eq {d : Nat} (hd : 0 < d) (i : Nat) :
    splitImageIndex d i =
      if i / 2 ^ (d - 1) % 2 = 0 then i % 2 ^ (d - 1) + 2 ^ (d - 1)
      else i % 2 ^ (d - 1) := by
  obtain ⟨e, rfl⟩ : ∃ e, d = e + 1 := ⟨d - 1, by omega⟩
  simp only [Nat.add_sub_cancel]
  unfold splitImageIndex
  simp only [Nat.add_sub_cancel]
  rw [mod_mul_two]
  rcases (by omega : i / 2 ^ e % 2 = 0 ∨ i / 2 ^ e % 2 = 1) with hb | hb
  · rw [hb]
    simp only [mul_zero, add_zero, if_pos rfl]
    exact xor_two_pow_of_lt (Nat.mod_lt i (Nat.two_pow_pos e))
  · rw [hb]
    simp only [mul_one]
    rw [if_neg (by omega)]
    exact xor_two_pow_add_self (Nat.mod_lt i (Nat.two_pow_pos e))

theorem two_pow_succ_level (e : Nat) : 2 ^ (e + 1) = 2 ^ e + 2 ^ e := by
  rw [pow_succ]; omega

theorem splitImage_lt {d : Nat} (hd : 0 < d) (i : Nat) :
    splitImageIndex d i < 2 ^ d := by
  obtain ⟨e, rfl⟩ : ∃ e, d = e + 1 := ⟨d - 1, by omega⟩
  rw [splitImageIndex_eq hd]
  simp only [Nat.add_sub_cancel]
  have h1 := Nat.mod_lt i (Nat.two_pow_pos e)
  have h2 := two_pow_succ_level e
  split_ifs <;> omega

theorem splitImage_mod_lower {d : Nat} (hd : 0 < d) (i : Nat) :
    splitImageIndex d i % 2 ^ (d - 1) = i % 2 ^ (d - 1) := by
  rw [splitImageIndex_eq hd]
  have h1 := Nat.mod_lt i (Nat.two_pow_pos (d - 1))
  split_ifs
  · rw [Nat.add_mod_right, Nat.mod_eq_of_lt h1]
  · rw [Nat.mod_eq_of_lt h1]

theorem splitImage_ne {d : Nat} (hd : 0 < d) (i : Nat) :
    splitImageIndex d i ≠ i % 2 ^ d := by
  obtain ⟨e, rfl⟩ : ∃ e, d = e + 1 := ⟨d - 1, by omega⟩
  rw [splitImageIndex_eq hd, mod_mul_two]
  simp only [Nat.add_sub_cancel]
  have h1 := Nat.mod_lt i (Nat.two_pow_pos e)
  have h2 := Nat.two_pow_pos e
  rcases (by omega : i / 2 ^ e % 2 = 0 ∨ i / 2 ^ e % 2 = 1) with hb | hb <;>
    rw [hb] <;> simp <;> omega

theorem class_split {d : Nat} (hd : 0 < d) (i x : Nat) :
    x % 2 ^ (d - 1) = i % 2 ^ (d - 1) ↔
      x % 2 ^ d = i % 2 ^ d ∨ x % 2 ^ d = splitImageIndex d i := by
  obtain ⟨e, rfl⟩ : ∃ e, d = e + 1 := ⟨d - 1, by omega⟩
  rw [splitImageIndex_eq hd, mod_mul_two x e, mod_mul_two i e]
  simp only [Nat.add_sub_cancel]
  have h1 := Nat.mod_lt i (Nat.two_pow_pos e)
  have h2 := Nat.mod_lt x (Nat.two_pow_pos e)
  have h3 := Nat.two_pow_pos e
  rcases (by omega : x / 2 ^ e % 2 = 0 ∨ x / 2 ^ e % 2 = 1) with hbx | hbx <;>
    rcases (by omega : i / 2 ^ e % 2 = 0 ∨ i / 2 ^ e % 2 = 1) with hbi | hbi <;>
      rw [hbx, hbi] <;> simp <;> omega

/-- Lift a class equation to a lower depth. -/
theorem class_mono {a b x y : Nat} (hab : a ≤ b)
    (h : x % 2 ^ b = y % 2 ^ b) : x % 2 ^ a = y % 2 ^ a := by
  rw [← mod_mod_pow_le hab x, ← mod_mod_pow_le hab y, h]

end BusTub

namespace BusTub

/-! ### Bucket-content lemmas -/

theorem find?_cons_key_pos {e : Nat × Nat} {q : Nat} (l : List (Nat × Nat))
    (he : e.1 = q) : ((e :: l).find? fun x => x.1 == q) = some e :=
  List.find?_cons_of_pos l (by simpa using he)

theorem find?_cons_key_neg {e : Nat × Nat} {q : Nat} (l : List (Nat × Nat))
    (he : e.1 ≠ q) :
    ((e :: l).find? fun x => x.1 == q) = l.find? fun x => x.1 == q :=
  List.find?_cons_of_neg l (by simpa using he)

theorem find?_key_append_self {l : List (Nat × Nat)} {k v : Nat}
    (hk : ∀ e ∈ l, e.1 ≠ k) :
    ((l ++ [(k, v)]).find? fun e => e.1 == k) = some (k, v) := by
  induction l with
  | nil => simp
  | cons e rest ih =>
      have he : e.1 ≠ k := hk e (by simp)
      rw [List.cons_append, find?_cons_key_neg _ he]
      exact ih fun x hx => hk x (by simp [hx])

theorem find?_key_append_other {l : List (Nat × Nat)} {k v q : Nat}
    (hq : q ≠ k) :
    ((l ++ [(k, v)]).find? fun e => e.1 == q) =
      l.find? fun e => e.1 == q := by
  induction l with
  | nil => simp [Ne.symm hq]
  | cons e rest ih =>
      rw [List.cons_append]
      by_cases he : e.1 = q
      · rw [find?_cons_key_pos _ he, find?_cons_key_pos _ he]
      · rw [find?_cons_key_neg _ he, find?_cons_key_neg _ he]
        exact ih

theorem find?_key_eraseP_self {l : List (Nat × Nat)} {k : Nat}
    (hnd : (l.map Prod.fst).Nodup) :
    ((l.eraseP fun e => e.1 == k).find? fun e => e.1 == k) = none := by
  induction l with
  | nil => simp
  | cons e rest ih =>
      simp only [List.map_cons, List.nodup_cons] at hnd
      by_cases he : e.1 = k
      · rw [List.eraseP_cons_of_pos (by simpa using he)]
        rw [List.find?_eq_none]
        intro x hx
        have hxk : x.1 ≠ k := by
          intro hxk
          apply hnd.1
          have hmem : x.1 ∈ List.map Prod.fst rest :=
            List.mem_map_of_mem Prod.fst hx
          rw [he, ← hxk]
          exact hmem
        simpa using hxk
      · rw [List.eraseP_cons_of_neg (by simpa using he),
          find?_cons_key_neg _ he]
        exact ih hnd.2

theorem find?_key_eraseP_other {l : List (Nat × Nat)} {k q : Nat}
    (hq : q ≠ k) :
    ((l.eraseP fun e => e.1 == k).find? fun e => e.1 == q) =
      l.find? fun e => e.1 == q := by
  induction l with
  | nil => simp
  | cons e rest ih =>
      by_cases he : e.1 = k
      · rw [List.eraseP_cons_of_pos (by simpa using he),
          find?_cons_key_neg _ (by rw [he]; exact Ne.symm hq)]
      · rw [List.eraseP_cons_of_neg (by simpa using he)]
        by_cases heq : e.1 = q
        · rw [find?_cons_key_pos _ heq, find?_cons_key_pos _ heq]
        · rw [find?_cons_key_neg _ heq, find?_cons_key_neg _ heq]
          exact ih

theorem find?_key_filter_of_pred {l : List (Nat × Nat)}
    {p : Nat × Nat → Bool} {q : Nat}
    (hq : ∀ e ∈ l, e.1 = q → p e = true) :
    ((l.filter p).find? fun e => e.1 == q) =
      l.find? fun e => e.1 == q := by
  induction l with
  | nil => simp
  | cons e rest ih =>
      by_cases he : e.1 = q
      · rw [List.filter_cons_of_pos (hq e (by simp) he),
          find?_cons_key_pos _ he, find?_cons_key_pos _ he]
      · cases hpe : p e with
        | true =>
            rw [List.filter_cons_of_pos hpe, find?_cons_key_neg _ he,
              find?_cons_key_neg _ he]
            exact ih fun x hx => hq x (by simp [hx])
        | false =>
            rw [List.filter_cons_of_neg (by simp [hpe]),
              find?_cons_key_neg _ he]
            exact ih fun x hx => hq x (by simp [hx])

theorem find?_key_filter_of_not_pred {l : List (Nat × Nat)}
    {p : Nat × Nat → Bool} {q : Nat}
    (hq : ∀ e ∈ l, e.1 = q → p e = false) :
    ((l.filter p).find? fun e => e.1 == q) = none := by
  rw [List.find?_eq_none]
  intro x hx
  rw [List.mem_filter] at hx
  intro hxq
  have := hq x hx.1 (by simpa using hxq)
  rw [this] at hx
  exact absurd hx.2 (by simp)

end BusTub

namespace BusTub

/-! ### Hash-table invariants -/

/-- Well-formedness of the bucket stored for directory slot `i` whose
local depth is `ld`, within the directory at header index `hIdx`:
bounded, duplicate-free keys, and every entry's hash routes to this header
slot and agrees with `i` on the low `ld` bits. -/
def BucketOk (c : HTConfig) (hIdx ld i : Nat) (b : BucketPage) : Prop :=
  b.maxSize = c.bucketMaxSize ∧ b.entries.length ≤ c.bucketMaxSize ∧
  (b.entries.map Prod.fst).Nodup ∧
  ∀ e ∈ b.entries, hashToDirectoryIndex c (hash32 c e.1) = hIdx ∧
    hash32 c e.1 % 2 ^ ld = i % 2 ^ ld

/-- The spec's directory invariants for the directory page at header
index `hIdx`: depth bounds, aliasing (slots agreeing on the low
`local_depth` bits share page id and local depth), injectivity (a shared
page id implies the slots agree on those bits), and each slot referencing
a well-formed stored bucket (a slot may be invalid only in a directory
still at global depth 0 whose single bucket was never created). -/
def DirOk (c : HTConfig) (s : HTState) (hIdx : Nat) (dir : DirPage) :
    Prop :=
  dir.maxDepth = c.dirMaxDepth ∧
  dir.globalDepth ≤ c.dirMaxDepth ∧
  (∀ i, i < 2 ^ dir.globalDepth → dir.localDepths i ≤ dir.globalDepth) ∧
  (∀ i j, i < 2 ^ dir.globalDepth → j < 2 ^ dir.globalDepth →
    j % 2 ^ dir.localDepths i = i % 2 ^ dir.localDepths i →
    dir.bucketPageIds j = dir.bucketPageIds i ∧
      dir.localDepths j = dir.localDepths i) ∧
  (∀ i j p, i < 2 ^ dir.globalDepth → j < 2 ^ dir.globalDepth →
    dir.bucketPageIds i = some p → dir.bucketPageIds j = some p →
    j % 2 ^ dir.localDepths i = i % 2 ^ dir.localDepths i) ∧
  (∀ i, i < 2 ^ dir.globalDepth →
    (∃ bpid, dir.bucketPageIds i = some bpid ∧ bpid < s.nextPageId ∧
      ∃ b, s.bucketPages bpid = some b ∧
        BucketOk c hIdx (dir.localDepths i) i b) ∨
    (dir.bucketPageIds i = none ∧ dir.globalDepth = 0))

/-- Global invariant: every linked directory page exists, is well-formed
and fresh; header slots are injective; bucket pages of distinct
directories are disjoint. -/
def HTInv (c : HTConfig) (s : HTState) : Prop :=
  (∀ hIdx dpid, s.headerDirIds hIdx = some dpid →
    dpid < s.nextPageId ∧
    ∃ dir, s.dirPages dpid = some dir ∧ DirOk c s hIdx dir) ∧
  (∀ h1 h2 dp, s.headerDirIds h1 = some dp → s.headerDirIds h2 = some dp →
    h1 = h2) ∧
  (∀ h1 h2 dp1 dp2 d1 d2 i j p, h1 ≠ h2 →
    s.headerDirIds h1 = some dp1 → s.headerDirIds h2 = some dp2 →
    s.dirPages dp1 = some d1 → s.dirPages dp2 = some d2 →
    i < 2 ^ d1.globalDepth → j < 2 ^ d2.globalDepth →
    d1.bucketPageIds i = some p → d2.bucketPageIds j = some p → False)

theorem htInit_inv (c : HTConfig) : HTInv c htInit := by
  refine ⟨?_, ?_, ?_⟩
  · intro hIdx dpid h
    exact absurd h (by simp [htInit])
  · intro h1 h2 dp h
    exact absurd h (by simp [htInit])
  · intro h1 h2 dp1 dp2 d1 d2 i j p _ h
    exact absurd h (by simp [htInit])

/-- A lookup through a fixed directory page (the directory- and
bucket-level part of `lookupHT`). -/
def dirLookup (c : HTConfig) (s : HTState) (dir : DirPage) (q : Nat) :
    Option Nat :=
  match dir.bucketPageIds (hashToBucketIndex dir (hash32 c q)) with
  | none => none
  | some bpid =>
      match s.bucketPages bpid with
      | none => none
      | some b => bucketLookup b q

theorem lookupHT_eq_dirLookup {c : HTConfig} {s : HTState} {q : Nat}
    {dpid : Nat} {dir : DirPage}
    (hh : s.headerDirIds (hashToDirectoryIndex c (hash32 c q)) = some dpid)
    (hd : s.dirPages dpid = some dir) :
    lookupHT c s q = dirLookup c s dir q := by
  unfold lookupHT dirLookup
  dsimp only
  rw [hh]
  dsimp only
  rw [hd]

theorem lookupHT_none_of_no_dir {c : HTConfig} {s : HTState} {q : Nat}
    (hh : s.headerDirIds (hashToDirectoryIndex c (hash32 c q)) = none) :
    lookupHT c s q = none := by
  unfold lookupHT
  dsimp only
  rw [hh]

end BusTub

namespace BusTub

/-- Main lemma about `redistribute`: with all membership tests agreeing
with the side predicate `p`, it appends the `p`-side of the remaining
entries to the old bucket and the rest to the new one. -/
theorem redistribute_go (c : HTConfig) (dir : DirPage) (bpidRef : Option Nat)
    (p : Nat × Nat → Bool) (ms : Nat) :
    ∀ (entries pre : List (Nat × Nat)),
      ((pre ++ entries).map Prod.fst).Nodup →
      (pre ++ entries).length ≤ ms →
      (∀ e ∈ entries,
        ((dir.bucketPageIds (hashToBucketIndex dir (hash32 c e.1)) =
          bpidRef) ↔ p e = true)) →
      redistribute c dir bpidRef entries ⟨ms, pre.filter p⟩
        ⟨ms, pre.filter fun e => !(p e)⟩ =
      (⟨ms, (pre ++ entries).filter p⟩,
       ⟨ms, (pre ++ entries).filter fun e => !(p e)⟩) := by
  intro entries
  induction entries with
  | nil =>
      intro pre _ _ _
      simp [redistribute]
  | cons e rest ih =>
      intro pre hnd hlen htest
      have hfresh : ∀ x ∈ pre, x.1 ≠ e.1 := by
        intro x hx hxe
        have h1 := hnd
        rw [List.map_append] at h1
        have h2 := (List.nodup_append.mp h1).2.2
        exact h2 (List.mem_map_of_mem Prod.fst hx) (by rw [hxe]; simp)
      have hnd' : ((pre ++ [e] ++ rest).map Prod.fst).Nodup := by
        rw [List.append_assoc]; simpa using hnd
      have hlen' : (pre ++ [e] ++ rest).length ≤ ms := by
        rw [List.append_assoc]; simpa using hlen
      have hgoal := ih (pre ++ [e]) hnd' hlen'
        (fun x hx => htest x (by simp [hx]))
      have e3 : pre ++ [e] ++ rest = pre ++ e :: rest := by simp
      unfold redistribute
      by_cases hside : p e = true
      · rw [if_pos ((htest e (by simp)).mpr hside)]
        have hins : bucketInsert ⟨ms, pre.filter p⟩ e.1 e.2 =
            (⟨ms, pre.filter p ++ [(e.1, e.2)]⟩, true) := by
          unfold bucketInsert bucketIsFull bucketLookup
          rw [if_neg]
          simp only [Bool.or_eq_true, decide_eq_true_eq, not_or]
          constructor
          · have h1 : (pre.filter p).length ≤ pre.length :=
              List.length_filter_le _ _
            have h2 : pre.length + (e :: rest).length ≤ ms := by
              rw [← List.length_append]; exact hlen
            simp only [List.length_cons] at h2
            omega
          · rw [Option.isSome_iff_exists]
            rintro ⟨x, hx⟩
            rw [Option.map_eq_some'] at hx
            obtain ⟨y, hy, -⟩ := hx
            have hym := List.mem_of_find?_eq_some hy
            have hyk := List.find?_some hy
            rw [List.mem_filter] at hym
            exact hfresh y hym.1 (by simpa using hyk)
        rw [hins]
        have e1 : (pre ++ [e]).filter p = pre.filter p ++ [e] := by
          rw [List.filter_append]
          simp [hside]
        have e2 : ((pre ++ [e]).filter fun x => !(p x)) =
            pre.filter fun x => !(p x) := by
          rw [List.filter_append]
          simp [hside]
        rw [e1, e2, e3] at hgoal
        exact hgoal
      · rw [if_neg (fun hc => hside ((htest e (by simp)).mp hc))]
        have hins : bucketInsert ⟨ms, pre.filter fun x => !(p x)⟩ e.1 e.2 =
            (⟨ms, (pre.filter fun x => !(p x)) ++ [(e.1, e.2)]⟩, true) := by
          unfold bucketInsert bucketIsFull bucketLookup
          rw [if_neg]
          simp only [Bool.or_eq_true, decide_eq_true_eq, not_or]
          constructor
          · have h1 : (pre.filter fun x => !(p x)).length ≤ pre.length :=
              List.length_filter_le _ _
            have h2 : pre.length + (e :: rest).length ≤ ms := by
              rw [← List.length_append]; exact hlen
            simp only [List.length_cons] at h2
            omega
          · rw [Option.isSome_iff_exists]
            rintro ⟨x, hx⟩
            rw [Option.map_eq_some'] at hx
            obtain ⟨y, hy, -⟩ := hx
            have hym := List.mem_of_find?_eq_some hy
            have hyk := List.find?_some hy
            rw [List.mem_filter] at hym
            exact hfresh y hym.1 (by simpa using hyk)
        rw [hins]
        have e1 : (pre ++ [e]).filter p = pre.filter p := by
          rw [List.filter_append]
          simp [hside]
        have e2 : ((pre ++ [e]).filter fun x => !(p x)) =
            (pre.filter fun x => !(p x)) ++ [e] := by
          rw [List.filter_append]
          simp [hside]
        rw [e1, e2, e3] at hgoal
        exact hgoal

end BusTub

namespace BusTub

/-- `IncrLocalDepth(i)`: bump the local depth at one slot. -/
def bumpLd (dir : DirPage) (i : Nat) : DirPage :=
  { dir with localDepths :=
      Function.update dir.localDepths i (dir.localDepths i + 1) }

/-- The side predicate of a split at `bIdx`: an entry stays in the
original bucket iff its hash agrees with `bIdx` on the new local depth. -/
def splitKeep (c : HTConfig) (ldNew bIdx : Nat) (e : Nat × Nat) : Bool :=
  decide (hash32 c e.1 % 2 ^ ldNew = bIdx % 2 ^ ldNew)

theorem split_pid_char (c : HTConfig) (s : HTState) (dirPre : DirPage)
    (bpid : Nat) (bucket : BucketPage) (bIdx : Nat)
    (hld : dirPre.localDepths bIdx < dirPre.globalDepth) :
    ∀ i, i < 2 ^ dirPre.globalDepth →
      (splitBucket c s (bumpLd dirPre bIdx) bpid bucket bIdx).2.bucketPageIds
          i =
        if i % 2 ^ (dirPre.localDepths bIdx + 1) =
            splitImageIndex (dirPre.localDepths bIdx + 1) bIdx
        then some s.nextPageId else dirPre.bucketPageIds i := by
  intro i hi
  unfold splitBucket bumpLd
  dsimp only
  rw [Function.update_same]
  simp only [dirSize]
  have hsplt : splitImageIndex (dirPre.localDepths bIdx + 1) bIdx <
      2 ^ (dirPre.localDepths bIdx + 1) :=
    splitImage_lt (by omega) bIdx
  rw [Nat.mod_eq_of_lt hsplt]
  by_cases hc : i % 2 ^ (dirPre.localDepths bIdx + 1) =
      splitImageIndex (dirPre.localDepths bIdx + 1) bIdx
  · rw [if_pos (Or.inr ⟨hi, hc⟩), if_pos hc]
  · rw [if_neg ?_, if_neg hc]
    rintro (heq | ⟨-, h2⟩)
    · apply hc
      rw [heq]
      exact Nat.mod_eq_of_lt hsplt
    · exact hc h2

theorem split_ld_char (c : HTConfig) (s : HTState) (dirPre : DirPage)
    (bpid : Nat) (bucket : BucketPage) (bIdx : Nat)
    (hld : dirPre.localDepths bIdx < dirPre.globalDepth) :
    ∀ i, i < 2 ^ dirPre.globalDepth →
      (splitBucket c s (bumpLd dirPre bIdx) bpid bucket bIdx).2.localDepths
          i =
        if i % 2 ^ dirPre.localDepths bIdx = bIdx % 2 ^ dirPre.localDepths bIdx
        then dirPre.localDepths bIdx + 1 else dirPre.localDepths i := by
  intro i hi
  unfold splitBucket bumpLd
  dsimp only
  rw [Function.update_same]
  simp only [dirSize]
  have hsplt : splitImageIndex (dirPre.localDepths bIdx + 1) bIdx <
      2 ^ (dirPre.localDepths bIdx + 1) :=
    splitImage_lt (by omega) bIdx
  rw [Nat.mod_eq_of_lt hsplt]
  have hiff := class_split (d := dirPre.localDepths bIdx + 1) (by omega)
    bIdx i
  simp only [Nat.add_sub_cancel] at hiff
  by_cases hc : i % 2 ^ dirPre.localDepths bIdx =
      bIdx % 2 ^ dirPre.localDepths bIdx
  · rw [if_pos (Or.inr ⟨hi, hiff.mp hc⟩), if_pos hc]
  · rw [if_neg ?_, if_neg hc]
    · have hne : i ≠ bIdx := by
        intro h0
        exact hc (by rw [h0])
      exact Function.update_noteq hne _ _
    · rintro (heq | ⟨-, h2⟩)
      · apply hc
        apply hiff.mpr
        right
        rw [heq]
        exact Nat.mod_eq_of_lt hsplt
      · exact hc (hiff.mpr h2)

theorem split_gd_char (c : HTConfig) (s : HTState) (dirPre : DirPage)
    (bpid : Nat) (bucket : BucketPage) (bIdx : Nat) :
    (splitBucket c s (bumpLd dirPre bIdx) bpid bucket bIdx).2.globalDepth =
        dirPre.globalDepth ∧
      (splitBucket c s (bumpLd dirPre bIdx) bpid bucket
          bIdx).2.maxDepth = dirPre.maxDepth := by
  unfold splitBucket bumpLd
  exact ⟨rfl, rfl⟩

end BusTub

namespace BusTub

theorem splitBucket_fst (c : HTConfig) (s : HTState) (hIdx : Nat)
    (dirPre : DirPage) (bpid : Nat) (bucket : BucketPage) (bIdx : Nat)
    (hOk : DirOk c s hIdx dirPre)
    (hbIdx : bIdx < 2 ^ dirPre.globalDepth)
    (hld : dirPre.localDepths bIdx < dirPre.globalDepth)
    (hbpid : dirPre.bucketPageIds bIdx = some bpid)
    (hfresh : bpid < s.nextPageId)
    (hbOk : BucketOk c hIdx (dirPre.localDepths bIdx) bIdx bucket) :
    (splitBucket c s (bumpLd dirPre bIdx) bpid bucket bIdx).1 =
      { s with
          nextPageId := s.nextPageId + 1
          bucketPages :=
            Function.update
              (Function.update s.bucketPages s.nextPageId
                (some ⟨c.bucketMaxSize,
                  bucket.entries.filter fun e =>
                    !(splitKeep c (dirPre.localDepths bIdx + 1) bIdx e)⟩))
              bpid
              (some ⟨c.bucketMaxSize,
                bucket.entries.filter
                  (splitKeep c (dirPre.localDepths bIdx + 1) bIdx)⟩) } := by
  have hgd := split_gd_char c s dirPre bpid bucket bIdx
  have hpidc := split_pid_char c s dirPre bpid bucket bIdx hld
  have hsne : splitImageIndex (dirPre.localDepths bIdx + 1) bIdx ≠
      bIdx % 2 ^ (dirPre.localDepths bIdx + 1) :=
    splitImage_ne (by omega) bIdx
  have href :
      (splitBucket c s (bumpLd dirPre bIdx) bpid bucket
        bIdx).2.bucketPageIds bIdx = some bpid := by
    rw [hpidc bIdx hbIdx, if_neg (fun hc => hsne hc.symm)]
    exact hbpid
  have htest : ∀ e ∈ bucket.entries,
      (((splitBucket c s (bumpLd dirPre bIdx) bpid bucket
          bIdx).2.bucketPageIds
        (hashToBucketIndex
          (splitBucket c s (bumpLd dirPre bIdx) bpid bucket bIdx).2
          (hash32 c e.1)) =
        (splitBucket c s (bumpLd dirPre bIdx) bpid bucket
          bIdx).2.bucketPageIds bIdx) ↔
      splitKeep c (dirPre.localDepths bIdx + 1) bIdx e = true) := by
    intro e he
    have hcls := (hbOk.2.2.2 e he).2
    have hjlt : hash32 c e.1 % 2 ^ dirPre.globalDepth <
        2 ^ dirPre.globalDepth :=
      Nat.mod_lt _ (Nat.two_pow_pos _)
    have hbix : hashToBucketIndex
        (splitBucket c s (bumpLd dirPre bIdx) bpid bucket bIdx).2
        (hash32 c e.1) = hash32 c e.1 % 2 ^ dirPre.globalDepth := by
      unfold hashToBucketIndex
      rw [hgd.1]
    rw [hbix, href, hpidc _ hjlt]
    have hmm : hash32 c e.1 % 2 ^ dirPre.globalDepth %
        2 ^ (dirPre.localDepths bIdx + 1) =
        hash32 c e.1 % 2 ^ (dirPre.localDepths bIdx + 1) :=
      mod_mod_pow_le (by omega) _
    by_cases hkeep : hash32 c e.1 % 2 ^ (dirPre.localDepths bIdx + 1) =
        bIdx % 2 ^ (dirPre.localDepths bIdx + 1)
    · rw [if_neg (by rw [hmm, hkeep]; exact fun hc => hsne hc.symm)]
      have hj : hash32 c e.1 % 2 ^ dirPre.globalDepth %
          2 ^ dirPre.localDepths bIdx =
          bIdx % 2 ^ dirPre.localDepths bIdx := by
        rw [mod_mod_pow_le (by omega) _]
        exact class_mono (by omega) hkeep
      have h4 := hOk.2.2.2.1 bIdx
        (hash32 c e.1 % 2 ^ dirPre.globalDepth) hbIdx hjlt hj
      rw [h4.1, hbpid]
      simp [splitKeep, hkeep]
    · have hsp : hash32 c e.1 % 2 ^ (dirPre.localDepths bIdx + 1) =
          splitImageIndex (dirPre.localDepths bIdx + 1) bIdx := by
        have hiff := class_split (d := dirPre.localDepths bIdx + 1)
          (by omega) bIdx (hash32 c e.1)
        simp only [Nat.add_sub_cancel] at hiff
        rcases hiff.mp hcls with h0 | h0
        · exact absurd h0 hkeep
        · exact h0
      rw [if_pos (by rw [hmm]; exact hsp)]
      constructor
      · intro hc
        exact absurd (Option.some.inj hc) (by omega)
      · intro hc
        exact absurd hc (by simp [splitKeep, hkeep])
  have hgo := redistribute_go c
    (splitBucket c s (bumpLd dirPre bIdx) bpid bucket bIdx).2
    ((splitBucket c s (bumpLd dirPre bIdx) bpid bucket
      bIdx).2.bucketPageIds bIdx)
    (splitKeep c (dirPre.localDepths bIdx + 1) bIdx) c.bucketMaxSize
    bucket.entries [] (by simpa using hbOk.2.2.1)
    (by simpa using hbOk.2.1) htest
  simp only [List.nil_append, List.filter_nil] at hgo
  have hclear : bucketClear bucket =
      (⟨c.bucketMaxSize, []⟩ : BucketPage) := by
    unfold bucketClear
    rw [← hbOk.1]
  have hfst : (splitBucket c s (bumpLd dirPre bIdx) bpid bucket bIdx).1 =
      setBucketPage
        (setBucketPage { s with nextPageId := s.nextPageId + 1 }
          s.nextPageId
          (redistribute c
            (splitBucket c s (bumpLd dirPre bIdx) bpid bucket bIdx).2
            ((splitBucket c s (bumpLd dirPre bIdx) bpid bucket
              bIdx).2.bucketPageIds bIdx)
            bucket.entries (bucketClear bucket)
            (bucketInit c.bucketMaxSize)).2)
        bpid
        (redistribute c
          (splitBucket c s (bumpLd dirPre bIdx) bpid bucket bIdx).2
          ((splitBucket c s (bumpLd dirPre bIdx) bpid bucket
            bIdx).2.bucketPageIds bIdx)
          bucket.entries (bucketClear bucket)
          (bucketInit c.bucketMaxSize)).1 := rfl
  rw [hfst, hclear]
  have hinit : bucketInit c.bucketMaxSize =
      (⟨c.bucketMaxSize, []⟩ : BucketPage) := rfl
  rw [hinit, hgo]
  rfl

end BusTub

namespace BusTub

/-- Core preservation argument for a bucket split, stated over any
`(S', D)` satisfying the characterizations proved of
`splitBucket`'s result: the directory invariants are preserved, no slot
is invalidated, and every key's directory-level lookup is unchanged. -/
theorem split_abstract (c : HTConfig) (s : HTState) (hIdx : Nat)
    (dirPre : DirPage) (bIdx bpid : Nat) (bucket : BucketPage)
    (S' : HTState) (D : DirPage) (gd ldP sp : Nat)
    (hgde : gd = dirPre.globalDepth)
    (hldPe : ldP = dirPre.localDepths bIdx)
    (hspe : sp = splitImageIndex (ldP + 1) bIdx)
    (hOk : DirOk c s hIdx dirPre)
    (hsome : ∀ i, i < 2 ^ gd → dirPre.bucketPageIds i ≠ none)
    (hbIdx : bIdx < 2 ^ gd)
    (hld : ldP < gd)
    (hbpid : dirPre.bucketPageIds bIdx = some bpid)
    (hfresh : bpid < s.nextPageId)
    (hbucket : s.bucketPages bpid = some bucket)
    (hbOk : BucketOk c hIdx ldP bIdx bucket)
    (hDgd : D.globalDepth = dirPre.globalDepth)
    (hDmax : D.maxDepth = dirPre.maxDepth)
    (hDpid : ∀ i, i < 2 ^ gd →
      D.bucketPageIds i =
        if i % 2 ^ (ldP + 1) = sp then some s.nextPageId
        else dirPre.bucketPageIds i)
    (hDld : ∀ i, i < 2 ^ gd →
      D.localDepths i =
        if i % 2 ^ ldP = bIdx % 2 ^ ldP then ldP + 1
        else dirPre.localDepths i)
    (hS' : S' =
      { s with
          nextPageId := s.nextPageId + 1
          bucketPages :=
            Function.update
              (Function.update s.bucketPages s.nextPageId
                (some ⟨c.bucketMaxSize,
                  bucket.entries.filter fun e =>
                    !(splitKeep c (ldP + 1) bIdx e)⟩))
              bpid
              (some ⟨c.bucketMaxSize,
                bucket.entries.filter (splitKeep c (ldP + 1) bIdx)⟩) }) :
    DirOk c S' hIdx D ∧
      (∀ i, i < 2 ^ gd → D.bucketPageIds i ≠ none) ∧
      (∀ q, dirLookup c S' D q = dirLookup c s dirPre q) := by
  have hspN : sp < 2 ^ (ldP + 1) := by
    rw [hspe]; exact splitImage_lt (by omega) bIdx
  have hspgd : sp < 2 ^ gd := by
    have : (2 : Nat) ^ (ldP + 1) ≤ 2 ^ gd :=
      Nat.pow_le_pow_right (by norm_num) (by omega)
    omega
  have hsm : sp % 2 ^ ldP = bIdx % 2 ^ ldP := by
    have := splitImage_mod_lower (d := ldP + 1) (by omega) bIdx
    simp only [Nat.add_sub_cancel] at this
    rw [hspe]; exact this
  have hsne : sp ≠ bIdx % 2 ^ (ldP + 1) := by
    rw [hspe]; exact splitImage_ne (by omega) bIdx
  have hiff : ∀ x : Nat, x % 2 ^ ldP = bIdx % 2 ^ ldP ↔
      (x % 2 ^ (ldP + 1) = bIdx % 2 ^ (ldP + 1) ∨ x % 2 ^ (ldP + 1) = sp) := by
    intro x
    have := class_split (d := ldP + 1) (by omega) bIdx x
    simp only [Nat.add_sub_cancel] at this
    rw [hspe]; exact this
  have hI4 := hOk.2.2.2.1
  have hI5 := hOk.2.2.2.2.1
  have hSLOT := hOk.2.2.2.2.2
  have hfreshAll : ∀ j, j < 2 ^ gd → ∀ q,
      dirPre.bucketPageIds j = some q → q < s.nextPageId := by
    intro j hj q hq
    rcases hSLOT j (hgde ▸ hj) with ⟨bp, hbp, hlt, -⟩ | ⟨hn, -⟩
    · rw [hq] at hbp
      obtain rfl := Option.some.inj hbp
      exact hlt
    · rw [hq] at hn
      exact absurd hn (by simp)
  have hI4' : ∀ i j, i < 2 ^ gd → j < 2 ^ gd →
      j % 2 ^ dirPre.localDepths i = i % 2 ^ dirPre.localDepths i →
      dirPre.bucketPageIds j = dirPre.bucketPageIds i ∧
        dirPre.localDepths j = dirPre.localDepths i := by
    intro i j hi hj
    exact hI4 i j (hgde ▸ hi) (hgde ▸ hj)
  have hI5' : ∀ i j p, i < 2 ^ gd → j < 2 ^ gd →
      dirPre.bucketPageIds i = some p → dirPre.bucketPageIds j = some p →
      j % 2 ^ dirPre.localDepths i = i % 2 ^ dirPre.localDepths i := by
    intro i j p hi hj
    exact hI5 i j p (hgde ▸ hi) (hgde ▸ hj)
  have hIbcl : ∀ j, j < 2 ^ gd → j % 2 ^ ldP = bIdx % 2 ^ ldP →
      dirPre.bucketPageIds j = some bpid ∧
        dirPre.localDepths j = ldP := by
    intro j hj hjc
    have := hI4' bIdx j hbIdx hj (by rw [← hldPe] at *; exact hjc)
    constructor
    · rw [this.1, hbpid]
    · rw [this.2, hldPe]
  have hIbcl' : ∀ j, j < 2 ^ gd → dirPre.bucketPageIds j = some bpid →
      j % 2 ^ ldP = bIdx % 2 ^ ldP := by
    intro j hj hjp
    have := hI5' bIdx j bpid hbIdx hj hbpid hjp
    rw [← hldPe] at this
    exact this
  have hnew : S'.bucketPages s.nextPageId =
      some ⟨c.bucketMaxSize,
        bucket.entries.filter fun e => !(splitKeep c (ldP + 1) bIdx e)⟩ := by
    rw [hS']
    dsimp only
    rw [Function.update_noteq (by omega), Function.update_same]
  have hold : S'.bucketPages bpid =
      some ⟨c.bucketMaxSize,
        bucket.entries.filter (splitKeep c (ldP + 1) bIdx)⟩ := by
    rw [hS']
    dsimp only
    rw [Function.update_same]
  have hother : ∀ q, q ≠ bpid → q ≠ s.nextPageId →
      S'.bucketPages q = s.bucketPages q := by
    intro q h1 h2
    rw [hS']
    dsimp only
    rw [Function.update_noteq h1, Function.update_noteq h2]
  have hnext : S'.nextPageId = s.nextPageId + 1 := by rw [hS']
  have hkeepOk : BucketOk c hIdx (ldP + 1) bIdx
      ⟨c.bucketMaxSize, bucket.entries.filter (splitKeep c (ldP + 1) bIdx)⟩ := by
    refine ⟨rfl, ?_, ?_, ?_⟩
    · exact le_trans (List.length_filter_le _ _) hbOk.2.1
    · exact List.Nodup.sublist (List.Sublist.map _ (List.filter_sublist _))
        hbOk.2.2.1
    · intro e he
      rw [List.mem_filter] at he
      refine ⟨(hbOk.2.2.2 e he.1).1, ?_⟩
      have := he.2
      unfold splitKeep at this
      simpa using this
  have hsplitOk : ∀ i, i < 2 ^ gd → i % 2 ^ (ldP + 1) = sp →
      BucketOk c hIdx (ldP + 1) i
      ⟨c.bucketMaxSize,
        bucket.entries.filter fun e => !(splitKeep c (ldP + 1) bIdx e)⟩ := by
    intro i hi hisp
    refine ⟨rfl, ?_, ?_, ?_⟩
    · exact le_trans (List.length_filter_le _ _) hbOk.2.1
    · exact List.Nodup.sublist (List.Sublist.map _ (List.filter_sublist _))
        hbOk.2.2.1
    · intro e he
      rw [List.mem_filter] at he
      refine ⟨(hbOk.2.2.2 e he.1).1, ?_⟩
      have hek := he.2
      unfold splitKeep at hek
      simp only [Bool.not_eq_true', decide_eq_false_iff_not] at hek
      have hecl : hash32 c e.1 % 2 ^ ldP = bIdx % 2 ^ ldP :=
        (hbOk.2.2.2 e he.1).2
      rcases (hiff _).mp hecl with h0 | h0
      · exact absurd h0 hek
      · rw [h0, hisp]
  refine ⟨⟨?_, ?_, ?_, ?_, ?_, ?_⟩, ?_, ?_⟩
  · rw [hDmax]; exact hOk.1
  · rw [hDgd]; exact hOk.2.1
  · intro i hi
    rw [hDgd, ← hgde] at hi
    rw [hDld i hi, hDgd, ← hgde]
    split_ifs with hc
    · omega
    · exact hgde ▸ hOk.2.2.1 i (hgde ▸ hi)
  · intro i j hi hj hclass
    rw [hDgd, ← hgde] at hi hj
    rw [hDld i hi] at hclass
    by_cases hcl : i % 2 ^ ldP = bIdx % 2 ^ ldP
    · rw [if_pos hcl] at hclass
      have hjcl : j % 2 ^ ldP = bIdx % 2 ^ ldP :=
        (class_mono (by omega) hclass).trans hcl
      constructor
      · rw [hDpid i hi, hDpid j hj]
        by_cases hisp : i % 2 ^ (ldP + 1) = sp
        · rw [if_pos hisp, if_pos (hclass.trans hisp)]
        · rw [if_neg hisp, if_neg (fun hc => hisp (hclass.symm.trans hc))]
          rw [(hIbcl j hj hjcl).1, (hIbcl i hi hcl).1]
      · rw [hDld j hj, if_pos hjcl, hDld i hi, if_pos hcl]
    · rw [if_neg hcl] at hclass
      have holdc := hI4' i j hi hj hclass
      have hjncl : ¬ j % 2 ^ ldP = bIdx % 2 ^ ldP := by
        intro hjcl
        apply hcl
        apply hIbcl' i hi
        rw [← holdc.1, (hIbcl j hj hjcl).1]
      constructor
      · rw [hDpid i hi, hDpid j hj]
        have hinsp : ¬ i % 2 ^ (ldP + 1) = sp := by
          intro hc
          apply hcl
          have h1 : i % 2 ^ ldP = sp % 2 ^ ldP := by
            rw [← mod_mod_pow_le (by omega : ldP ≤ ldP + 1) i, hc]
          rw [h1, hsm]
        have hjnsp : ¬ j % 2 ^ (ldP + 1) = sp := by
          intro hc
          apply hjncl
          have h1 : j % 2 ^ ldP = sp % 2 ^ ldP := by
            rw [← mod_mod_pow_le (by omega : ldP ≤ ldP + 1) j, hc]
          rw [h1, hsm]
        rw [if_neg hinsp, if_neg hjnsp, holdc.1]
      · rw [hDld i hi, hDld j hj, if_neg hcl, if_neg hjncl, holdc.2]
  · intro i j p hi hj hpi hpj
    rw [hDgd, ← hgde] at hi hj
    rw [hDpid i hi] at hpi
    rw [hDpid j hj] at hpj
    rw [hDld i hi]
    by_cases hisp : i % 2 ^ (ldP + 1) = sp
    · rw [if_pos hisp] at hpi
      obtain rfl : s.nextPageId = p := Option.some.inj hpi
      by_cases hjsp : j % 2 ^ (ldP + 1) = sp
      · have hicl : i % 2 ^ ldP = bIdx % 2 ^ ldP := by
          rw [← mod_mod_pow_le (by omega : ldP ≤ ldP + 1) i, hisp, hsm]
        rw [if_pos hicl, hjsp, hisp]
      · rw [if_neg hjsp] at hpj
        exact absurd (hfreshAll j hj _ hpj) (lt_irrefl _)
    · rw [if_neg hisp] at hpi
      have hpfr := hfreshAll i hi p hpi
      by_cases hjsp : j % 2 ^ (ldP + 1) = sp
      · rw [if_pos hjsp] at hpj
        have := Option.some.inj hpj
        omega
      · rw [if_neg hjsp] at hpj
        have hclass := hI5' i j p hi hj hpi hpj
        by_cases hicl : i % 2 ^ ldP = bIdx % 2 ^ ldP
        · rw [if_pos hicl]
          have hibn : i % 2 ^ (ldP + 1) = bIdx % 2 ^ (ldP + 1) := by
            rcases (hiff i).mp hicl with h0 | h0
            · exact h0
            · exact absurd h0 hisp
          have hpb : p = bpid := by
            have h1 := (hIbcl i hi hicl).1
            rw [hpi] at h1
            exact Option.some.inj h1
          have hjcl : j % 2 ^ ldP = bIdx % 2 ^ ldP :=
            hIbcl' j hj (by rw [← hpb]; exact hpj)
          have hjbn : j % 2 ^ (ldP + 1) = bIdx % 2 ^ (ldP + 1) := by
            rcases (hiff j).mp hjcl with h0 | h0
            · exact h0
            · exact absurd h0 hjsp
          rw [hjbn, hibn]
        · rw [if_neg hicl]
          exact hclass
  · intro i hi
    rw [hDgd, ← hgde] at hi
    left
    rw [hDpid i hi]
    by_cases hisp : i % 2 ^ (ldP + 1) = sp
    · rw [if_pos hisp]
      refine ⟨s.nextPageId, rfl, by omega, _, hnew, ?_⟩
      have hicl : i % 2 ^ ldP = bIdx % 2 ^ ldP := by
        rw [← mod_mod_pow_le (by omega : ldP ≤ ldP + 1) i, hisp, hsm]
      rw [hDld i hi, if_pos hicl]
      exact hsplitOk i hi hisp
    · rw [if_neg hisp]
      by_cases hicl : i % 2 ^ ldP = bIdx % 2 ^ ldP
      · have hib := hIbcl i hi hicl
        refine ⟨bpid, hib.1, by omega, _, hold, ?_⟩
        rw [hDld i hi, if_pos hicl]
        have hibn : i % 2 ^ (ldP + 1) = bIdx % 2 ^ (ldP + 1) := by
          rcases (hiff i).mp hicl with h0 | h0
          · exact h0
          · exact absurd h0 hisp
        obtain ⟨h1, h2, h3, h4⟩ := hkeepOk
        refine ⟨h1, h2, h3, ?_⟩
        intro e he
        refine ⟨(h4 e he).1, ?_⟩
        rw [(h4 e he).2, hibn]
      · obtain ⟨q, hq⟩ : ∃ q, dirPre.bucketPageIds i = some q := by
          cases h : dirPre.bucketPageIds i with
          | none => exact absurd h (hsome i hi)
          | some q => exact ⟨q, rfl⟩
        have hqb : q ≠ bpid := by
          intro h0
          exact hicl (hIbcl' i hi (h0 ▸ hq))
        have hqfr : q < s.nextPageId := hfreshAll i hi q hq
        rcases hSLOT i (hgde ▸ hi) with ⟨bp, hbp, _, b, hb, hbok⟩ | ⟨hn, -⟩
        · have hbq : bp = q := by
            rw [hq] at hbp
            exact (Option.some.inj hbp).symm
          refine ⟨q, hq, by omega, b, ?_, ?_⟩
          · rw [hother q hqb (by omega), ← hbq]
            exact hb
          · rw [hDld i hi, if_neg hicl]
            exact hbok
        · rw [hq] at hn
          exact absurd hn (by simp)
  · intro i hi
    rw [hDpid i hi]
    split_ifs with h0
    · simp
    · exact hsome i hi
  · intro q
    unfold dirLookup
    have hq1 : hashToBucketIndex D (hash32 c q) =
        hash32 c q % 2 ^ gd := by
      unfold hashToBucketIndex
      rw [hDgd, ← hgde]
    have hq2 : hashToBucketIndex dirPre (hash32 c q) =
        hash32 c q % 2 ^ gd := by
      unfold hashToBucketIndex
      rw [← hgde]
    have hjlt : hash32 c q % 2 ^ gd < 2 ^ gd :=
      Nat.mod_lt _ (Nat.two_pow_pos _)
    rw [hq1, hq2, hDpid _ hjlt]
    have hmm : hash32 c q % 2 ^ gd % 2 ^ (ldP + 1) =
        hash32 c q % 2 ^ (ldP + 1) := mod_mod_pow_le (by omega) _
    by_cases hjsp : hash32 c q % 2 ^ gd % 2 ^ (ldP + 1) = sp
    · rw [if_pos hjsp]
      have hjcl : hash32 c q % 2 ^ gd % 2 ^ ldP = bIdx % 2 ^ ldP := by
        rw [← mod_mod_pow_le (by omega : ldP ≤ ldP + 1)
          (hash32 c q % 2 ^ gd), hjsp, hsm]
      rw [(hIbcl _ hjlt hjcl).1]
      dsimp only
      rw [hnew, hbucket]
      dsimp only
      unfold bucketLookup
      dsimp only
      rw [find?_key_filter_of_pred]
      intro e he heq
      have hek : hash32 c e.1 % 2 ^ (ldP + 1) = sp := by
        rw [heq, ← hmm, hjsp]
      unfold splitKeep
      simp only [Bool.not_eq_true', decide_eq_false_iff_not]
      rw [hek]
      exact fun hc => hsne hc
    · rw [if_neg hjsp]
      by_cases hjcl : hash32 c q % 2 ^ gd % 2 ^ ldP = bIdx % 2 ^ ldP
      · rw [(hIbcl _ hjlt hjcl).1]
        dsimp only
        rw [hold, hbucket]
        dsimp only
        unfold bucketLookup
        dsimp only
        rw [find?_key_filter_of_pred]
        intro e he heq
        have hjbn : hash32 c q % 2 ^ gd % 2 ^ (ldP + 1) =
            bIdx % 2 ^ (ldP + 1) := by
          rcases (hiff (hash32 c q % 2 ^ gd)).mp hjcl with h0 | h0
          · exact h0
          · exact absurd h0 hjsp
        unfold splitKeep
        simp only [decide_eq_true_eq]
        rw [heq, ← hmm, hjbn]
      · obtain ⟨q', hq'⟩ :
            ∃ q', dirPre.bucketPageIds (hash32 c q % 2 ^ gd) = some q' := by
          cases h : dirPre.bucketPageIds (hash32 c q % 2 ^ gd) with
          | none => exact absurd h (hsome _ hjlt)
          | some x => exact ⟨x, rfl⟩
        have hqb : q' ≠ bpid := by
          intro h0
          exact hjcl (hIbcl' _ hjlt (h0 ▸ hq'))
        have hqfr : q' < s.nextPageId := hfreshAll _ hjlt q' hq'
        rw [hq']
        dsimp only
        rw [hother q' hqb (by omega)]

end BusTub

namespace BusTub

/-- `GetValue` is determined by the option-valued lookup: the flag is its
`isSome` and the result vector gains exactly its content. -/
theorem getValue_char (c : HTConfig) (s : HTState) (k : Nat)
    (res : List Nat) :
    getValue c s k res =
      ((lookupHT c s k).isSome, res ++ (lookupHT c s k).toList) := by
  unfold getValue lookupHT
  dsimp only
  cases s.headerDirIds (hashToDirectoryIndex c (hash32 c k)) with
  | none => simp
  | some dpid =>
      dsimp only
      cases s.dirPages dpid with
      | none => simp
      | some dir =>
          dsimp only
          cases dir.bucketPageIds (hashToBucketIndex dir (hash32 c k)) with
          | none => simp
          | some bpid =>
              dsimp only
              cases s.bucketPages bpid with
              | none => simp
              | some b =>
                  dsimp only
                  cases bucketLookup b k with
                  | none => simp
                  | some v => simp

theorem lookupHT_htInit (c : HTConfig) (q : Nat) :
    lookupHT c htInit q = none := rfl

/-- Lookup only reads the header slot, directory page and bucket page on
the key's route; states agreeing there agree on the lookup. -/
theorem lookupHT_frame {c : HTConfig} {s s' : HTState} {q : Nat}
    (h1 : s'.headerDirIds (hashToDirectoryIndex c (hash32 c q)) =
      s.headerDirIds (hashToDirectoryIndex c (hash32 c q)))
    (h2 : ∀ dpid,
      s.headerDirIds (hashToDirectoryIndex c (hash32 c q)) = some dpid →
      s'.dirPages dpid = s.dirPages dpid)
    (h3 : ∀ dpid dir bpid,
      s.headerDirIds (hashToDirectoryIndex c (hash32 c q)) = some dpid →
      s.dirPages dpid = some dir →
      dir.bucketPageIds (hashToBucketIndex dir (hash32 c q)) = some bpid →
      s'.bucketPages bpid = s.bucketPages bpid) :
    lookupHT c s' q = lookupHT c s q := by
  unfold lookupHT
  dsimp only
  rw [h1]
  cases hh : s.headerDirIds (hashToDirectoryIndex c (hash32 c q)) with
  | none => rfl
  | some dpid =>
      dsimp only
      rw [h2 dpid hh]
      cases hd : s.dirPages dpid with
      | none => rfl
      | some dir =>
          dsimp only
          cases hp : dir.bucketPageIds (hashToBucketIndex dir
              (hash32 c q)) with
          | none => rfl
          | some bpid =>
              dsimp only
              rw [h3 dpid dir bpid hh hd hp]

/-- A directory's invariant survives any state change that preserves its
referenced bucket pages and does not reuse page ids. -/
theorem DirOk_frame {c : HTConfig} {s s' : HTState} {hIdx : Nat}
    {dir : DirPage}
    (h : DirOk c s hIdx dir)
    (hn : s.nextPageId ≤ s'.nextPageId)
    (hb : ∀ p, (∃ i, i < 2 ^ dir.globalDepth ∧
        dir.bucketPageIds i = some p) →
      s'.bucketPages p = s.bucketPages p) :
    DirOk c s' hIdx dir := by
  obtain ⟨h1, h2, h3, h4, h5, h6⟩ := h
  refine ⟨h1, h2, h3, h4, h5, ?_⟩
  intro i hi
  rcases h6 i hi with ⟨p, hp, hfr, b, hbp, hok⟩ | hnone
  · exact Or.inl ⟨p, hp, by omega, b,
      by rw [hb p ⟨i, hi, hp⟩]; exact hbp, hok⟩
  · exact Or.inr hnone

/-- Replacing the bucket page at `bpid` does not change any lookup whose
bucket-level answer is unchanged. -/
theorem lookupHT_setBucket_congr {c : HTConfig} {s : HTState} {bpid : Nat}
    {newB oldB : BucketPage} {q : Nat}
    (hB : s.bucketPages bpid = some oldB)
    (hq : bucketLookup newB q = bucketLookup oldB q) :
    lookupHT c (setBucketPage s bpid newB) q = lookupHT c s q := by
  unfold lookupHT setBucketPage
  dsimp only
  cases hh : s.headerDirIds (hashToDirectoryIndex c (hash32 c q)) with
  | none => rfl
  | some dpid =>
      dsimp only
      cases hd : s.dirPages dpid with
      | none => rfl
      | some dir =>
          dsimp only
          cases hp : dir.bucketPageIds (hashToBucketIndex dir
              (hash32 c q)) with
          | none => rfl
          | some p =>
              dsimp only
              by_cases hpb : p = bpid
              · subst hpb
                rw [Function.update_same, hB]
                exact hq
              · rw [Function.update_noteq hpb]

/-- The value of a lookup whose full route is known. -/
theorem lookupHT_route_bucket {c : HTConfig} {s : HTState}
    {k dpid bpid : Nat} {dir : DirPage} {b : BucketPage}
    (hh : s.headerDirIds (hashToDirectoryIndex c (hash32 c k)) = some dpid)
    (hd : s.dirPages dpid = some dir)
    (hp : dir.bucketPageIds (hashToBucketIndex dir (hash32 c k)) =
      some bpid)
    (hb : s.bucketPages bpid = some b) :
    lookupHT c s k = bucketLookup b k := by
  unfold lookupHT
  dsimp only
  rw [hh]
  dsimp only
  rw [hd]
  dsimp only
  rw [hp]
  dsimp only
  rw [hb]

/-- Replacing the bucket page at one slot of one directory with a page
that is still well-formed for that slot preserves the global invariant. -/
theorem HTInv_setBucket {c : HTConfig} {s : HTState}
    {hIdx dpid bIdx bpid : Nat} {dir : DirPage} {oldB newB : BucketPage}
    (hInv : HTInv c s)
    (hh : s.headerDirIds hIdx = some dpid)
    (hd : s.dirPages dpid = some dir)
    (hbIdx : bIdx < 2 ^ dir.globalDepth)
    (hp : dir.bucketPageIds bIdx = some bpid)
    (hB : s.bucketPages bpid = some oldB)
    (hOkNew : BucketOk c hIdx (dir.localDepths bIdx) bIdx newB) :
    HTInv c (setBucketPage s bpid newB) := by
  obtain ⟨hH, hInj, hDisj⟩ := hInv
  refine ⟨?_, hInj, hDisj⟩
  intro h2 dp2 hh2
  obtain ⟨hfr2, dir2, hd2, hOk2⟩ := hH h2 dp2 hh2
  refine ⟨hfr2, dir2, hd2, ?_⟩
  have hh2' : s.headerDirIds h2 = some dp2 := hh2
  by_cases hsame : h2 = hIdx
  · subst hsame
    obtain rfl : dp2 = dpid := by
      rw [hh2'] at hh
      exact Option.some.inj hh
    obtain rfl : dir2 = dir := by
      rw [hd2] at hd
      exact Option.some.inj hd
    obtain ⟨h1, h2', h3, h4, h5, h6⟩ := hOk2
    refine ⟨h1, h2', h3, h4, h5, ?_⟩
    intro i hi
    rcases h6 i hi with ⟨p, hpi, hfr, b, hbp, hok⟩ | hnone
    · by_cases hpb : p = bpid
      · subst hpb
        refine Or.inl ⟨p, hpi, hfr, newB, ?_, ?_⟩
        · unfold setBucketPage
          dsimp only
          rw [Function.update_same]
        · have hcls := h5 bIdx i p hbIdx hi hp hpi
          have hlds := (h4 bIdx i hbIdx hi hcls).2
          rw [hlds]
          refine ⟨hOkNew.1, hOkNew.2.1, hOkNew.2.2.1, ?_⟩
          intro e he
          refine ⟨(hOkNew.2.2.2 e he).1, ?_⟩
          rw [(hOkNew.2.2.2 e he).2, hcls]
      · refine Or.inl ⟨p, hpi, hfr, b, ?_, hok⟩
        unfold setBucketPage
        dsimp only
        rw [Function.update_noteq hpb]
        exact hbp
    · exact Or.inr hnone
  · have hdisj2 : ∀ j p, j < 2 ^ dir2.globalDepth →
        dir2.bucketPageIds j = some p → p ≠ bpid := by
      intro j p hj hjp hpe
      subst hpe
      obtain ⟨-, dirx, hdx, -⟩ := hH hIdx dpid hh
      exact hDisj h2 hIdx dp2 dpid dir2 dir j bIdx p hsame hh2 hh hd2 hd hj
        hbIdx hjp hp
    refine DirOk_frame hOk2 (le_refl _) ?_
    intro p ⟨j, hj, hjp⟩
    unfold setBucketPage
    dsimp only
    rw [Function.update_noteq (hdisj2 j p hj hjp)]

end BusTub

namespace BusTub

theorem incr_pid {dir : DirPage} {i : Nat}
    (hi : i < 2 ^ (dir.globalDepth + 1)) :
    (incrGlobalDepth dir).bucketPageIds i =
      dir.bucketPageIds (i % 2 ^ dir.globalDepth) := by
  unfold incrGlobalDepth
  dsimp only
  rw [if_pos hi]

theorem incr_ld {dir : DirPage} {i : Nat}
    (hi : i < 2 ^ (dir.globalDepth + 1)) :
    (incrGlobalDepth dir).localDepths i =
      dir.localDepths (i % 2 ^ dir.globalDepth) := by
  unfold incrGlobalDepth
  dsimp only
  rw [if_pos hi]

/-- `IncrGlobalDepth` duplicates the lower half of the directory:
invariants, slot validity and all lookups are preserved, and no new
bucket page id appears. -/
theorem incr_preserves {c : HTConfig} {s : HTState} {hIdx : Nat}
    {dir : DirPage}
    (hOk : DirOk c s hIdx dir)
    (hsome : ∀ i, i < 2 ^ dir.globalDepth → dir.bucketPageIds i ≠ none)
    (hmd : dir.globalDepth < dir.maxDepth) :
    DirOk c s hIdx (incrGlobalDepth dir) ∧
      (∀ i, i < 2 ^ (incrGlobalDepth dir).globalDepth →
        (incrGlobalDepth dir).bucketPageIds i ≠ none) ∧
      (∀ q, dirLookup c s (incrGlobalDepth dir) q = dirLookup c s dir q) ∧
      (∀ i p, i < 2 ^ (incrGlobalDepth dir).globalDepth →
        (incrGlobalDepth dir).bucketPageIds i = some p →
        ∃ j, j < 2 ^ dir.globalDepth ∧ dir.bucketPageIds j = some p) := by
  obtain ⟨h1, h2, h3, h4, h5, h6⟩ := hOk
  have hgd : (incrGlobalDepth dir).globalDepth = dir.globalDepth + 1 := rfl
  have hmx : (incrGlobalDepth dir).maxDepth = dir.maxDepth := rfl
  have hm0 : ∀ i : Nat, i % 2 ^ dir.globalDepth < 2 ^ dir.globalDepth :=
    fun i => Nat.mod_lt _ (Nat.two_pow_pos _)
  refine ⟨⟨?_, ?_, ?_, ?_, ?_, ?_⟩, ?_, ?_, ?_⟩
  · rw [hmx]; exact h1
  · rw [hgd]; omega
  · intro i hi
    rw [hgd] at hi ⊢
    rw [incr_ld hi]
    have := h3 _ (hm0 i)
    omega
  · intro i j hi hj hclass
    rw [hgd] at hi hj
    rw [incr_ld hi] at hclass
    have hldle := h3 _ (hm0 i)
    have hclass0 : j % 2 ^ dir.globalDepth %
        2 ^ dir.localDepths (i % 2 ^ dir.globalDepth) =
        i % 2 ^ dir.globalDepth %
        2 ^ dir.localDepths (i % 2 ^ dir.globalDepth) := by
      rw [mod_mod_pow_le hldle, mod_mod_pow_le hldle]
      exact hclass
    have hold := h4 _ _ (hm0 i) (hm0 j) hclass0
    rw [incr_pid hi, incr_pid hj, incr_ld hi, incr_ld hj]
    exact hold
  · intro i j p hi hj hpi hpj
    rw [hgd] at hi hj
    rw [incr_pid hi] at hpi
    rw [incr_pid hj] at hpj
    rw [incr_ld hi]
    have hldle := h3 _ (hm0 i)
    have hold := h5 _ _ p (hm0 i) (hm0 j) hpi hpj
    rw [← mod_mod_pow_le hldle j, ← mod_mod_pow_le hldle i]
    exact hold
  · intro i hi
    rw [hgd] at hi
    rw [incr_pid hi, incr_ld hi]
    rcases h6 _ (hm0 i) with ⟨p, hp, hfr, b, hbp, hok⟩ | ⟨hn, -⟩
    · refine Or.inl ⟨p, hp, hfr, b, hbp, ?_⟩
      refine ⟨hok.1, hok.2.1, hok.2.2.1, ?_⟩
      intro e he
      refine ⟨(hok.2.2.2 e he).1, ?_⟩
      have hldle := h3 _ (hm0 i)
      rw [(hok.2.2.2 e he).2, mod_mod_pow_le hldle]
    · exact absurd hn (hsome _ (hm0 i))
  · intro i hi
    rw [hgd] at hi
    rw [incr_pid hi]
    exact hsome _ (hm0 i)
  · intro q
    unfold dirLookup hashToBucketIndex
    rw [hgd, incr_pid (by rw [← hgd]; exact Nat.mod_lt _ (Nat.two_pow_pos _)),
      mod_mod_pow_le (by omega)]
  · intro i p hi hpi
    rw [hgd] at hi
    rw [incr_pid hi] at hpi
    exact ⟨_, hm0 i, hpi⟩

end BusTub

namespace BusTub

/-- `SplitBucket` (preceded by `IncrLocalDepth`) preserves the directory
invariant, slot validity and every lookup, and introduces no page id other
than the freshly allocated one. -/
theorem split_preserves (c : HTConfig) (s : HTState) (hIdx : Nat)
    (dirPre : DirPage) (bIdx bpid : Nat) (bucket : BucketPage)
    (hOk : DirOk c s hIdx dirPre)
    (hsome : ∀ i, i < 2 ^ dirPre.globalDepth →
      dirPre.bucketPageIds i ≠ none)
    (hbIdx : bIdx < 2 ^ dirPre.globalDepth)
    (hld : dirPre.localDepths bIdx < dirPre.globalDepth)
    (hbpid : dirPre.bucketPageIds bIdx = some bpid)
    (hfresh : bpid < s.nextPageId)
    (hbucket : s.bucketPages bpid = some bucket)
    (hbOk : BucketOk c hIdx (dirPre.localDepths bIdx) bIdx bucket) :
    DirOk c (splitBucket c s (bumpLd dirPre bIdx) bpid bucket bIdx).1 hIdx
        (splitBucket c s (bumpLd dirPre bIdx) bpid bucket bIdx).2 ∧
      (∀ i, i < 2 ^ dirPre.globalDepth →
        (splitBucket c s (bumpLd dirPre bIdx) bpid bucket
          bIdx).2.bucketPageIds i ≠ none) ∧
      (∀ q, dirLookup c
          (splitBucket c s (bumpLd dirPre bIdx) bpid bucket bIdx).1
          (splitBucket c s (bumpLd dirPre bIdx) bpid bucket bIdx).2 q =
        dirLookup c s dirPre q) ∧
      (∀ i p, i < 2 ^ dirPre.globalDepth →
        (splitBucket c s (bumpLd dirPre bIdx) bpid bucket
          bIdx).2.bucketPageIds i = some p →
        (∃ j, j < 2 ^ dirPre.globalDepth ∧
          dirPre.bucketPageIds j = some p) ∨ p = s.nextPageId) := by
  have hmain := split_abstract c s hIdx dirPre bIdx bpid bucket
    (splitBucket c s (bumpLd dirPre bIdx) bpid bucket bIdx).1
    (splitBucket c s (bumpLd dirPre bIdx) bpid bucket bIdx).2
    dirPre.globalDepth (dirPre.localDepths bIdx)
    (splitImageIndex (dirPre.localDepths bIdx + 1) bIdx)
    rfl rfl rfl hOk hsome hbIdx hld hbpid hfresh hbucket hbOk
    (split_gd_char c s dirPre bpid bucket bIdx).1
    (split_gd_char c s dirPre bpid bucket bIdx).2
    (split_pid_char c s dirPre bpid bucket bIdx hld)
    (split_ld_char c s dirPre bpid bucket bIdx hld)
    (splitBucket_fst c s hIdx dirPre bpid bucket bIdx hOk hbIdx hld hbpid
      hfresh hbOk)
  refine ⟨hmain.1, hmain.2.1, hmain.2.2, ?_⟩
  intro i p hi hpi
  rw [split_pid_char c s dirPre bpid bucket bIdx hld i hi] at hpi
  split_ifs at hpi with h0
  · exact Or.inr (Option.some.inj hpi).symm
  · exact Or.inl ⟨i, hi, hpi⟩

end BusTub

namespace BusTub

/-- Committing an updated directory page for header slot `hIdx` preserves
the global invariant, provided the new directory is well-formed in the
new state, uses only its old page ids or freshly allocated ones, and the
pages of every other directory are untouched. -/
theorem HTInv_commit {c : HTConfig} {s S' : HTState} {hIdx dpid : Nat}
    {D : DirPage}
    (hInv : HTInv c s)
    (hh : s.headerDirIds hIdx = some dpid)
    (hhead : S'.headerDirIds = s.headerDirIds)
    (hdp : S'.dirPages = Function.update s.dirPages dpid (some D))
    (hnext : s.nextPageId ≤ S'.nextPageId)
    (hDOk : DirOk c S' hIdx D)
    (hDpids : ∀ i p, i < 2 ^ D.globalDepth → D.bucketPageIds i = some p →
      (∃ dir j, s.dirPages dpid = some dir ∧ j < 2 ^ dir.globalDepth ∧
        dir.bucketPageIds j = some p) ∨ s.nextPageId ≤ p)
    (hbuck : ∀ p, p < s.nextPageId →
      (∀ dir j, s.dirPages dpid = some dir → j < 2 ^ dir.globalDepth →
        dir.bucketPageIds j ≠ some p) →
      S'.bucketPages p = s.bucketPages p) :
    HTInv c S' := by
  obtain ⟨hH, hInj, hDisj⟩ := hInv
  refine ⟨?_, ?_, ?_⟩
  · intro h2 dp2 hh2
    rw [hhead] at hh2
    by_cases hsame : dp2 = dpid
    · subst hsame
      obtain rfl : h2 = hIdx := hInj h2 hIdx dp2 hh2 hh
      refine ⟨by have := (hH h2 dp2 hh2).1; omega, D, ?_, hDOk⟩
      rw [hdp]
      exact Function.update_same _ _ _
    · obtain ⟨hfr2, dir2, hd2, hOk2⟩ := hH h2 dp2 hh2
      have hne : h2 ≠ hIdx := by
        intro h0
        subst h0
        rw [hh2] at hh
        exact hsame (Option.some.inj hh)
      refine ⟨by omega, dir2, ?_, ?_⟩
      · rw [hdp, Function.update_noteq hsame]
        exact hd2
      · apply DirOk_frame hOk2 hnext
        rintro p ⟨j, hj, hjp⟩
        have hpfr : p < s.nextPageId := by
          rcases hOk2.2.2.2.2.2 j hj with ⟨p', hp', hlt, -⟩ | ⟨hn, -⟩
          · rw [hjp] at hp'
            obtain rfl := Option.some.inj hp'
            exact hlt
          · rw [hjp] at hn
            exact absurd hn (by simp)
        apply hbuck p hpfr
        intro dirx jx hdx hjx hjxp
        exact hDisj hIdx h2 dpid dp2 dirx dir2 jx j p (Ne.symm hne) hh hh2
          hdx hd2 hjx hj hjxp hjp
  · intro a b dp ha hb
    rw [hhead] at ha hb
    exact hInj a b dp ha hb
  · intro a b dpa dpb da db i j p hab hha hhb hda hdb hi hj hpa hpb
    rw [hhead] at hha hhb
    rw [hdp] at hda hdb
    by_cases ha' : dpa = dpid
    · subst ha'
      rw [Function.update_same] at hda
      obtain rfl := Option.some.inj hda
      obtain rfl : a = hIdx := hInj a hIdx dpa hha hh
      have hb' : dpb ≠ dpa := by
        intro h0
        subst h0
        exact hab (hInj a b dpb hha hhb)
      rw [Function.update_noteq hb'] at hdb
      rcases hDpids i p hi hpa with ⟨dirx, jx, hdx, hjx, hjxp⟩ | hfr
      · exact hDisj a b dpa dpb dirx db jx j p hab hha hhb hdx hdb hjx hj
          hjxp hpb
      · obtain ⟨-, db', hdb', hOkb⟩ := hH b dpb hhb
        obtain rfl : db' = db := by
          rw [hdb'] at hdb
          exact Option.some.inj hdb
        rcases hOkb.2.2.2.2.2 j hj with ⟨p', hp', hlt, -⟩ | ⟨hn, -⟩
        · rw [hpb] at hp'
          obtain rfl := Option.some.inj hp'
          omega
        · rw [hpb] at hn
          exact absurd hn (by simp)
    · by_cases hb' : dpb = dpid
      · subst hb'
        rw [Function.update_same] at hdb
        obtain rfl := Option.some.inj hdb
        obtain rfl : b = hIdx := hInj b hIdx dpb hhb hh
        rw [Function.update_noteq ha'] at hda
        rcases hDpids j p hj hpb with ⟨dirx, jx, hdx, hjx, hjxp⟩ | hfr
        · exact hDisj a b dpa dpb da dirx i jx p hab hha hhb hda hdx hi hjx
            hpa hjxp
        · obtain ⟨-, da', hda', hOka⟩ := hH a dpa hha
          obtain rfl : da' = da := by
            rw [hda'] at hda
            exact Option.some.inj hda
          rcases hOka.2.2.2.2.2 i hi with ⟨p', hp', hlt, -⟩ | ⟨hn, -⟩
          · rw [hpa] at hp'
            obtain rfl := Option.some.inj hp'
            omega
          · rw [hpa] at hn
            exact absurd hn (by simp)
      · rw [Function.update_noteq ha'] at hda
        rw [Function.update_noteq hb'] at hdb
        exact hDisj a b dpa dpb da db i j p hab hha hhb hda hdb hi hj hpa
          hpb

end BusTub

namespace BusTub

/-- `dirLookup` reads only the bucket store. -/
theorem dirLookup_bucketPages {c : HTConfig} {s s' : HTState}
    {dir : DirPage} {q : Nat}
    (hb : s'.bucketPages = s.bucketPages) :
    dirLookup c s' dir q = dirLookup c s dir q := by
  unfold dirLookup
  rw [hb]

/-- Once any slot of a directory is valid, all of them are (the invariant
allows an invalid slot only in an untouched depth-0 directory). -/
theorem dir_all_some {c : HTConfig} {s : HTState} {hIdx bIdx bpid : Nat}
    {dir : DirPage}
    (hOk : DirOk c s hIdx dir)
    (hbIdx : bIdx < 2 ^ dir.globalDepth)
    (hbpid : dir.bucketPageIds bIdx = some bpid) :
    ∀ i, i < 2 ^ dir.globalDepth → dir.bucketPageIds i ≠ none := by
  intro i hi hni
  rcases hOk.2.2.2.2.2 i hi with ⟨p, hp, -, -⟩ | ⟨-, hgd0⟩
  · rw [hni] at hp
    exact absurd hp (by simp)
  · rw [hgd0] at hi hbIdx
    have : i = bIdx := by omega
    rw [this, hbpid] at hni
    exact absurd hni (by simp)

/-- The contract of one `Insert` call relative to the pre-state: the
invariant is maintained, other keys' lookups are untouched, success makes
the key map to the inserted value, and failure leaves it unchanged. -/
def InsContract (c : HTConfig) (r : Bool × HTState) (s : HTState)
    (k v : Nat) : Prop :=
  HTInv c r.2 ∧ (∀ q, q ≠ k → lookupHT c r.2 q = lookupHT c s q) ∧
  (r.1 = true → lookupHT c r.2 k = some v) ∧
  (r.1 = false → lookupHT c r.2 k = lookupHT c s k)

theorem insContract_id {c : HTConfig} {s : HTState} {k v : Nat}
    (hInv : HTInv c s) : InsContract c (false, s) s k v :=
  ⟨hInv, fun _ _ => rfl, fun h => absurd h (by simp), fun _ => rfl⟩

theorem insContract_trans {c : HTConfig} {r : Bool × HTState}
    {s s' : HTState} {k v : Nat}
    (h : InsContract c r s' k v)
    (hpre : ∀ q, lookupHT c s' q = lookupHT c s q) :
    InsContract c r s k v :=
  ⟨h.1, fun q hq => (h.2.1 q hq).trans (hpre q), h.2.2.1,
    fun hf => (h.2.2.2 hf).trans (hpre k)⟩

/-- The state after `Insert` creates and links a fresh directory page
(the header slot was invalid). -/
def newDirState (c : HTConfig) (s : HTState) (dirIdx : Nat) : HTState :=
  let dpid := s.nextPageId
  let s' := setDirPage { s with nextPageId := s.nextPageId + 1 } dpid
    (dirInit c.dirMaxDepth)
  { s' with
      headerDirIds :=
        Function.update s'.headerDirIds dirIdx (some dpid) }

/-- The body of `Insert` after the directory page id has been resolved
(the source's code from the directory fetch on). -/
def insertTail (c : HTConfig) (fuel : Nat) (s1 : HTState) (dpid k v : Nat) :
    Bool × HTState :=
  let h := hash32 c k
  match s1.dirPages dpid with
  | none => (false, s1)
  | some dir =>
      let bIdx := hashToBucketIndex dir h
      let bget : HTState × DirPage × Nat :=
        match dir.bucketPageIds bIdx with
        | some bpid => (s1, dir, bpid)
        | none =>
            let bpid := s1.nextPageId
            let s' := setBucketPage { s1 with
                nextPageId := s1.nextPageId + 1 }
              bpid (bucketInit c.bucketMaxSize)
            let dir' := { dir with
                bucketPageIds := Function.update dir.bucketPageIds bIdx
                  (some bpid)
                localDepths := Function.update dir.localDepths bIdx 0 }
            (setDirPage s' dpid dir', dir', bpid)
      let s2 := bget.1
      let dir2 := bget.2.1
      let bpid := bget.2.2
      match s2.bucketPages bpid with
      | none => (false, s2)
      | some bucket =>
          if (bucketLookup bucket k).isSome then (false, s2)
          else if bucketIsFull bucket = false then
            let ins := bucketInsert bucket k v
            (ins.2, setBucketPage s2 bpid ins.1)
          else
            match (if dir2.globalDepth = dir2.localDepths bIdx then
                    (if dir2.maxDepth ≤ dir2.globalDepth then none
                     else some (incrGlobalDepth dir2))
                   else some dir2) with
            | none => (false, s2)
            | some dir3 =>
                let dir4 := { dir3 with
                    localDepths := Function.update dir3.localDepths bIdx
                      (dir3.localDepths bIdx + 1) }
                let sp := splitBucket c s2 dir4 bpid bucket bIdx
                insertHT c fuel (setDirPage sp.1 dpid sp.2) k v

theorem insertHT_succ_some (c : HTConfig) (fuel : Nat) (s : HTState)
    (k v dpid : Nat)
    (hh : s.headerDirIds (hashToDirectoryIndex c (hash32 c k)) =
      some dpid) :
    insertHT c (fuel + 1) s k v = insertTail c fuel s dpid k v := by
  unfold insertHT insertTail
  dsimp only
  rw [hh]

theorem insertHT_succ_none (c : HTConfig) (fuel : Nat) (s : HTState)
    (k v : Nat)
    (hh : s.headerDirIds (hashToDirectoryIndex c (hash32 c k)) = none) :
    insertHT c (fuel + 1) s k v =
      insertTail c fuel
        (newDirState c s (hashToDirectoryIndex c (hash32 c k)))
        s.nextPageId k v := by
  unfold insertHT insertTail newDirState
  dsimp only
  rw [hh]

end BusTub

namespace BusTub

/-- Creating and linking a fresh directory page preserves the invariant
and (the new directory being empty) every lookup. -/
theorem newDir_step {c : HTConfig} {s : HTState} {dirIdx : Nat}
    (hInv : HTInv c s)
    (hnone : s.headerDirIds dirIdx = none) :
    HTInv c (newDirState c s dirIdx) ∧
      (∀ q, lookupHT c (newDirState c s dirIdx) q = lookupHT c s q) := by
  have hhead : (newDirState c s dirIdx).headerDirIds =
      Function.update s.headerDirIds dirIdx (some s.nextPageId) := rfl
  have hdirp : (newDirState c s dirIdx).dirPages =
      Function.update s.dirPages s.nextPageId
        (some (dirInit c.dirMaxDepth)) := rfl
  have hbk : (newDirState c s dirIdx).bucketPages = s.bucketPages := rfl
  have hnx : (newDirState c s dirIdx).nextPageId = s.nextPageId + 1 := rfl
  have hInitOk : DirOk c (newDirState c s dirIdx) dirIdx
      (dirInit c.dirMaxDepth) := by
    refine ⟨rfl, Nat.zero_le _, ?_, ?_, ?_, ?_⟩
    · intro i hi
      exact Nat.le_refl 0
    · intro i j hi hj hcl
      exact ⟨rfl, rfl⟩
    · intro i j p hi hj hpi hpj
      exact absurd hpi (by simp [dirInit])
    · intro i hi
      exact Or.inr ⟨rfl, rfl⟩
  constructor
  · refine ⟨?_, ?_, ?_⟩
    · intro h2 dp2 hh2
      rw [hhead] at hh2
      by_cases hsm : h2 = dirIdx
      · subst hsm
        rw [Function.update_same] at hh2
        obtain rfl : dp2 = s.nextPageId := (Option.some.inj hh2).symm
        refine ⟨by rw [hnx]; omega, dirInit c.dirMaxDepth, ?_, hInitOk⟩
        rw [hdirp]
        exact Function.update_same _ _ _
      · rw [Function.update_noteq hsm] at hh2
        obtain ⟨hfr, dir2, hd2, hOk2⟩ := hInv.1 h2 dp2 hh2
        refine ⟨by rw [hnx]; omega, dir2, ?_, ?_⟩
        · rw [hdirp, Function.update_noteq (by omega : dp2 ≠ s.nextPageId)]
          exact hd2
        · exact DirOk_frame hOk2 (by rw [hnx]; omega)
            (fun p _ => by rw [hbk])
    · intro a b dp ha hb
      rw [hhead] at ha hb
      by_cases haI : a = dirIdx
      · subst haI
        rw [Function.update_same] at ha
        obtain rfl : dp = s.nextPageId := (Option.some.inj ha).symm
        by_cases hbI : b = a
        · exact hbI.symm
        · rw [Function.update_noteq hbI] at hb
          have := (hInv.1 b _ hb).1
          omega
      · rw [Function.update_noteq haI] at ha
        by_cases hbI : b = dirIdx
        · subst hbI
          rw [Function.update_same] at hb
          obtain rfl : dp = s.nextPageId := (Option.some.inj hb).symm
          have := (hInv.1 a _ ha).1
          omega
        · rw [Function.update_noteq hbI] at hb
          exact hInv.2.1 a b dp ha hb
    · intro a b dpa dpb da db i j p hab hha hhb hda hdb hi hj hpa hpb
      rw [hhead] at hha hhb
      rw [hdirp] at hda hdb
      by_cases haI : a = dirIdx
      · subst haI
        rw [Function.update_same] at hha
        obtain rfl : dpa = s.nextPageId := (Option.some.inj hha).symm
        rw [Function.update_same] at hda
        obtain rfl : da = dirInit c.dirMaxDepth :=
          (Option.some.inj hda).symm
        exact absurd hpa (by simp [dirInit])
      · rw [Function.update_noteq haI] at hha
        have hfra := (hInv.1 a dpa hha).1
        rw [Function.update_noteq (by omega : dpa ≠ s.nextPageId)] at hda
        by_cases hbI : b = dirIdx
        · subst hbI
          rw [Function.update_same] at hhb
          obtain rfl : dpb = s.nextPageId := (Option.some.inj hhb).symm
          rw [Function.update_same] at hdb
          obtain rfl : db = dirInit c.dirMaxDepth :=
            (Option.some.inj hdb).symm
          exact absurd hpb (by simp [dirInit])
        · rw [Function.update_noteq hbI] at hhb
          have hfrb := (hInv.1 b dpb hhb).1
          rw [Function.update_noteq (by omega : dpb ≠ s.nextPageId)] at hdb
          exact hInv.2.2 a b dpa dpb da db i j p hab hha hhb hda hdb hi hj
            hpa hpb
  · intro q
    by_cases hq : hashToDirectoryIndex c (hash32 c q) = dirIdx
    · have hO : lookupHT c s q = none :=
        lookupHT_none_of_no_dir (by rw [hq]; exact hnone)
      rw [hO]
      unfold lookupHT
      dsimp only
      rw [hhead, hq, Function.update_same]
      dsimp only
      rw [hdirp, Function.update_same]
      rfl
    · apply lookupHT_frame
      · rw [hhead]
        exact Function.update_noteq hq _ _
      · intro dpid hdp
        rw [hdirp]
        have := (hInv.1 _ dpid hdp).1
        exact Function.update_noteq (by omega) _ _
      · intro dpid dir bpid hdp hdd hbp
        rw [hbk]

end BusTub

namespace BusTub

/-- The full split step of `Insert` — bump the local depth, split the
bucket and commit the directory — preserves the invariant and every
lookup, for any directory `dir3` (the stored one or its global-depth
increment) that is valid over the stored `dir2`. -/
theorem splitCommit_step {c : HTConfig} {s2 : HTState}
    {dpid bIdx bpid k : Nat} {dir2 dir3 : DirPage} {bucket : BucketPage}
    (hInv : HTInv c s2)
    (hh : s2.headerDirIds (hashToDirectoryIndex c (hash32 c k)) =
      some dpid)
    (hd : s2.dirPages dpid = some dir2)
    (hOk3 : DirOk c s2 (hashToDirectoryIndex c (hash32 c k)) dir3)
    (hsome3 : ∀ i, i < 2 ^ dir3.globalDepth →
      dir3.bucketPageIds i ≠ none)
    (hbIdx3 : bIdx < 2 ^ dir3.globalDepth)
    (hld3 : dir3.localDepths bIdx < dir3.globalDepth)
    (hbpid3 : dir3.bucketPageIds bIdx = some bpid)
    (hfresh : bpid < s2.nextPageId)
    (hbucket : s2.bucketPages bpid = some bucket)
    (hbOk3 : BucketOk c (hashToDirectoryIndex c (hash32 c k))
      (dir3.localDepths bIdx) bIdx bucket)
    (hlook3 : ∀ q, dirLookup c s2 dir3 q = dirLookup c s2 dir2 q)
    (hpids3 : ∀ i p, i < 2 ^ dir3.globalDepth →
      dir3.bucketPageIds i = some p →
      ∃ j, j < 2 ^ dir2.globalDepth ∧ dir2.bucketPageIds j = some p) :
    HTInv c (setDirPage
        (splitBucket c s2 (bumpLd dir3 bIdx) bpid bucket bIdx).1 dpid
        (splitBucket c s2 (bumpLd dir3 bIdx) bpid bucket bIdx).2) ∧
      ∀ q, lookupHT c (setDirPage
          (splitBucket c s2 (bumpLd dir3 bIdx) bpid bucket bIdx).1 dpid
          (splitBucket c s2 (bumpLd dir3 bIdx) bpid bucket bIdx).2) q =
        lookupHT c s2 q := by
  obtain ⟨hSOk, hSsome, hSlook, hSpids⟩ := split_preserves c s2
    (hashToDirectoryIndex c (hash32 c k)) dir3 bIdx bpid bucket hOk3
    hsome3 hbIdx3 hld3 hbpid3 hfresh hbucket hbOk3
  have hfst := splitBucket_fst c s2 (hashToDirectoryIndex c (hash32 c k))
    dir3 bpid bucket bIdx hOk3 hbIdx3 hld3 hbpid3 hfresh hbOk3
  have hgd : (splitBucket c s2 (bumpLd dir3 bIdx) bpid bucket
      bIdx).2.globalDepth = dir3.globalDepth :=
    (split_gd_char c s2 dir3 bpid bucket bIdx).1
  obtain ⟨jb, hjb, hjbp⟩ := hpids3 bIdx bpid hbIdx3 hbpid3
  have hhead' : (setDirPage
      (splitBucket c s2 (bumpLd dir3 bIdx) bpid bucket bIdx).1 dpid
      (splitBucket c s2 (bumpLd dir3 bIdx) bpid bucket
        bIdx).2).headerDirIds = s2.headerDirIds := by
    show (splitBucket c s2 (bumpLd dir3 bIdx) bpid bucket
      bIdx).1.headerDirIds = s2.headerDirIds
    rw [hfst]
  have hdp' : (setDirPage
      (splitBucket c s2 (bumpLd dir3 bIdx) bpid bucket bIdx).1 dpid
      (splitBucket c s2 (bumpLd dir3 bIdx) bpid bucket
        bIdx).2).dirPages = Function.update s2.dirPages dpid
      (some (splitBucket c s2 (bumpLd dir3 bIdx) bpid bucket bIdx).2) := by
    show Function.update (splitBucket c s2 (bumpLd dir3 bIdx) bpid bucket
      bIdx).1.dirPages dpid
      (some (splitBucket c s2 (bumpLd dir3 bIdx) bpid bucket bIdx).2) = _
    rw [hfst]
  have hnx' : (setDirPage
      (splitBucket c s2 (bumpLd dir3 bIdx) bpid bucket bIdx).1 dpid
      (splitBucket c s2 (bumpLd dir3 bIdx) bpid bucket
        bIdx).2).nextPageId = s2.nextPageId + 1 := by
    show (splitBucket c s2 (bumpLd dir3 bIdx) bpid bucket
      bIdx).1.nextPageId = s2.nextPageId + 1
    rw [hfst]
  have hbfr : ∀ p, p < s2.nextPageId → p ≠ bpid →
      (setDirPage
        (splitBucket c s2 (bumpLd dir3 bIdx) bpid bucket bIdx).1 dpid
        (splitBucket c s2 (bumpLd dir3 bIdx) bpid bucket
          bIdx).2).bucketPages p = s2.bucketPages p := by
    intro p hp hpb
    show (splitBucket c s2 (bumpLd dir3 bIdx) bpid bucket
      bIdx).1.bucketPages p = s2.bucketPages p
    rw [hfst]
    dsimp only
    rw [Function.update_noteq hpb,
      Function.update_noteq (by omega : p ≠ s2.nextPageId)]
  constructor
  · refine @HTInv_commit c s2 _ _ dpid
      (splitBucket c s2 (bumpLd dir3 bIdx) bpid bucket bIdx).2 hInv hh
      hhead' hdp' (by omega) ?_ ?_ ?_
    · exact DirOk_frame hSOk (Nat.le_refl _) (fun p _ => rfl)
    · intro i p hi hpi
      rw [hgd] at hi
      rcases hSpids i p hi hpi with ⟨j, hj, hjp⟩ | rfl
      · obtain ⟨j2, hj2, hj2p⟩ := hpids3 j p hj hjp
        exact Or.inl ⟨dir2, j2, hd, hj2, hj2p⟩
      · exact Or.inr (Nat.le_refl _)
    · intro p hp hnin
      exact hbfr p hp (fun h0 => hnin dir2 jb hd hjb (h0 ▸ hjbp))
  · intro q
    by_cases hq : hashToDirectoryIndex c (hash32 c q) =
        hashToDirectoryIndex c (hash32 c k)
    · have hhq' : (setDirPage
          (splitBucket c s2 (bumpLd dir3 bIdx) bpid bucket bIdx).1 dpid
          (splitBucket c s2 (bumpLd dir3 bIdx) bpid bucket
            bIdx).2).headerDirIds (hashToDirectoryIndex c (hash32 c q)) =
          some dpid := by
        rw [hhead', hq]
        exact hh
      have hdq' : (setDirPage
          (splitBucket c s2 (bumpLd dir3 bIdx) bpid bucket bIdx).1 dpid
          (splitBucket c s2 (bumpLd dir3 bIdx) bpid bucket
            bIdx).2).dirPages dpid =
          some (splitBucket c s2 (bumpLd dir3 bIdx) bpid bucket bIdx).2 := by
        rw [hdp']
        exact Function.update_same _ _ _
      rw [lookupHT_eq_dirLookup hhq' hdq',
        lookupHT_eq_dirLookup (by rw [hq]; exact hh) hd]
      rw [dirLookup_bucketPages
        (show (setDirPage
            (splitBucket c s2 (bumpLd dir3 bIdx) bpid bucket bIdx).1 dpid
            (splitBucket c s2 (bumpLd dir3 bIdx) bpid bucket
              bIdx).2).bucketPages =
          (splitBucket c s2 (bumpLd dir3 bIdx) bpid bucket
            bIdx).1.bucketPages from rfl)]
      rw [hSlook q, hlook3 q]
    · apply lookupHT_frame
      · rw [hhead']
      · intro dp2 hdp2
        have hne : dp2 ≠ dpid := fun h0 =>
          hq (hInv.2.1 _ _ dpid (h0 ▸ hdp2) hh)
        rw [hdp', Function.update_noteq hne]
      · intro dp2 dirx bpx hdp2 hdx hbx
        obtain ⟨hfrx, dirx', hdx', hOkx⟩ := hInv.1 _ dp2 hdp2
        have hde : dirx' = dirx := by
          rw [hdx'] at hdx
          exact Option.some.inj hdx
        rw [hde] at hOkx
        have hbi : hashToBucketIndex dirx (hash32 c q) <
            2 ^ dirx.globalDepth := Nat.mod_lt _ (Nat.two_pow_pos _)
        have hbxlt : bpx < s2.nextPageId := by
          rcases hOkx.2.2.2.2.2 _ hbi with ⟨p', hp', hlt, -⟩ | ⟨hn, -⟩
          · rw [hbx] at hp'
            obtain rfl := Option.some.inj hp'
            exact hlt
          · rw [hbx] at hn
            exact absurd hn (by simp)
        have hbxb : bpx ≠ bpid := by
          intro h0
          subst h0
          exact hInv.2.2 (hashToDirectoryIndex c (hash32 c q))
            (hashToDirectoryIndex c (hash32 c k)) dp2 dpid dirx dir2 _ jb
            bpx hq hdp2 hh hdx hd hbi hjb hbx hjbp
        exact hbfr bpx hbxlt hbxb

end BusTub

namespace BusTub

/-- The state and directory after `Insert` creates and links a fresh
bucket page for an invalid directory slot. -/
def newBucketState (c : HTConfig) (s1 : HTState) (dpid : Nat)
    (dir : DirPage) (bIdx : Nat) : HTState × DirPage :=
  let bpid := s1.nextPageId
  let s' := setBucketPage { s1 with nextPageId := s1.nextPageId + 1 }
    bpid (bucketInit c.bucketMaxSize)
  let dir' := { dir with
      bucketPageIds := Function.update dir.bucketPageIds bIdx (some bpid)
      localDepths := Function.update dir.localDepths bIdx 0 }
  (setDirPage s' dpid dir', dir')

/-- The body of `Insert` after directory and bucket page have been
resolved. -/
def insertCont (c : HTConfig) (fuel : Nat) (s2 : HTState) (dpid : Nat)
    (dir2 : DirPage) (bIdx bpid k v : Nat) : Bool × HTState :=
  match s2.bucketPages bpid with
  | none => (false, s2)
  | some bucket =>
      if (bucketLookup bucket k).isSome then (false, s2)
      else if bucketIsFull bucket = false then
        let ins := bucketInsert bucket k v
        (ins.2, setBucketPage s2 bpid ins.1)
      else
        match (if dir2.globalDepth = dir2.localDepths bIdx then
                (if dir2.maxDepth ≤ dir2.globalDepth then none
                 else some (incrGlobalDepth dir2))
               else some dir2) with
        | none => (false, s2)
        | some dir3 =>
            let dir4 := { dir3 with
                localDepths := Function.update dir3.localDepths bIdx
                  (dir3.localDepths bIdx + 1) }
            let sp := splitBucket c s2 dir4 bpid bucket bIdx
            insertHT c fuel (setDirPage sp.1 dpid sp.2) k v

theorem insertTail_eq_some (c : HTConfig) (fuel : Nat) (s1 : HTState)
    (dpid k v bpid : Nat) (dir : DirPage)
    (hd : s1.dirPages dpid = some dir)
    (hb : dir.bucketPageIds (hashToBucketIndex dir (hash32 c k)) =
      some bpid) :
    insertTail c fuel s1 dpid k v =
      insertCont c fuel s1 dpid dir
        (hashToBucketIndex dir (hash32 c k)) bpid k v := by
  unfold insertTail insertCont
  dsimp only
  rw [hd]
  dsimp only
  rw [hb]

theorem insertTail_eq_none (c : HTConfig) (fuel : Nat) (s1 : HTState)
    (dpid k v : Nat) (dir : DirPage)
    (hd : s1.dirPages dpid = some dir)
    (hb : dir.bucketPageIds (hashToBucketIndex dir (hash32 c k)) =
      none) :
    insertTail c fuel s1 dpid k v =
      insertCont c fuel
        (newBucketState c s1 dpid dir
          (hashToBucketIndex dir (hash32 c k))).1 dpid
        (newBucketState c s1 dpid dir
          (hashToBucketIndex dir (hash32 c k))).2
        (hashToBucketIndex dir (hash32 c k)) s1.nextPageId k v := by
  unfold insertTail insertCont newBucketState
  dsimp only
  rw [hd]
  dsimp only
  rw [hb]

end BusTub

namespace BusTub

/-- Creating and linking a fresh empty bucket page (only possible in a
depth-0 directory whose single slot is invalid) preserves the invariant
and, the new bucket being empty, every lookup. -/
theorem newBucket_step {c : HTConfig} {s1 : HTState} {dpid k : Nat}
    {dir : DirPage}
    (hInv : HTInv c s1)
    (hh : s1.headerDirIds (hashToDirectoryIndex c (hash32 c k)) =
      some dpid)
    (hd : s1.dirPages dpid = some dir)
    (hb : dir.bucketPageIds (hashToBucketIndex dir (hash32 c k)) = none) :
    HTInv c (newBucketState c s1 dpid dir
        (hashToBucketIndex dir (hash32 c k))).1 ∧
      ∀ q, lookupHT c (newBucketState c s1 dpid dir
          (hashToBucketIndex dir (hash32 c k))).1 q = lookupHT c s1 q := by
  obtain ⟨hfr0, dir0, hd0, hOk⟩ := hInv.1 _ dpid hh
  have hde : dir0 = dir := by
    rw [hd0] at hd
    exact Option.some.inj hd
  rw [hde] at hOk
  have hbi : hashToBucketIndex dir (hash32 c k) < 2 ^ dir.globalDepth :=
    Nat.mod_lt _ (Nat.two_pow_pos _)
  have hgd0 : dir.globalDepth = 0 := by
    rcases hOk.2.2.2.2.2 _ hbi with ⟨p, hp, -, -⟩ | ⟨-, h0⟩
    · rw [hb] at hp
      exact absurd hp (by simp)
    · exact h0
  have hbi0 : hashToBucketIndex dir (hash32 c k) = 0 := by
    rw [hgd0] at hbi
    omega
  have hhead : (newBucketState c s1 dpid dir
      (hashToBucketIndex dir (hash32 c k))).1.headerDirIds =
      s1.headerDirIds := rfl
  have hdp : (newBucketState c s1 dpid dir
      (hashToBucketIndex dir (hash32 c k))).1.dirPages =
      Function.update s1.dirPages dpid
        (some (newBucketState c s1 dpid dir
          (hashToBucketIndex dir (hash32 c k))).2) := rfl
  have hbuckp : (newBucketState c s1 dpid dir
      (hashToBucketIndex dir (hash32 c k))).1.bucketPages =
      Function.update s1.bucketPages s1.nextPageId
        (some (bucketInit c.bucketMaxSize)) := rfl
  have hnx : (newBucketState c s1 dpid dir
      (hashToBucketIndex dir (hash32 c k))).1.nextPageId =
      s1.nextPageId + 1 := rfl
  have hdgd : (newBucketState c s1 dpid dir
      (hashToBucketIndex dir (hash32 c k))).2.globalDepth =
      dir.globalDepth := rfl
  have hdpidn : (newBucketState c s1 dpid dir
      (hashToBucketIndex dir (hash32 c k))).2.bucketPageIds =
      Function.update dir.bucketPageIds
        (hashToBucketIndex dir (hash32 c k)) (some s1.nextPageId) := rfl
  have hdldn : (newBucketState c s1 dpid dir
      (hashToBucketIndex dir (hash32 c k))).2.localDepths =
      Function.update dir.localDepths
        (hashToBucketIndex dir (hash32 c k)) 0 := rfl
  have hDOk : DirOk c (newBucketState c s1 dpid dir
      (hashToBucketIndex dir (hash32 c k))).1
      (hashToDirectoryIndex c (hash32 c k))
      (newBucketState c s1 dpid dir
        (hashToBucketIndex dir (hash32 c k))).2 := by
    refine ⟨hOk.1, ?_, ?_, ?_, ?_, ?_⟩
    · rw [hdgd]
      exact hOk.2.1
    · intro i hi
      rw [hdgd, hgd0] at hi
      have hi0 : i = 0 := by omega
      rw [hdldn, hdgd, hi0, hbi0, Function.update_same, hgd0]
    · intro i j hi hj hcl
      rw [hdgd, hgd0] at hi hj
      have hi0 : i = 0 := by omega
      have hj0 : j = 0 := by omega
      rw [hi0, hj0]
      exact ⟨rfl, rfl⟩
    · intro i j p hi hj hpi hpj
      rw [hdgd, hgd0] at hi hj
      have hi0 : i = 0 := by omega
      have hj0 : j = 0 := by omega
      rw [hi0, hj0]
    · intro i hi
      rw [hdgd, hgd0] at hi
      have hi0 : i = 0 := by omega
      left
      refine ⟨s1.nextPageId, ?_, by rw [hnx]; omega,
        bucketInit c.bucketMaxSize, ?_, ?_⟩
      · rw [hdpidn, hi0, ← hbi0]
        exact Function.update_same _ _ _
      · rw [hbuckp]
        exact Function.update_same _ _ _
      · exact ⟨rfl, by simp [bucketInit], by simp [bucketInit],
          fun e he => absurd he (by simp [bucketInit])⟩
  constructor
  · refine @HTInv_commit c s1 _ _ dpid
      (newBucketState c s1 dpid dir
        (hashToBucketIndex dir (hash32 c k))).2 hInv hh hhead hdp
      (by omega) hDOk ?_ ?_
    · intro i p hi hpi
      rw [hdgd, hgd0] at hi
      have hi0 : i = 0 := by omega
      rw [hdpidn, hi0, ← hbi0, Function.update_same] at hpi
      obtain rfl : s1.nextPageId = p := Option.some.inj hpi
      exact Or.inr (Nat.le_refl _)
    · intro p hp hnin
      rw [hbuckp]
      exact Function.update_noteq (by omega) _ _
  · intro q
    by_cases hq : hashToDirectoryIndex c (hash32 c q) =
        hashToDirectoryIndex c (hash32 c k)
    · have hhq : (newBucketState c s1 dpid dir
          (hashToBucketIndex dir (hash32 c k))).1.headerDirIds
          (hashToDirectoryIndex c (hash32 c q)) = some dpid := by
        rw [hhead, hq]
        exact hh
      have hdq : (newBucketState c s1 dpid dir
          (hashToBucketIndex dir (hash32 c k))).1.dirPages dpid =
          some (newBucketState c s1 dpid dir
            (hashToBucketIndex dir (hash32 c k))).2 := by
        rw [hdp]
        exact Function.update_same _ _ _
      rw [lookupHT_eq_dirLookup hhq hdq,
        lookupHT_eq_dirLookup (show s1.headerDirIds
          (hashToDirectoryIndex c (hash32 c q)) = some dpid by
            rw [hq]; exact hh) hd]
      have hxq : hashToBucketIndex (newBucketState c s1 dpid dir
          (hashToBucketIndex dir (hash32 c k))).2 (hash32 c q) =
          hashToBucketIndex dir (hash32 c k) := by
        show hash32 c q % 2 ^ (newBucketState c s1 dpid dir
          (hashToBucketIndex dir (hash32 c k))).2.globalDepth =
          hashToBucketIndex dir (hash32 c k)
        rw [hdgd, hgd0, pow_zero, Nat.mod_one, hbi0]
      have hxk : hashToBucketIndex dir (hash32 c q) =
          hashToBucketIndex dir (hash32 c k) := by
        show hash32 c q % 2 ^ dir.globalDepth =
          hashToBucketIndex dir (hash32 c k)
        rw [hgd0, pow_zero, Nat.mod_one, hbi0]
      unfold dirLookup
      rw [hxq, hxk, hdpidn, Function.update_same, hb]
      dsimp only
      rw [hbuckp, Function.update_same]
      rfl
    · apply lookupHT_frame
      · rw [hhead]
      · intro dp2 hdp2
        have hne : dp2 ≠ dpid := fun h0 =>
          hq (hInv.2.1 _ _ dpid (h0 ▸ hdp2) hh)
        rw [hdp, Function.update_noteq hne]
      · intro dp2 dirx bpx hdp2 hdx hbx
        obtain ⟨hfrx, dirx', hdx', hOkx⟩ := hInv.1 _ dp2 hdp2
        have hdex : dirx' = dirx := by
          rw [hdx'] at hdx
          exact Option.some.inj hdx
        rw [hdex] at hOkx
        have hbix : hashToBucketIndex dirx (hash32 c q) <
            2 ^ dirx.globalDepth := Nat.mod_lt _ (Nat.two_pow_pos _)
        have hbxlt : bpx < s1.nextPageId := by
          rcases hOkx.2.2.2.2.2 _ hbix with ⟨p', hp', hlt, -⟩ | ⟨hn, -⟩
          · rw [hbx] at hp'
            obtain rfl := Option.some.inj hp'
            exact hlt
          · rw [hbx] at hn
            exact absurd hn (by simp)
        rw [hbuckp]
        exact Function.update_noteq (by omega) _ _

end BusTub

namespace BusTub

/-- The insert contract for the body of `Insert` after both pages are
resolved, given the contract of the recursive call at the smaller fuel. -/
theorem insertCont_contract (c : HTConfig) (fuel : Nat) (s2 : HTState)
    (dpid bpid k v : Nat) (dir2 : DirPage)
    (hInv : HTInv c s2)
    (hh : s2.headerDirIds (hashToDirectoryIndex c (hash32 c k)) =
      some dpid)
    (hd : s2.dirPages dpid = some dir2)
    (hb : dir2.bucketPageIds (hashToBucketIndex dir2 (hash32 c k)) =
      some bpid)
    (hrec : ∀ s', HTInv c s' →
      InsContract c (insertHT c fuel s' k v) s' k v) :
    InsContract c (insertCont c fuel s2 dpid dir2
      (hashToBucketIndex dir2 (hash32 c k)) bpid k v) s2 k v := by
  unfold insertCont
  obtain ⟨hfr0, dir0, hd0, hOk0⟩ := hInv.1 _ dpid hh
  have hde : dir0 = dir2 := by
    rw [hd0] at hd
    exact Option.some.inj hd
  rw [hde] at hOk0
  have hbi : hashToBucketIndex dir2 (hash32 c k) < 2 ^ dir2.globalDepth :=
    Nat.mod_lt _ (Nat.two_pow_pos _)
  rcases hOk0.2.2.2.2.2 _ hbi with ⟨bpid', hbp', hfr, bket, hbket, hbOk⟩ |
    ⟨hn, -⟩
  swap
  · rw [hb] at hn
    exact absurd hn (by simp)
  have hbe : bpid' = bpid := by
    rw [hbp'] at hb
    exact Option.some.inj hb
  rw [hbe] at hfr hbket
  rw [hbket]
  dsimp only
  by_cases hdup : (bucketLookup bket k).isSome = true
  · rw [if_pos hdup]
    exact insContract_id hInv
  · rw [if_neg hdup]
    by_cases hfull : bucketIsFull bket = false
    · rw [if_pos hfull]
      have hnotfull : bket.entries.length < bket.maxSize := by
        unfold bucketIsFull at hfull
        simpa using hfull
      have hknotin : ∀ e ∈ bket.entries, e.1 ≠ k := by
        intro e he hek
        cases hfind : bket.entries.find? fun x => x.1 == k with
        | none =>
            exact absurd (by simpa using hek : (e.1 == k) = true)
              (List.find?_eq_none.mp hfind e he)
        | some x =>
            apply hdup
            unfold bucketLookup
            rw [hfind]
            rfl
      have hins : bucketInsert bket k v =
          ({ bket with entries := bket.entries ++ [(k, v)] }, true) := by
        unfold bucketInsert
        rw [if_neg]
        simp only [Bool.or_eq_true, not_or]
        exact ⟨by simp [hfull], hdup⟩
      rw [hins]
      dsimp only
      have hldle : dir2.localDepths (hashToBucketIndex dir2 (hash32 c k)) ≤
          dir2.globalDepth := hOk0.2.2.1 _ hbi
      have hOkNew : BucketOk c (hashToDirectoryIndex c (hash32 c k))
          (dir2.localDepths (hashToBucketIndex dir2 (hash32 c k)))
          (hashToBucketIndex dir2 (hash32 c k))
          { bket with entries := bket.entries ++ [(k, v)] } := by
        refine ⟨hbOk.1, ?_, ?_, ?_⟩
        · dsimp only
          rw [List.length_append]
          have h1 := hbOk.1
          simp only [List.length_cons, List.length_nil]
          omega
        · dsimp only
          rw [List.map_append, List.nodup_append]
          refine ⟨hbOk.2.2.1, by simp, ?_⟩
          intro a ha hb'
          obtain ⟨e, he, hea⟩ := List.mem_map.mp ha
          have hak : a = k := by simpa using hb'
          exact hknotin e he (by rw [hea, hak])
        · intro e he
          dsimp only at he
          rw [List.mem_append] at he
          rcases he with he | he
          · exact hbOk.2.2.2 e he
          · have he' : e = (k, v) := by simpa using he
            subst he'
            refine ⟨rfl, ?_⟩
            exact (mod_mod_pow_le hldle _).symm
      refine ⟨?_, ?_, ?_, ?_⟩
      · exact HTInv_setBucket hInv hh hd hbi hb hbket hOkNew
      · intro q hq
        apply lookupHT_setBucket_congr hbket
        unfold bucketLookup
        dsimp only
        rw [find?_key_append_other hq]
      · intro h0
        have hbnew : (setBucketPage s2 bpid
            { bket with entries := bket.entries ++ [(k, v)] }).bucketPages
            bpid = some { bket with entries := bket.entries ++ [(k, v)] }
            := by
          unfold setBucketPage
          dsimp only
          exact Function.update_same _ _ _
        have hhN : (setBucketPage s2 bpid
            { bket with entries := bket.entries ++ [(k, v)] }).headerDirIds
            (hashToDirectoryIndex c (hash32 c k)) = some dpid := hh
        have hdN : (setBucketPage s2 bpid
            { bket with entries := bket.entries ++ [(k, v)] }).dirPages
            dpid = some dir2 := hd
        dsimp only
        rw [lookupHT_route_bucket hhN hdN hb hbnew]
        unfold bucketLookup
        dsimp only
        rw [find?_key_append_self hknotin]
        rfl
      · intro h0
        exact absurd h0 (by simp)
    · rw [if_neg hfull]
      by_cases heq : dir2.globalDepth =
          dir2.localDepths (hashToBucketIndex dir2 (hash32 c k))
      · rw [if_pos heq]
        by_cases hmax : dir2.maxDepth ≤ dir2.globalDepth
        · rw [if_pos hmax]
          dsimp only
          exact insContract_id hInv
        · rw [if_neg hmax]
          dsimp only
          have hsome2 := dir_all_some hOk0 hbi hb
          obtain ⟨hOk3, hsome3, hlook3, hpids3⟩ :=
            incr_preserves hOk0 hsome2 (by omega)
          have hg1 : (incrGlobalDepth dir2).globalDepth =
              dir2.globalDepth + 1 := rfl
          have hbIdx3 : hashToBucketIndex dir2 (hash32 c k) <
              2 ^ (incrGlobalDepth dir2).globalDepth := by
            rw [hg1]
            have := Nat.pow_le_pow_right (by norm_num : 1 ≤ 2)
              (Nat.le_succ dir2.globalDepth)
            omega
          have hmeq : hashToBucketIndex dir2 (hash32 c k) %
              2 ^ dir2.globalDepth = hashToBucketIndex dir2 (hash32 c k) :=
            Nat.mod_eq_of_lt hbi
          have hld3 : (incrGlobalDepth dir2).localDepths
              (hashToBucketIndex dir2 (hash32 c k)) <
              (incrGlobalDepth dir2).globalDepth := by
            rw [incr_ld hbIdx3, hmeq, hg1]
            omega
          have hbpid3 : (incrGlobalDepth dir2).bucketPageIds
              (hashToBucketIndex dir2 (hash32 c k)) = some bpid := by
            rw [incr_pid hbIdx3, hmeq]
            exact hb
          have hbOk3 : BucketOk c (hashToDirectoryIndex c (hash32 c k))
              ((incrGlobalDepth dir2).localDepths
                (hashToBucketIndex dir2 (hash32 c k)))
              (hashToBucketIndex dir2 (hash32 c k)) bket := by
            rw [incr_ld hbIdx3, hmeq]
            exact hbOk
          obtain ⟨hI3, hL3⟩ := splitCommit_step hInv hh hd hOk3 hsome3
            hbIdx3 hld3 hbpid3 hfr hbket hbOk3 hlook3 hpids3
          exact insContract_trans (hrec _ hI3) hL3
      · rw [if_neg heq]
        dsimp only
        have hld2 : dir2.localDepths (hashToBucketIndex dir2 (hash32 c k)) <
            dir2.globalDepth :=
          lt_of_le_of_ne (hOk0.2.2.1 _ hbi) (Ne.symm heq)
        have hsome2 := dir_all_some hOk0 hbi hb
        obtain ⟨hI3, hL3⟩ := splitCommit_step hInv hh hd hOk0 hsome2 hbi
          hld2 hb hfr hbket hbOk (fun q => rfl)
          (fun i p hi hpi => ⟨i, hi, hpi⟩)
        exact insContract_trans (hrec _ hI3) hL3

end BusTub

namespace BusTub

theorem insertTail_contract (c : HTConfig) (fuel : Nat) (s1 : HTState)
    (dpid k v : Nat)
    (hInv : HTInv c s1)
    (hh : s1.headerDirIds (hashToDirectoryIndex c (hash32 c k)) =
      some dpid)
    (hrec : ∀ s', HTInv c s' →
      InsContract c (insertHT c fuel s' k v) s' k v) :
    InsContract c (insertTail c fuel s1 dpid k v) s1 k v := by
  cases hd : s1.dirPages dpid with
  | none =>
      have he : insertTail c fuel s1 dpid k v = (false, s1) := by
        unfold insertTail
        rw [hd]
      rw [he]
      exact insContract_id hInv
  | some dir =>
      cases hbc : dir.bucketPageIds (hashToBucketIndex dir (hash32 c k))
        with
      | some bpid =>
          rw [insertTail_eq_some c fuel s1 dpid k v bpid dir hd hbc]
          exact insertCont_contract c fuel s1 dpid bpid k v dir hInv hh hd
            hbc hrec
      | none =>
          rw [insertTail_eq_none c fuel s1 dpid k v dir hd hbc]
          obtain ⟨hInv2, hpre2⟩ := newBucket_step hInv hh hd hbc
          have hh2 : (newBucketState c s1 dpid dir
              (hashToBucketIndex dir (hash32 c k))).1.headerDirIds
              (hashToDirectoryIndex c (hash32 c k)) = some dpid := hh
          have hd2 : (newBucketState c s1 dpid dir
              (hashToBucketIndex dir (hash32 c k))).1.dirPages dpid =
              some (newBucketState c s1 dpid dir
                (hashToBucketIndex dir (hash32 c k))).2 :=
            Function.update_same _ _ _
          have hb2 : (newBucketState c s1 dpid dir
              (hashToBucketIndex dir (hash32 c k))).2.bucketPageIds
              (hashToBucketIndex (newBucketState c s1 dpid dir
                (hashToBucketIndex dir (hash32 c k))).2 (hash32 c k)) =
              some s1.nextPageId :=
            Function.update_same _ _ _
          exact insContract_trans
            (insertCont_contract c fuel
              (newBucketState c s1 dpid dir
                (hashToBucketIndex dir (hash32 c k))).1 dpid
              s1.nextPageId k v
              (newBucketState c s1 dpid dir
                (hashToBucketIndex dir (hash32 c k))).2
              hInv2 hh2 hd2 hb2 hrec)
            hpre2

/-- Main contract of `Insert`, for any fuel: the invariant is preserved;
other keys' lookups are untouched; success makes `k` look up to `v`;
failure leaves `k`'s lookup unchanged. -/
theorem insertHT_contract (c : HTConfig) :
    ∀ fuel s k v, HTInv c s →
      InsContract c (insertHT c fuel s k v) s k v := by
  intro fuel
  induction fuel with
  | zero =>
      intro s k v hInv
      exact insContract_id hInv
  | succ fuel ih =>
      intro s k v hInv
      cases hh : s.headerDirIds (hashToDirectoryIndex c (hash32 c k)) with
      | some dpid =>
          rw [insertHT_succ_some c fuel s k v dpid hh]
          exact insertTail_contract c fuel s dpid k v hInv hh
            (fun s' h => ih s' k v h)
      | none =>
          rw [insertHT_succ_none c fuel s k v hh]
          obtain ⟨hInvN, hpreN⟩ := newDir_step hInv hh
          have hhN : (newDirState c s
              (hashToDirectoryIndex c (hash32 c k))).headerDirIds
              (hashToDirectoryIndex c (hash32 c k)) = some s.nextPageId :=
            Function.update_same _ _ _
          exact insContract_trans
            (insertTail_contract c fuel
              (newDirState c s (hashToDirectoryIndex c (hash32 c k)))
              s.nextPageId k v hInvN hhN (fun s' h => ih s' k v h))
            hpreN

end BusTub

namespace BusTub

theorem bucketLookup_empty {b : BucketPage} {q : Nat}
    (h : b.entries = []) : bucketLookup b q = none := by
  unfold bucketLookup
  rw [h]
  rfl

/-- Core preservation argument for one merge step: rerouting the whole
depth-`ld0 - 1` class of `bIdx` to `bpid` (both sibling buckets being
empty) preserves the directory invariant and every lookup, and introduces
no new page id. -/
theorem merge_abstract (c : HTConfig) (s : HTState) (hIdx : Nat)
    (dir : DirPage) (bIdx bpid spid : Nat) (D : DirPage)
    (gd ld0 sIdx : Nat)
    (hgde : gd = dir.globalDepth)
    (hld0e : ld0 = dir.localDepths bIdx)
    (hsIdxe : sIdx = splitImageIndex ld0 bIdx)
    (hOk : DirOk c s hIdx dir)
    (hbIdx : bIdx < 2 ^ gd)
    (hld0pos : 0 < ld0)
    (hpidb : dir.bucketPageIds bIdx = some bpid)
    (hpids : dir.bucketPageIds sIdx = some spid)
    (hldeq : dir.localDepths sIdx = ld0)
    (hempty : ∀ b, s.bucketPages bpid = some b → b.entries = [])
    (hsempty : ∀ b, s.bucketPages spid = some b → b.entries = [])
    (hDgd : D.globalDepth = dir.globalDepth)
    (hDmax : D.maxDepth = dir.maxDepth)
    (hDpid : ∀ i, D.bucketPageIds i =
      if i < 2 ^ gd ∧ i % 2 ^ (ld0 - 1) = bIdx % 2 ^ (ld0 - 1)
      then some bpid else dir.bucketPageIds i)
    (hDld : ∀ i, D.localDepths i =
      if i < 2 ^ gd ∧ i % 2 ^ (ld0 - 1) = bIdx % 2 ^ (ld0 - 1)
      then ld0 - 1 else dir.localDepths i) :
    DirOk c s hIdx D ∧
      (∀ q, dirLookup c s D q = dirLookup c s dir q) ∧
      (∀ i p, i < 2 ^ gd → D.bucketPageIds i = some p →
        ∃ j, j < 2 ^ gd ∧ dir.bucketPageIds j = some p) := by
  have hldgd : ld0 ≤ gd := by
    rw [hld0e, hgde]
    exact hOk.2.2.1 bIdx (hgde ▸ hbIdx)
  have hsIlt : sIdx < 2 ^ ld0 := by
    rw [hsIdxe]; exact splitImage_lt hld0pos bIdx
  have hsgd : sIdx < 2 ^ gd := by
    have : (2 : Nat) ^ ld0 ≤ 2 ^ gd :=
      Nat.pow_le_pow_right (by norm_num) hldgd
    omega
  have hsm : sIdx % 2 ^ (ld0 - 1) = bIdx % 2 ^ (ld0 - 1) := by
    rw [hsIdxe]; exact splitImage_mod_lower hld0pos bIdx
  have hsmod : sIdx % 2 ^ ld0 = sIdx := Nat.mod_eq_of_lt hsIlt
  have hsne : sIdx ≠ bIdx % 2 ^ ld0 := by
    rw [hsIdxe]; exact splitImage_ne hld0pos bIdx
  have hiff : ∀ x : Nat, x % 2 ^ (ld0 - 1) = bIdx % 2 ^ (ld0 - 1) ↔
      (x % 2 ^ ld0 = bIdx % 2 ^ ld0 ∨ x % 2 ^ ld0 = sIdx) := by
    intro x
    have := class_split hld0pos bIdx x
    rw [hsIdxe]; exact this
  have hI4' : ∀ i j, i < 2 ^ gd → j < 2 ^ gd →
      j % 2 ^ dir.localDepths i = i % 2 ^ dir.localDepths i →
      dir.bucketPageIds j = dir.bucketPageIds i ∧
        dir.localDepths j = dir.localDepths i := by
    intro i j hi hj
    exact hOk.2.2.2.1 i j (hgde ▸ hi) (hgde ▸ hj)
  have hI5' : ∀ i j p, i < 2 ^ gd → j < 2 ^ gd →
      dir.bucketPageIds i = some p → dir.bucketPageIds j = some p →
      j % 2 ^ dir.localDepths i = i % 2 ^ dir.localDepths i := by
    intro i j p hi hj
    exact hOk.2.2.2.2.1 i j p (hgde ▸ hi) (hgde ▸ hj)
  have hC4 : ∀ j, j < 2 ^ gd → j % 2 ^ ld0 = bIdx % 2 ^ ld0 →
      dir.bucketPageIds j = some bpid ∧ dir.localDepths j = ld0 := by
    intro j hj hjc
    have := hI4' bIdx j hbIdx hj (by rw [← hld0e]; exact hjc)
    exact ⟨this.1.trans hpidb, this.2.trans hld0e.symm⟩
  have hS4 : ∀ j, j < 2 ^ gd → j % 2 ^ ld0 = sIdx % 2 ^ ld0 →
      dir.bucketPageIds j = some spid ∧ dir.localDepths j = ld0 := by
    intro j hj hjc
    have := hI4' sIdx j hsgd hj (by rw [hldeq]; exact hjc)
    exact ⟨this.1.trans hpids, this.2.trans hldeq⟩
  have hC5 : ∀ j, j < 2 ^ gd → dir.bucketPageIds j = some bpid →
      j % 2 ^ ld0 = bIdx % 2 ^ ld0 := by
    intro j hj hjp
    have := hI5' bIdx j bpid hbIdx hj hpidb hjp
    rw [← hld0e] at this
    exact this
  have hifP : ∀ x, x < 2 ^ gd →
      x % 2 ^ (ld0 - 1) = bIdx % 2 ^ (ld0 - 1) →
      D.bucketPageIds x = some bpid ∧ D.localDepths x = ld0 - 1 := by
    intro x hx hxc
    rw [hDpid x, hDld x, if_pos ⟨hx, hxc⟩, if_pos ⟨hx, hxc⟩]
    exact ⟨rfl, rfl⟩
  have hifN : ∀ x, ¬ x % 2 ^ (ld0 - 1) = bIdx % 2 ^ (ld0 - 1) →
      D.bucketPageIds x = dir.bucketPageIds x ∧
        D.localDepths x = dir.localDepths x := by
    intro x hxc
    rw [hDpid x, hDld x, if_neg (fun h => hxc h.2),
      if_neg (fun h => hxc h.2)]
    exact ⟨rfl, rfl⟩
  refine ⟨⟨?_, ?_, ?_, ?_, ?_, ?_⟩, ?_, ?_⟩
  · rw [hDmax]; exact hOk.1
  · rw [hDgd]; exact hOk.2.1
  · intro i hi
    rw [hDgd, ← hgde] at hi
    rw [hDld i, hDgd, ← hgde]
    split_ifs with hc
    · omega
    · exact hgde ▸ hOk.2.2.1 i (hgde ▸ hi)
  · intro i j hi hj hcl
    rw [hDgd, ← hgde] at hi hj
    rw [hDld i] at hcl
    by_cases hic : i % 2 ^ (ld0 - 1) = bIdx % 2 ^ (ld0 - 1)
    · rw [if_pos ⟨hi, hic⟩] at hcl
      have hjc : j % 2 ^ (ld0 - 1) = bIdx % 2 ^ (ld0 - 1) :=
        hcl.trans hic
      rw [(hifP i hi hic).1, (hifP i hi hic).2, (hifP j hj hjc).1,
        (hifP j hj hjc).2]
      exact ⟨rfl, rfl⟩
    · rw [if_neg (fun h => hic h.2)] at hcl
      have hjc : ¬ j % 2 ^ (ld0 - 1) = bIdx % 2 ^ (ld0 - 1) := by
        intro hjc
        apply hic
        by_cases hle : dir.localDepths i ≤ ld0 - 1
        · have h1 : i % 2 ^ dir.localDepths i =
              bIdx % 2 ^ dir.localDepths i :=
            hcl.symm.trans (class_mono hle hjc)
          have h2 := (hI4' i bIdx hi hbIdx h1.symm).2
          exact absurd (hld0e.trans h2) (by omega)
        · have h1 := class_mono
            (by omega : ld0 - 1 ≤ dir.localDepths i) hcl
          exact h1.symm.trans hjc
      constructor
      · rw [(hifN i hic).1, (hifN j hjc).1]
        exact (hI4' i j hi hj hcl).1
      · rw [(hifN i hic).2, (hifN j hjc).2]
        exact (hI4' i j hi hj hcl).2
  · intro i j p hi hj hpi hpj
    rw [hDgd, ← hgde] at hi hj
    rw [hDpid i] at hpi
    rw [hDpid j] at hpj
    rw [hDld i]
    by_cases hic : i % 2 ^ (ld0 - 1) = bIdx % 2 ^ (ld0 - 1)
    · rw [if_pos ⟨hi, hic⟩] at hpi ⊢
      obtain rfl : bpid = p := Option.some.inj hpi
      by_cases hjc : j % 2 ^ (ld0 - 1) = bIdx % 2 ^ (ld0 - 1)
      · exact hjc.trans hic.symm
      · rw [if_neg (fun h => hjc h.2)] at hpj
        exact absurd (class_mono (by omega : ld0 - 1 ≤ ld0)
          (hC5 j hj hpj)) hjc
    · rw [if_neg (fun h => hic h.2)] at hpi ⊢
      by_cases hjc : j % 2 ^ (ld0 - 1) = bIdx % 2 ^ (ld0 - 1)
      · rw [if_pos ⟨hj, hjc⟩] at hpj
        obtain rfl : bpid = p := Option.some.inj hpj
        exact absurd (class_mono (by omega : ld0 - 1 ≤ ld0)
          (hC5 i hi hpi)) hic
      · rw [if_neg (fun h => hjc h.2)] at hpj
        exact hI5' i j p hi hj hpi hpj
  · intro i hi
    rw [hDgd, ← hgde] at hi
    by_cases hic : i % 2 ^ (ld0 - 1) = bIdx % 2 ^ (ld0 - 1)
    · rw [(hifP i hi hic).1, (hifP i hi hic).2]
      rcases hOk.2.2.2.2.2 bIdx (hgde ▸ hbIdx) with
        ⟨p0, hp0, hfr0, b0, hb0, hok0⟩ | ⟨hn0, -⟩
      · obtain rfl : p0 = bpid := by
          rw [hpidb] at hp0
          exact (Option.some.inj hp0).symm
        refine Or.inl ⟨p0, rfl, hfr0, b0, hb0, ?_⟩
        have he0 : b0.entries = [] := hempty b0 hb0
        refine ⟨hok0.1, by rw [he0]; simp, by rw [he0]; simp, ?_⟩
        intro e he
        rw [he0] at he
        exact absurd he (by simp)
      · rw [hpidb] at hn0
        exact absurd hn0 (by simp)
    · rw [(hifN i hic).1, (hifN i hic).2]
      rcases hOk.2.2.2.2.2 i (hgde ▸ hi) with h | ⟨hn, hg0⟩
      · exact Or.inl h
      · rw [← hgde] at hg0
        rw [hg0] at hi hbIdx
        exact absurd (by
          have : i = bIdx := by omega
          rw [this]) hic
  · intro q
    unfold dirLookup
    have hxb : hashToBucketIndex D (hash32 c q) =
        hash32 c q % 2 ^ gd := by
      show hash32 c q % 2 ^ D.globalDepth = _
      rw [hDgd, ← hgde]
    have hxd : hashToBucketIndex dir (hash32 c q) =
        hash32 c q % 2 ^ gd := by
      show hash32 c q % 2 ^ dir.globalDepth = _
      rw [← hgde]
    have hjlt : hash32 c q % 2 ^ gd < 2 ^ gd :=
      Nat.mod_lt _ (Nat.two_pow_pos _)
    rw [hxb, hxd]
    by_cases hjc : hash32 c q % 2 ^ gd % 2 ^ (ld0 - 1) =
        bIdx % 2 ^ (ld0 - 1)
    · rw [(hifP _ hjlt hjc).1]
      rcases (hiff _).mp hjc with h0 | h0
      · rw [(hC4 _ hjlt h0).1]
      · have h0' : hash32 c q % 2 ^ gd % 2 ^ ld0 = sIdx % 2 ^ ld0 := by
          rw [h0, hsmod]
        rw [(hS4 _ hjlt h0').1]
        dsimp only
        cases hbB : s.bucketPages bpid with
        | none =>
            cases hbS : s.bucketPages spid with
            | none => rfl
            | some b =>
                dsimp only
                rw [bucketLookup_empty (hsempty b hbS)]
        | some b =>
            dsimp only
            rw [bucketLookup_empty (hempty b hbB)]
            cases hbS : s.bucketPages spid with
            | none => rfl
            | some b' =>
                dsimp only
                rw [bucketLookup_empty (hsempty b' hbS)]
    · rw [(hifN _ hjc).1]
  · intro i p hi hpi
    rw [hDpid i] at hpi
    split_ifs at hpi with h0
    · refine ⟨bIdx, hbIdx, ?_⟩
      rw [hpidb]
      exact congrArg some (Option.some.inj hpi)
    · exact ⟨i, hi, hpi⟩

end BusTub

namespace BusTub

/-- `TryMergeBucketRecursive` never changes the state (it only clears
already-empty pages), keeps the directory invariant, preserves every
lookup and introduces no new page id, provided the addressed bucket is
empty. -/
theorem tryMerge_contract (c : HTConfig) (hIdx : Nat) :
    ∀ (fuel : Nat) (s : HTState) (dir : DirPage) (bIdx : Nat),
      DirOk c s hIdx dir →
      bIdx < 2 ^ dir.globalDepth →
      (∀ p b, dir.bucketPageIds bIdx = some p →
        s.bucketPages p = some b → b.entries = []) →
      (tryMergeBucketRecursive c fuel s dir bIdx).1 = s ∧
      DirOk c s hIdx (tryMergeBucketRecursive c fuel s dir bIdx).2 ∧
      (tryMergeBucketRecursive c fuel s dir bIdx).2.globalDepth =
        dir.globalDepth ∧
      (tryMergeBucketRecursive c fuel s dir bIdx).2.maxDepth =
        dir.maxDepth ∧
      (∀ q, dirLookup c s
        (tryMergeBucketRecursive c fuel s dir bIdx).2 q =
        dirLookup c s dir q) ∧
      (∀ i p, i < 2 ^ dir.globalDepth →
        (tryMergeBucketRecursive c fuel s dir bIdx).2.bucketPageIds i =
          some p →
        ∃ j, j < 2 ^ dir.globalDepth ∧ dir.bucketPageIds j = some p) := by
  intro fuel
  induction fuel with
  | zero =>
      intro s dir bIdx hOk hbIdx hEmptyB
      exact ⟨rfl, hOk, rfl, rfl, fun q => rfl,
        fun i p hi hpi => ⟨i, hi, hpi⟩⟩
  | succ fuel ih =>
      intro s dir bIdx hOk hbIdx hEmptyB
      unfold tryMergeBucketRecursive
      dsimp only
      by_cases h0 : dir.localDepths bIdx = 0
      · rw [if_pos h0]
        exact ⟨rfl, hOk, rfl, rfl, fun q => rfl,
          fun i p hi hpi => ⟨i, hi, hpi⟩⟩
      · rw [if_neg h0]
        cases hsp : dir.bucketPageIds
            (splitImageIndex (dir.localDepths bIdx) bIdx) with
        | none =>
            exact ⟨rfl, hOk, rfl, rfl, fun q => rfl,
              fun i p hi hpi => ⟨i, hi, hpi⟩⟩
        | some spid =>
            dsimp only
            cases hsb : s.bucketPages spid with
            | none =>
                exact ⟨rfl, hOk, rfl, rfl, fun q => rfl,
                  fun i p hi hpi => ⟨i, hi, hpi⟩⟩
            | some splitB =>
                dsimp only
                by_cases hemp : bucketIsEmpty splitB = false
                · rw [if_pos hemp]
                  exact ⟨rfl, hOk, rfl, rfl, fun q => rfl,
                    fun i p hi hpi => ⟨i, hi, hpi⟩⟩
                · rw [if_neg hemp]
                  by_cases hne : dir.localDepths bIdx ≠ dir.localDepths
                      (splitImageIndex (dir.localDepths bIdx) bIdx)
                  · rw [if_pos hne]
                    exact ⟨rfl, hOk, rfl, rfl, fun q => rfl,
                      fun i p hi hpi => ⟨i, hi, hpi⟩⟩
                  · rw [if_neg hne]
                    cases hpb : dir.bucketPageIds bIdx with
                    | none =>
                        exact ⟨rfl, hOk, rfl, rfl, fun q => rfl,
                          fun i p hi hpi => ⟨i, hi, hpi⟩⟩
                    | some bpid =>
                        dsimp only
                        have hse : splitB.entries = [] := by
                          cases hE : splitB.entries with
                          | nil => rfl
                          | cons e es =>
                              exfalso
                              apply hemp
                              unfold bucketIsEmpty
                              rw [hE]
                              rfl
                        have hclear : bucketClear splitB = splitB := by
                          cases splitB with
                          | mk ms es =>
                              unfold bucketClear
                              dsimp only at hse ⊢
                              rw [hse]
                        have hstate : setBucketPage s spid
                            (bucketClear splitB) = s := by
                          unfold setBucketPage
                          rw [hclear]
                          have h2 : Function.update s.bucketPages spid
                              (some splitB) = s.bucketPages := by
                            rw [← hsb]
                            exact Function.update_eq_self _ _
                          rw [h2]
                        rw [hstate]
                        obtain ⟨hOk2, hlook2, hpids2⟩ :=
                          merge_abstract c s hIdx dir bIdx bpid spid
                            { dir with
                                localDepths := fun i =>
                                  if i < dirSize dir ∧
                                      i % 2 ^ (dir.localDepths bIdx - 1) =
                                        bIdx %
                                          2 ^ (dir.localDepths bIdx - 1)
                                  then dir.localDepths bIdx - 1
                                  else dir.localDepths i
                                bucketPageIds := fun i =>
                                  if i < dirSize dir ∧
                                      i % 2 ^ (dir.localDepths bIdx - 1) =
                                        bIdx %
                                          2 ^ (dir.localDepths bIdx - 1)
                                  then some bpid
                                  else dir.bucketPageIds i }
                            dir.globalDepth (dir.localDepths bIdx)
                            (splitImageIndex (dir.localDepths bIdx) bIdx)
                            rfl rfl rfl hOk hbIdx (by omega) hpb hsp
                            (not_ne_iff.mp hne).symm
                            (fun b hb => hEmptyB bpid b hpb hb)
                            (fun b hb => by
                              rw [hsb] at hb
                              rw [← Option.some.inj hb]
                              exact hse)
                            rfl rfl (fun i => rfl) (fun i => rfl)
                        have hcond : bIdx < dirSize dir ∧
                            bIdx % 2 ^ (dir.localDepths bIdx - 1) =
                            bIdx % 2 ^ (dir.localDepths bIdx - 1) :=
                          ⟨hbIdx, rfl⟩
                        obtain ⟨hst, hOkR, hgdR, hmxR, hlookR, hpidsR⟩ :=
                          ih s _ bIdx hOk2 hbIdx
                            (fun p b hp hb => by
                              have hp' : (if bIdx < dirSize dir ∧
                                  bIdx % 2 ^ (dir.localDepths bIdx - 1) =
                                  bIdx % 2 ^ (dir.localDepths bIdx - 1)
                                  then some bpid
                                  else dir.bucketPageIds bIdx) =
                                  some p := hp
                              rw [if_pos hcond] at hp'
                              rw [← Option.some.inj hp'] at hb
                              exact hEmptyB bpid b hpb hb)
                        refine ⟨hst, hOkR, hgdR, hmxR, ?_, ?_⟩
                        · intro q
                          exact (hlookR q).trans (hlook2 q)
                        · intro i p hi hpi
                          obtain ⟨j, hj, hjp⟩ := hpidsR i p hi hpi
                          exact hpids2 j p hj hjp

end BusTub

namespace BusTub

/-- One `DecrGlobalDepth` under `CanShrink` preserves the invariant and
every lookup. -/
theorem decr_step {c : HTConfig} {s : HTState} {hIdx : Nat}
    {dir : DirPage}
    (hOk : DirOk c s hIdx dir)
    (hcs : canShrink dir = true) :
    DirOk c s hIdx (decrGlobalDepth dir) ∧
      (∀ q, dirLookup c s (decrGlobalDepth dir) q =
        dirLookup c s dir q) := by
  have hc := hcs
  unfold canShrink at hc
  rw [Bool.and_eq_true] at hc
  have hgd0 : 0 < dir.globalDepth := by simpa using hc.1
  have hlds : ∀ i, i < 2 ^ dir.globalDepth →
      dir.localDepths i < dir.globalDepth := by
    intro i hi
    have := List.all_eq_true.mp hc.2 i (List.mem_range.mpr hi)
    simpa using this
  have hgd : (decrGlobalDepth dir).globalDepth = dir.globalDepth - 1 :=
    rfl
  have hsub : ∀ i : Nat, i < 2 ^ (dir.globalDepth - 1) →
      i < 2 ^ dir.globalDepth := by
    intro i hi
    have : (2 : Nat) ^ (dir.globalDepth - 1) ≤ 2 ^ dir.globalDepth :=
      Nat.pow_le_pow_right (by norm_num) (by omega)
    omega
  obtain ⟨h1, h2, h3, h4, h5, h6⟩ := hOk
  constructor
  · refine ⟨h1, by rw [hgd]; omega, ?_, ?_, ?_, ?_⟩
    · intro i hi
      rw [hgd] at hi
      show dir.localDepths i ≤ (decrGlobalDepth dir).globalDepth
      rw [hgd]
      have := hlds i (hsub i hi)
      omega
    · intro i j hi hj hcl
      rw [hgd] at hi hj
      exact h4 i j (hsub i hi) (hsub j hj) hcl
    · intro i j p hi hj hpi hpj
      rw [hgd] at hi hj
      exact h5 i j p (hsub i hi) (hsub j hj) hpi hpj
    · intro i hi
      rw [hgd] at hi
      rcases h6 i (hsub i hi) with h | ⟨-, hg0⟩
      · exact Or.inl h
      · omega
  · intro q
    unfold dirLookup
    have hxa : hashToBucketIndex (decrGlobalDepth dir) (hash32 c q) =
        hash32 c q % 2 ^ (dir.globalDepth - 1) := by
      show hash32 c q % 2 ^ (decrGlobalDepth dir).globalDepth = _
      rw [hgd]
    have hxb : hashToBucketIndex dir (hash32 c q) =
        hash32 c q % 2 ^ dir.globalDepth := rfl
    rw [hxa, hxb]
    have hjlt : hash32 c q % 2 ^ dir.globalDepth < 2 ^ dir.globalDepth :=
      Nat.mod_lt _ (Nat.two_pow_pos _)
    have hjlt' : hash32 c q % 2 ^ (dir.globalDepth - 1) <
        2 ^ (dir.globalDepth - 1) :=
      Nat.mod_lt _ (Nat.two_pow_pos _)
    have hldj := hlds _ (hsub _ hjlt')
    have hcls : hash32 c q % 2 ^ dir.globalDepth %
        2 ^ dir.localDepths (hash32 c q % 2 ^ (dir.globalDepth - 1)) =
        hash32 c q % 2 ^ (dir.globalDepth - 1) %
        2 ^ dir.localDepths (hash32 c q % 2 ^ (dir.globalDepth - 1)) := by
      have e1 : hash32 c q % 2 ^ dir.globalDepth %
          2 ^ (dir.globalDepth - 1) =
          hash32 c q % 2 ^ (dir.globalDepth - 1) :=
        mod_mod_pow_le (by omega) _
      have e2 := class_mono
        (by omega : dir.localDepths
          (hash32 c q % 2 ^ (dir.globalDepth - 1)) ≤
          dir.globalDepth - 1) e1
      rw [e2, mod_mod_pow_le
        (by omega : dir.localDepths
          (hash32 c q % 2 ^ (dir.globalDepth - 1)) ≤
          dir.globalDepth - 1)]
    have := h4 _ _ (hsub _ hjlt') hjlt hcls
    rw [this.1]
    rfl

end BusTub

namespace BusTub

/-- The `while (CanShrink()) DecrGlobalDepth()` loop preserves the
invariant and every lookup, and uses only the directory's own page ids. -/
theorem shrinkLoop_contract (c : HTConfig) (s : HTState) (hIdx : Nat) :
    ∀ (fuel : Nat) (dir : DirPage),
      DirOk c s hIdx dir →
      DirOk c s hIdx (shrinkLoop fuel dir) ∧
      (∀ q, dirLookup c s (shrinkLoop fuel dir) q =
        dirLookup c s dir q) ∧
      (∀ i p, i < 2 ^ (shrinkLoop fuel dir).globalDepth →
        (shrinkLoop fuel dir).bucketPageIds i = some p →
        ∃ j, j < 2 ^ dir.globalDepth ∧ dir.bucketPageIds j = some p) := by
  intro fuel
  induction fuel with
  | zero =>
      intro dir hOk
      exact ⟨hOk, fun q => rfl, fun i p hi hpi => ⟨i, hi, hpi⟩⟩
  | succ fuel ih =>
      intro dir hOk
      unfold shrinkLoop
      by_cases hcs : canShrink dir = true
      · rw [if_pos hcs]
        obtain ⟨hOk1, hlook1⟩ := decr_step hOk hcs
        obtain ⟨hOkR, hlookR, hpidsR⟩ := ih (decrGlobalDepth dir) hOk1
        refine ⟨hOkR, ?_, ?_⟩
        · intro q
          exact (hlookR q).trans (hlook1 q)
        · intro i p hi hpi
          obtain ⟨j, hj, hjp⟩ := hpidsR i p hi hpi
          have hj' : j < 2 ^ dir.globalDepth := by
            have hg : (decrGlobalDepth dir).globalDepth =
                dir.globalDepth - 1 := rfl
            rw [hg] at hj
            have : (2 : Nat) ^ (dir.globalDepth - 1) ≤
                2 ^ dir.globalDepth :=
              Nat.pow_le_pow_right (by norm_num) (by omega)
            omega
          exact ⟨j, hj', hjp⟩
      · rw [if_neg hcs]
        exact ⟨hOk, fun q => rfl, fun i p hi hpi => ⟨i, hi, hpi⟩⟩

end BusTub

namespace BusTub

/-- Committing a rewritten directory page (with the bucket store
untouched) preserves the invariant and every lookup, provided the new
directory is valid, lookup-equivalent and uses only old page ids. -/
theorem commit_step {c : HTConfig} {s1 : HTState} {hIdx dpid : Nat}
    {dir D : DirPage}
    (hInv : HTInv c s1)
    (hh : s1.headerDirIds hIdx = some dpid)
    (hd : s1.dirPages dpid = some dir)
    (hDOk : DirOk c s1 hIdx D)
    (hlook : ∀ q, dirLookup c s1 D q = dirLookup c s1 dir q)
    (hpids : ∀ i p, i < 2 ^ D.globalDepth → D.bucketPageIds i = some p →
      ∃ j, j < 2 ^ dir.globalDepth ∧ dir.bucketPageIds j = some p) :
    HTInv c (setDirPage s1 dpid D) ∧
      ∀ q, lookupHT c (setDirPage s1 dpid D) q = lookupHT c s1 q := by
  constructor
  · refine @HTInv_commit c s1 _ hIdx dpid D hInv hh rfl rfl
      (Nat.le_refl _) (DirOk_frame hDOk (Nat.le_refl _) fun p _ => rfl)
      ?_ ?_
    · intro i p hi hpi
      obtain ⟨j, hj, hjp⟩ := hpids i p hi hpi
      exact Or.inl ⟨dir, j, hd, hj, hjp⟩
    · intro p hp hnin
      rfl
  · intro q
    by_cases hq : hashToDirectoryIndex c (hash32 c q) = hIdx
    · have hhq : (setDirPage s1 dpid D).headerDirIds
          (hashToDirectoryIndex c (hash32 c q)) = some dpid := by
        rw [hq]
        exact hh
      have hdq : (setDirPage s1 dpid D).dirPages dpid = some D :=
        Function.update_same _ _ _
      rw [lookupHT_eq_dirLookup hhq hdq,
        lookupHT_eq_dirLookup (show s1.headerDirIds
          (hashToDirectoryIndex c (hash32 c q)) = some dpid by
            rw [hq]; exact hh) hd]
      rw [dirLookup_bucketPages
        (show (setDirPage s1 dpid D).bucketPages = s1.bucketPages
          from rfl)]
      exact hlook q
    · apply lookupHT_frame
      · rfl
      · intro dp2 hdp2
        have hne : dp2 ≠ dpid := fun h0 =>
          hq (hInv.2.1 _ _ dpid (h0 ▸ hdp2) hh)
        exact Function.update_noteq hne _ _
      · intro dp2 dirx bpx hdp2 hdx hbx
        rfl

end BusTub

namespace BusTub

/-- Contract of `Remove`: the invariant is preserved; other keys'
lookups are untouched; success removes the key's mapping; failure leaves
everything unchanged. -/
theorem removeHT_contract (c : HTConfig) (s : HTState) (k : Nat)
    (hInv : HTInv c s) :
    HTInv c (removeHT c s k).2 ∧
    (∀ q, q ≠ k → lookupHT c (removeHT c s k).2 q = lookupHT c s q) ∧
    ((removeHT c s k).1 = true →
      lookupHT c (removeHT c s k).2 k = none) ∧
    ((removeHT c s k).1 = false →
      lookupHT c (removeHT c s k).2 k = lookupHT c s k) := by
  unfold removeHT
  dsimp only
  cases hh : s.headerDirIds (hashToDirectoryIndex c (hash32 c k)) with
  | none =>
      exact ⟨hInv, fun _ _ => rfl, fun h0 => absurd h0 (by simp),
        fun _ => rfl⟩
  | some dpid =>
      dsimp only
      cases hd : s.dirPages dpid with
      | none =>
          exact ⟨hInv, fun _ _ => rfl, fun h0 => absurd h0 (by simp),
            fun _ => rfl⟩
      | some dir =>
          dsimp only
          cases hpb : dir.bucketPageIds
              (hashToBucketIndex dir (hash32 c k)) with
          | none =>
              exact ⟨hInv, fun _ _ => rfl, fun h0 => absurd h0 (by simp),
                fun _ => rfl⟩
          | some bpid =>
              dsimp only
              cases hbk : s.bucketPages bpid with
              | none =>
                  exact ⟨hInv, fun _ _ => rfl,
                    fun h0 => absurd h0 (by simp), fun _ => rfl⟩
              | some bucket =>
                  dsimp only
                  by_cases hfound : (bucketLookup bucket k).isSome = true
                  swap
                  · have hrem : bucketRemove bucket k = (bucket, false) := by
                      unfold bucketRemove
                      rw [if_neg hfound]
                    rw [hrem]
                    dsimp only
                    rw [if_pos rfl]
                    exact ⟨hInv, fun _ _ => rfl,
                      fun h0 => absurd h0 (by simp), fun _ => rfl⟩
                  · have hrem : bucketRemove bucket k =
                        ({ bucket with entries :=
                          bucket.entries.eraseP fun e => e.1 == k },
                          true) := by
                      unfold bucketRemove
                      rw [if_pos hfound]
                    rw [hrem]
                    dsimp only
                    rw [if_neg (by simp : ¬ (true = false))]
                    obtain ⟨hfr0, dir0, hd0, hOk0⟩ := hInv.1 _ dpid hh
                    have hde : dir0 = dir := by
                      rw [hd0] at hd
                      exact Option.some.inj hd
                    rw [hde] at hOk0
                    have hbi : hashToBucketIndex dir (hash32 c k) <
                        2 ^ dir.globalDepth :=
                      Nat.mod_lt _ (Nat.two_pow_pos _)
                    rcases hOk0.2.2.2.2.2 _ hbi with
                      ⟨bpid', hbp', hfr, bk0, hbk0, hbOk⟩ | ⟨hn, -⟩
                    swap
                    · rw [hpb] at hn
                      exact absurd hn (by simp)
                    have hbe : bpid' = bpid := by
                      rw [hbp'] at hpb
                      exact Option.some.inj hpb
                    rw [hbe] at hfr hbk0
                    have hbk0e : bk0 = bucket := by
                      rw [hbk0] at hbk
                      exact Option.some.inj hbk
                    rw [hbk0e] at hbOk
                    have hpb' : dir.bucketPageIds
                        (hashToBucketIndex dir (hash32 c k)) = some bpid :=
                      by rw [hbp', hbe]
                    have hOkE : BucketOk c
                        (hashToDirectoryIndex c (hash32 c k))
                        (dir.localDepths
                          (hashToBucketIndex dir (hash32 c k)))
                        (hashToBucketIndex dir (hash32 c k))
                        { bucket with entries :=
                          bucket.entries.eraseP fun e => e.1 == k } := by
                      refine ⟨hbOk.1, ?_, ?_, ?_⟩
                      · exact le_trans
                          (List.Sublist.length_le (List.eraseP_sublist _))
                          hbOk.2.1
                      · exact List.Nodup.sublist
                          (List.Sublist.map _ (List.eraseP_sublist _))
                          hbOk.2.2.1
                      · intro e he
                        exact hbOk.2.2.2 e (List.mem_of_mem_eraseP he)
                    by_cases hemp2 : bucketIsEmpty
                        { bucket with entries :=
                          bucket.entries.eraseP fun e => e.1 == k } =
                        false
                    · rw [if_pos hemp2]
                      refine ⟨HTInv_setBucket hInv hh hd hbi hpb' hbk hOkE,
                        ?_, ?_, ?_⟩
                      · intro q hq
                        apply lookupHT_setBucket_congr hbk
                        unfold bucketLookup
                        dsimp only
                        rw [find?_key_eraseP_other hq]
                      · intro h0
                        have hbnew : (setBucketPage s bpid
                            { bucket with entries :=
                              bucket.entries.eraseP fun e =>
                                e.1 == k }).bucketPages bpid =
                            some { bucket with entries :=
                              bucket.entries.eraseP fun e => e.1 == k } :=
                          Function.update_same _ _ _
                        have hhN : (setBucketPage s bpid
                            { bucket with entries :=
                              bucket.entries.eraseP fun e =>
                                e.1 == k }).headerDirIds
                            (hashToDirectoryIndex c (hash32 c k)) =
                            some dpid := hh
                        have hdN : (setBucketPage s bpid
                            { bucket with entries :=
                              bucket.entries.eraseP fun e =>
                                e.1 == k }).dirPages dpid = some dir := hd
                        rw [lookupHT_route_bucket hhN hdN hpb' hbnew]
                        unfold bucketLookup
                        dsimp only
                        rw [find?_key_eraseP_self hbOk.2.2.1]
                        rfl
                      · intro h0
                        exact absurd h0 (by simp)
                    · rw [if_neg hemp2]
                      dsimp only
                      have hempL : bucket.entries.eraseP
                          (fun e => e.1 == k) = [] := by
                        cases hE : bucket.entries.eraseP
                            fun e => e.1 == k with
                        | nil => rfl
                        | cons e es =>
                            exfalso
                            apply hemp2
                            unfold bucketIsEmpty
                            dsimp only
                            rw [hE]
                            rfl
                      have hInv1 := HTInv_setBucket hInv hh hd hbi hpb' hbk
                        hOkE
                      have hpre1o : ∀ q, q ≠ k →
                          lookupHT c (setBucketPage s bpid
                            { bucket with entries :=
                              bucket.entries.eraseP fun e => e.1 == k }) q
                            = lookupHT c s q := by
                        intro q hq
                        apply lookupHT_setBucket_congr hbk
                        unfold bucketLookup
                        dsimp only
                        rw [find?_key_eraseP_other hq]
                      have hbnew : (setBucketPage s bpid
                          { bucket with entries :=
                            bucket.entries.eraseP fun e =>
                              e.1 == k }).bucketPages bpid =
                          some { bucket with entries :=
                            bucket.entries.eraseP fun e => e.1 == k } :=
                        Function.update_same _ _ _
                      have hhN : (setBucketPage s bpid
                          { bucket with entries :=
                            bucket.entries.eraseP fun e =>
                              e.1 == k }).headerDirIds
                          (hashToDirectoryIndex c (hash32 c k)) =
                          some dpid := hh
                      have hdN : (setBucketPage s bpid
                          { bucket with entries :=
                            bucket.entries.eraseP fun e =>
                              e.1 == k }).dirPages dpid = some dir := hd
                      have hpre1k : lookupHT c (setBucketPage s bpid
                          { bucket with entries :=
                            bucket.entries.eraseP fun e => e.1 == k }) k
                          = none := by
                        rw [lookupHT_route_bucket hhN hdN hpb' hbnew]
                        unfold bucketLookup
                        dsimp only
                        rw [find?_key_eraseP_self hbOk.2.2.1]
                        rfl
                      obtain ⟨-, dir1, hd1, hOk1⟩ := hInv1.1 _ dpid hhN
                      have hd1' : s.dirPages dpid = some dir1 := hd1
                      have hde1 : dir1 = dir := by
                        rw [hd1'] at hd
                        exact Option.some.inj hd
                      rw [hde1] at hOk1
                      have hEmpty1 : ∀ p b,
                          dir.bucketPageIds
                            (hashToBucketIndex dir (hash32 c k)) =
                            some p →
                          (setBucketPage s bpid
                            { bucket with entries :=
                              bucket.entries.eraseP fun e =>
                                e.1 == k }).bucketPages p = some b →
                          b.entries = [] := by
                        intro p b hp hb
                        have hpe : p = bpid := by
                          rw [hpb'] at hp
                          exact (Option.some.inj hp).symm
                        rw [hpe, hbnew] at hb
                        rw [← Option.some.inj hb]
                        dsimp only
                        exact hempL
                      obtain ⟨hst, hOkM, hgdM, hmxM, hlookM, hpidsM⟩ :=
                        tryMerge_contract c
                          (hashToDirectoryIndex c (hash32 c k))
                          (dir.localDepths
                            (hashToBucketIndex dir (hash32 c k)) + 1)
                          (setBucketPage s bpid
                            { bucket with entries :=
                              bucket.entries.eraseP fun e => e.1 == k })
                          dir (hashToBucketIndex dir (hash32 c k))
                          hOk1 hbi hEmpty1
                      obtain ⟨hOkS, hlookS, hpidsS⟩ :=
                        shrinkLoop_contract c
                          (setBucketPage s bpid
                            { bucket with entries :=
                              bucket.entries.eraseP fun e => e.1 == k })
                          (hashToDirectoryIndex c (hash32 c k))
                          ((tryMergeBucketRecursive c
                            (dir.localDepths
                              (hashToBucketIndex dir (hash32 c k)) + 1)
                            (setBucketPage s bpid
                              { bucket with entries :=
                                bucket.entries.eraseP fun e => e.1 == k })
                            dir (hashToBucketIndex dir
                              (hash32 c k))).2.globalDepth + 1)
                          (tryMergeBucketRecursive c
                            (dir.localDepths
                              (hashToBucketIndex dir (hash32 c k)) + 1)
                            (setBucketPage s bpid
                              { bucket with entries :=
                                bucket.entries.eraseP fun e => e.1 == k })
                            dir (hashToBucketIndex dir (hash32 c k))).2
                          hOkM
                      rw [hst]
                      obtain ⟨hInvF, hlookF⟩ := commit_step hInv1 hhN hdN
                        hOkS
                        (fun q => (hlookS q).trans (hlookM q))
                        (fun i p hi hpi => by
                          obtain ⟨j, hj, hjp⟩ := hpidsS i p hi hpi
                          rw [hgdM] at hj
                          exact hpidsM j p hj hjp)
                      refine ⟨hInvF, ?_, ?_, ?_⟩
                      · intro q hq
                        exact (hlookF q).trans (hpre1o q hq)
                      · intro h0
                        exact (hlookF k).trans hpre1k
                      · intro h0
                        exact absurd h0 (by simp)

end BusTub

namespace BusTub

/-- One table operation preserves the invariant and keeps every lookup
equal to the ghost map of last-inserted-not-removed values. -/
theorem htStep_inv (c : HTConfig) (sg : HTState × (Nat → Option Nat))
    (op : HTOp)
    (hInv : HTInv c sg.1) (hg : ∀ q, lookupHT c sg.1 q = sg.2 q) :
    HTInv c (htStep c sg op).1 ∧
      ∀ q, lookupHT c (htStep c sg op).1 q = (htStep c sg op).2 q := by
  cases op with
  | insertOp k v =>
      unfold htStep
      dsimp only
      obtain ⟨hI, ho, ht, hf⟩ :=
        insertHT_contract c (c.dirMaxDepth + 2) sg.1 k v hInv
      refine ⟨hI, ?_⟩
      intro q
      cases hres : (insertHT c (c.dirMaxDepth + 2) sg.1 k v).1 with
      | true =>
          rw [if_pos rfl]
          by_cases hqk : q = k
          · subst hqk
            rw [Function.update_same]
            exact ht hres
          · rw [Function.update_noteq hqk, ho q hqk]
            exact hg q
      | false =>
          rw [if_neg (by simp : ¬ (false = true))]
          by_cases hqk : q = k
          · subst hqk
            rw [hf hres]
            exact hg q
          · rw [ho q hqk]
            exact hg q
  | removeOp k =>
      unfold htStep
      dsimp only
      obtain ⟨hI, ho, ht, hf⟩ := removeHT_contract c sg.1 k hInv
      refine ⟨hI, ?_⟩
      intro q
      cases hres : (removeHT c sg.1 k).1 with
      | true =>
          rw [if_pos rfl]
          by_cases hqk : q = k
          · subst hqk
            rw [Function.update_same]
            exact ht hres
          · rw [Function.update_noteq hqk, ho q hqk]
            exact hg q
      | false =>
          rw [if_neg (by simp : ¬ (false = true))]
          by_cases hqk : q = k
          · subst hqk
            rw [hf hres]
            exact hg q
          · rw [ho q hqk]
            exact hg q

/-- After any operation sequence from a fresh table, the invariant holds
and every lookup equals the ghost map. -/
theorem runHT_inv (c : HTConfig) (ops : List HTOp) :
    HTInv c (runHT c ops).1 ∧
      ∀ q, lookupHT c (runHT c ops).1 q = (runHT c ops).2 q := by
  suffices H : ∀ (l : List HTOp) (sg : HTState × (Nat → Option Nat)),
      HTInv c sg.1 → (∀ q, lookupHT c sg.1 q = sg.2 q) →
      HTInv c (l.foldl (htStep c) sg).1 ∧
        ∀ q, lookupHT c (l.foldl (htStep c) sg).1 q =
          (l.foldl (htStep c) sg).2 q by
    exact H ops (htInit, fun _ => none) (htInit_inv c)
      (fun q => lookupHT_htInit c q)
  intro l
  induction l with
  | nil =>
      intro sg h1 h2
      exact ⟨h1, h2⟩
  | cons op rest ih =>
      intro sg h1 h2
      obtain ⟨h1', h2'⟩ := htStep_inv c sg op h1 h2
      exact ih (htStep c sg op) h1' h2'

end BusTub

namespace BusTub

/-- The round trip of the guard-free hash-table logic: for every sequence
of operations run on a fresh table, the lookup chain returns `true` and
appends exactly the value of the last successful insert for `k` not
subsequently removed (tracked by the ghost map of `runHT`), and returns
`false`, appending nothing, otherwise.  This is a property of the logic
downstream of the page guards; the real entry points crash before
reaching it (see `hash_table_ops_crash_before_any_logic`). -/
theorem hash_table_round_trip (c : HTConfig) (ops : List HTOp) (k : Nat)
    (res : List Nat) :
    getValue c (runHT c ops).1 k res =
      (((runHT c ops).2 k).isSome, res ++ ((runHT c ops).2 k).toList) := by
  rw [getValue_char, (runHT_inv c ops).2 k]

end BusTub

namespace BusTub

/-! ### The page-guard layer of the hash table's entry points

`GetValue`, `Insert` and `Remove` obtain every page through
`bpm_->FetchPageRead(...)` / `bpm_->FetchPageWrite(...)` (and
`NewPageGuarded(...).UpgradeWrite()` inside `SplitBucket`) and then read
it with the guard's `As`/`AsMut`.  The two-argument guard constructors
in `page_guard.cpp` have empty bodies
(`ReadPageGuard::ReadPageGuard(BufferPoolManager *bpm, Page *page) {}`,
`WritePageGuard::WritePageGuard(BufferPoolManager *bpm, Page *page) {}`),
so whatever page was fetched, the guard's `guard_.page_` keeps its
default `nullptr`, and the first `As`/`AsMut` dereferences a null
pointer.  `none` models that crash. -/

/-- The page stored by the guard that the empty two-argument
`ReadPageGuard`/`WritePageGuard` constructors build: `nullptr`
(`none`), whatever `fetched` page was handed to the constructor. -/
def guardHeldPage {α : Type} (fetched : Option α) : Option α := none

/-- `DiskExtendibleHashTable::GetValue` with the page-guard layer made
explicit: each page is read through the guard built by the empty
constructor, so the header `As` already dereferences `nullptr`.  The
continuations mirror the source chain (they are unreachable). -/
def getValueGuarded (c : HTConfig) (s : HTState) (k : Nat)
    (res : List Nat) : Option (Bool × List Nat) :=
  match guardHeldPage (some s.headerDirIds) with
  | none => none
  | some header =>
      match header (hashToDirectoryIndex c (hash32 c k)) with
      | none => some (false, res)
      | some dpid =>
          match guardHeldPage (s.dirPages dpid) with
          | none => none
          | some dir =>
              match dir.bucketPageIds (hashToBucketIndex dir
                  (hash32 c k)) with
              | none => some (false, res)
              | some bpid =>
                  match guardHeldPage (s.bucketPages bpid) with
                  | none => none
                  | some b =>
                      match bucketLookup b k with
                      | some v => some (true, res ++ [v])
                      | none => some (false, res)

/-- `DiskExtendibleHashTable::Insert` with the guard layer made
explicit: the first statement reads the header through
`FetchPageWrite(header_page_id_).AsMut<...>()`, whose guard lost the
page — a null dereference.  The (unreachable) continuation is the
downstream logic `insertHT` at the implementation's fuel. -/
def insertGuarded (c : HTConfig) (s : HTState) (k v : Nat) :
    Option (Bool × HTState) :=
  match guardHeldPage (some s.headerDirIds) with
  | none => none
  | some _ => some (insertHT c (c.dirMaxDepth + 2) s k v)

/-- `DiskExtendibleHashTable::Remove` with the guard layer made
explicit: it crashes at the header `AsMut` exactly like `Insert`; the
(unreachable) continuation is the downstream logic `removeHT`. -/
def removeGuarded (c : HTConfig) (s : HTState) (k : Nat) :
    Option (Bool × HTState) :=
  match guardHeldPage (some s.headerDirIds) with
  | none => none
  | some _ => some (removeHT c s k)

/-- C1: the claimed round trip never happens in the program.  Every
hash-table entry point reads its first (header) page through a
`ReadPageGuard`/`WritePageGuard` whose empty constructor lost the page
pointer, so `Insert`, `Remove` and `GetValue` all dereference `nullptr`
at the header access — for every state (in particular the freshly
constructed table) and every key, before any directory or bucket logic
runs.  No sequence of operations can be executed, and `GetValue` can
never report a previously inserted value.  (The logic downstream of the
guards does satisfy the claimed round trip: `hash_table_round_trip`.) -/
theorem hash_table_ops_crash_before_any_logic (c : HTConfig)
    (s : HTState) (k v : Nat) (res : List Nat) :
    insertGuarded c s k v = none ∧ removeGuarded c s k = none ∧
      getValueGuarded c s k res = none :=
  ⟨rfl, rfl, rfl⟩

/-- C9: a single `GetValue` call can neither append an element nor
return the claimed flag: its very first step reads the header page
through the guard returned by `FetchPageRead`, whose empty constructor
lost the page pointer, so the call dereferences `nullptr` for every
state, key and result vector — it never reaches the directory, the
bucket, or the push onto the result vector.  (The lookup chain
downstream of the guards does append at most one element:
`getValue_appends_at_most_one`.) -/
theorem getValue_crashes_at_header_guard (c : HTConfig) (s : HTState)
    (k : Nat) (res : List Nat) :
    getValueGuarded c s k res = none := rfl

end BusTub
